import Mathlib

/-!
# go-wrk: metrics kernel, collector and engine lifecycle

A shallow embedding of the benchmark core of `Th4phat/go-wrk`
(`metrics/metrics.go`, `benchmark/collector.go`, `benchmark/engine.go`)
together with the properties established about it.

Conventions.
* `time.Duration`, `int` and `int64` values are integers (`Int`); where a
  machine operation can wrap, the wrap is written out with `wrapInt64`.
* `float64` values are modelled by `F64`: a finite value is the rational it
  denotes, and every arithmetic operation rounds its exact result to the
  nearest binary64 value, ties to even (`F64.roundQ`).
* Library functions whose code is not part of the repository (`url.Parse`,
  `time.ParseDuration`) are parameters of the definitions that call them.
* The scheduler's choices (which ready `select` case is taken, whether a
  consumer is receiving) are explicit arguments of the definitions.
-/

namespace GoWrk

/-! ## float64 -/

/-- A Go `float64` value. The two zeros are identified (nothing in the embedded
code divides by a zero or inspects the sign bit). -/
inductive F64 where
  | nan : F64
  | inf (neg : Bool) : F64
  | fin (q : ℚ) : F64
  deriving DecidableEq

namespace F64

/-- Nearest integer to a rational, ties going to the even neighbour. -/
def roundHalfEven (q : ℚ) : ℤ :=
  if q - ⌊q⌋ < 1 / 2 then ⌊q⌋
  else if 1 / 2 < q - ⌊q⌋ then ⌊q⌋ + 1
  else if ⌊q⌋ % 2 = 0 then ⌊q⌋ else ⌊q⌋ + 1

/-- Exponent of the unit in the last place of the binary64 binade holding `q`
(53 significant bits, smallest normal exponent `-1022`, subnormals below). -/
def ulpExp (q : ℚ) : ℤ := max (Int.log 2 |q|) (-1022) - 52

/-- Round to nearest, ties to even, on the binary64 grid with unbounded
exponent range above. -/
def roundQ (q : ℚ) : ℚ := (roundHalfEven (q / 2 ^ ulpExp q) : ℚ) * 2 ^ ulpExp q

/-- The binary64 value of an exact result: rounded, overflowing to an infinity. -/
def ofRat (q : ℚ) : F64 :=
  if 2 ^ (1024 : ℕ) ≤ |roundQ q| then inf (decide (q < 0)) else fin (roundQ q)

/-- Conversion `float64(i)` of an integer. -/
def ofInt (i : ℤ) : F64 := ofRat i

/-- Go `x <= y` on `float64`: false as soon as an operand is NaN. -/
def le : F64 → F64 → Bool
  | nan, _ => false
  | _, nan => false
  | inf true, _ => true
  | _, inf false => true
  | inf false, _ => false
  | _, inf true => false
  | fin a, fin b => decide (a ≤ b)

/-- Go `x < y` on `float64`. -/
def lt : F64 → F64 → Bool
  | nan, _ => false
  | _, nan => false
  | inf true, inf true => false
  | inf true, _ => true
  | inf false, _ => false
  | fin _, inf b => !b
  | fin a, fin b => decide (a < b)

/-- Go `x * y` on `float64`. -/
def mul : F64 → F64 → F64
  | nan, _ => nan
  | _, nan => nan
  | inf s, inf t => inf (xor s t)
  | inf s, fin q => if q = 0 then nan else inf (xor s (decide (q < 0)))
  | fin q, inf s => if q = 0 then nan else inf (xor s (decide (q < 0)))
  | fin a, fin b => ofRat (a * b)

/-- Go `x / y` on `float64` (a zero divisor is taken as `+0`). -/
def div : F64 → F64 → F64
  | nan, _ => nan
  | _, nan => nan
  | inf _, inf _ => nan
  | inf s, fin q => inf (xor s (decide (q < 0)))
  | fin _, inf _ => fin 0
  | fin a, fin b =>
    if b = 0 then (if a = 0 then nan else inf (decide (a < 0))) else ofRat (a / b)

/-- The function `math.Ceil`. -/
def ceil : F64 → F64
  | fin q => fin (⌈q⌉ : ℤ)
  | x => x

/-- Truncation of a rational toward zero. -/
def truncQ (q : ℚ) : ℤ := if 0 ≤ q then ⌊q⌋ else ⌈q⌉

/-- Go conversion `int64(x)` of a `float64`: truncation toward zero. For NaN
and out-of-range values the language leaves the result to the implementation;
the value used here is the one of amd64 (`-2^63`). -/
def toInt : F64 → ℤ
  | fin q => if -(2 ^ (63 : ℕ)) ≤ truncQ q ∧ truncQ q < 2 ^ (63 : ℕ) then truncQ q
             else -(2 ^ (63 : ℕ))
  | _ => -(2 ^ (63 : ℕ))

end F64

/-- Two's-complement wrap of an integer to the `int64` range. -/
def wrapInt64 (i : ℤ) : ℤ := (i + 2 ^ (63 : ℕ)) % 2 ^ (64 : ℕ) - 2 ^ (63 : ℕ)

/-! ## metrics/metrics.go -/

/-- Embedding of `CalculatePercentile` in `metrics/metrics.go`. -/
def CalculatePercentile (sortedData : List ℤ) (percentile : F64) : ℤ :=
  let n : ℤ := sortedData.length
  if n = 0 then 0
  else if F64.le percentile (F64.fin 0) then sortedData.getD 0 0
  else if F64.le (F64.fin 100) percentile then sortedData.getD (n - 1).toNat 0
  else
    let index := F64.mul (F64.div percentile (F64.fin 100)) (F64.ofInt n)
    let ceilIndex := wrapInt64 (F64.toInt (F64.ceil index) - 1)
    let ceilIndex := if ceilIndex ≥ n then n - 1 else ceilIndex
    let ceilIndex := if ceilIndex < 0 then 0 else ceilIndex
    sortedData.getD ceilIndex.toNat 0

/-- The nearest-rank percentile as the specification words it: the minimum for
`p ≤ 0`, the maximum for `p ≥ 100`, otherwise the sample at index
`⌈(p / 100) * n⌉ - 1` clamped to `[0, n - 1]`, in exact arithmetic; `0` on the
empty list. -/
def nearestRankSpec (s : List ℤ) (p : ℚ) : ℤ :=
  if s.length = 0 then 0
  else if p ≤ 0 then s.getD 0 0
  else if 100 ≤ p then s.getD (s.length - 1) 0
  else s.getD (max 0 (min (⌈p / 100 * s.length⌉ - 1) ((s.length : ℤ) - 1))).toNat 0

/-- Embedding of `SortLatencies`: the ascending sort of the samples. -/
def SortLatencies (data : List ℤ) : List ℤ := data.insertionSort (· ≤ ·)

/-- Embedding of `CalculateAverage` in `metrics/metrics.go`: the `int64`
accumulator wraps, the quotient is taken in `float64` and converted back. -/
def CalculateAverage (data : List ℤ) : ℤ :=
  if data.length = 0 then 0
  else
    let total := data.foldl (fun t d => wrapInt64 (t + d)) 0
    F64.toInt (F64.div (F64.ofInt total) (F64.ofInt data.length))

/-- The structure `config.BenchmarkConfig`. -/
structure BenchmarkConfig where
  TargetURL : String
  Method : String
  Payload : String
  Threads : ℤ
  Connections : ℤ
  Duration : String
  deriving DecidableEq, Repr

/-- The structure `metrics.ProgressUpdate` (times in nanoseconds). -/
structure ProgressUpdate where
  Timestamp : ℤ
  RequestsAttempted : ℤ
  RequestsCompleted : ℤ
  Errors : ℤ
  CurrentThroughput : F64
  CurrentErrorRate : F64
  LatencyAvg : ℤ
  LatencyP95 : ℤ
  LatencyP99 : ℤ
  LatencyData : List ℤ
  deriving DecidableEq

/-- The structure `metrics.BenchmarkResult`. `Config` is a pointer (`none` is
nil), `ErrorDetails` the map as its list of entries, `Error` the message of the
error value (`none` is nil). -/
structure BenchmarkResult where
  Config : Option BenchmarkConfig
  TotalRequestsSent : ℤ
  TotalRequestsCompleted : ℤ
  TotalErrors : ℤ
  TotalDuration : ℤ
  Throughput : F64
  ErrorRate : F64
  LatencyAvg : ℤ
  LatencyP50 : ℤ
  LatencyP95 : ℤ
  LatencyP99 : ℤ
  LatencyData : List ℤ
  ErrorDetails : List (String × ℤ)
  Error : Option String
  deriving DecidableEq

/-- The zero value of `metrics.BenchmarkResult` (`var finalResult`). -/
def BenchmarkResult.zero : BenchmarkResult :=
  { Config := none, TotalRequestsSent := 0, TotalRequestsCompleted := 0, TotalErrors := 0,
    TotalDuration := 0, Throughput := F64.fin 0, ErrorRate := F64.fin 0, LatencyAvg := 0,
    LatencyP50 := 0, LatencyP95 := 0, LatencyP99 := 0, LatencyData := [],
    ErrorDetails := [], Error := none }

/-! ## benchmark/collector.go -/

/-- What `runCollector` inspects of a non-nil Go `error` value: the answers of
`errors.Is` against the sentinels it tests, the status code when the dynamic
type is `*metrics.HttpStatusError`, and the text of `Error()`. -/
structure GoError where
  isTimeout : Bool
  isConnectionClosed : Bool
  isNoFreeConns : Bool
  isPipelineOverflow : Bool
  httpStatus : Option ℤ
  isCanceled : Bool
  isDeadlineExceeded : Bool
  msg : String
  deriving DecidableEq, Repr

/-- The function `strings.Contains`. -/
def stringsContains (s substr : String) : Bool := decide (substr.toList <:+: s.toList)

/-- The key under which the main loop of `runCollector` counts a failure
(the `errKey` chain of the `errorsChan` case); `none` is a nil error. -/
def errKey (err : Option GoError) : String :=
  match err with
  | none => "Unknown Error"
  | some e =>
    if e.isTimeout then "Timeout Error (fasthttp)"
    else if e.isConnectionClosed then "Connection Closed (fasthttp)"
    else if e.isNoFreeConns then "No Free Connections (fasthttp)"
    else if e.isPipelineOverflow then "Pipeline Overflow (fasthttp)"
    else match e.httpStatus with
      | some code => "HTTP " ++ toString code
      | none =>
        if e.isCanceled then "Context Canceled"
        else if e.isDeadlineExceeded then "Context Deadline Exceeded"
        else if stringsContains e.msg "connection refused" then "Connection Refused"
        else if stringsContains e.msg "no such host" then "DNS Error"
        else "Network Error"

/-- The statement `m[key]++` on a `map[string]int` kept as its list of entries. -/
def bump (key : String) : List (String × ℤ) → List (String × ℤ)
  | [] => [(key, 1)]
  | (k, c) :: rest => if k = key then (k, c + 1) :: rest else (k, c) :: bump key rest

/-- The expression `m[key]` on a `map[string]int`: zero when the key is absent. -/
def lookup (key : String) : List (String × ℤ) → ℤ
  | [] => 0
  | (k, c) :: rest => if k = key then c else lookup key rest

/-- The method `Time.Sub`: the difference of two instants, saturating at the
ends of the `int64` range. -/
def timeSub (t u : ℤ) : ℤ := max (-(2 ^ (63 : ℕ))) (min (t - u) (2 ^ (63 : ℕ) - 1))

/-- Go `x + y` on `float64`. -/
def F64.add : F64 → F64 → F64
  | F64.nan, _ => F64.nan
  | _, F64.nan => F64.nan
  | F64.inf s, F64.inf t => if s = t then F64.inf s else F64.nan
  | F64.inf s, F64.fin _ => F64.inf s
  | F64.fin _, F64.inf s => F64.inf s
  | F64.fin a, F64.fin b => F64.ofRat (a + b)

/-- The method `Duration.Seconds` of package `time`:
`float64(d / Second) + float64(d % Second) / 1e9`. -/
def durationSeconds (d : ℤ) : F64 :=
  F64.add (F64.ofInt (d.tdiv 1000000000))
    (F64.div (F64.ofInt (d.tmod 1000000000)) (F64.fin 1000000000))

/-- One millisecond, in nanoseconds. -/
def millisecond : ℤ := 1000000

/-- The local state of `runCollector`, with the progress snapshots built so
far; each snapshot is paired with whether its non-blocking send found the
consumer receiving. -/
structure CollectorState where
  requestsCompleted : ℤ
  errorCount : ℤ
  latencyData : List ℤ
  errorDetails : List (String × ℤ)
  contextAlreadyDone : Bool
  progress : List (ProgressUpdate × Bool)
  deriving DecidableEq

/-- The state on entry to `collectorLoop`. -/
def CollectorState.init : CollectorState :=
  { requestsCompleted := 0, errorCount := 0, latencyData := [], errorDetails := [],
    contextAlreadyDone := false, progress := [] }

/-- The case of the `select` of `collectorLoop` that fires in one iteration.
Receives that observe a closed channel are not represented: both outcome
channels are created by `runCollector`, written only by the workers and closed
only after the loop. -/
inductive CollectorEvent where
  | ctxDone
  | result (latency : ℤ)
  | failure (err : Option GoError)
  | tick (now : ℤ) (consumerReady : Bool)
  | workersDone
  deriving DecidableEq

/-- The snapshot built by the ticker case of `collectorLoop`. -/
def progressMsg (startTime now : ℤ) (st : CollectorState) : ProgressUpdate :=
  let elapsed := timeSub now startTime
  let currentAttempted := st.requestsCompleted + st.errorCount
  let currentThroughput :=
    if F64.lt (F64.ofRat (1 / 100)) (durationSeconds elapsed) then
      F64.div (F64.ofInt st.requestsCompleted) (durationSeconds elapsed)
    else F64.fin 0
  let currentErrorRate :=
    if currentAttempted > 0 then
      F64.mul (F64.div (F64.ofInt st.errorCount) (F64.ofInt currentAttempted)) (F64.fin 100)
    else F64.fin 0
  let progressLatencySample :=
    if st.latencyData.length > 1000 then st.latencyData.drop (st.latencyData.length - 1000)
    else st.latencyData
  let progressLatencySample := SortLatencies progressLatencySample
  { Timestamp := now, RequestsAttempted := currentAttempted,
    RequestsCompleted := st.requestsCompleted, Errors := st.errorCount,
    CurrentThroughput := currentThroughput, CurrentErrorRate := currentErrorRate,
    LatencyAvg := CalculateAverage progressLatencySample,
    LatencyP95 := CalculatePercentile progressLatencySample (F64.fin 95),
    LatencyP99 := CalculatePercentile progressLatencySample (F64.fin 99),
    LatencyData := progressLatencySample }

/-- One iteration of `collectorLoop` for a case other than `workersDoneChan`. -/
def collectorStep (startTime : ℤ) (st : CollectorState) : CollectorEvent → CollectorState
  | CollectorEvent.ctxDone => { st with contextAlreadyDone := true }
  | CollectorEvent.result latency =>
    { st with requestsCompleted := st.requestsCompleted + 1,
              latencyData := st.latencyData ++ [latency] }
  | CollectorEvent.failure err =>
    { st with errorCount := st.errorCount + 1,
              errorDetails := bump (errKey err) st.errorDetails }
  | CollectorEvent.tick now consumerReady =>
    if st.contextAlreadyDone then st
    else { st with progress := st.progress ++ [(progressMsg startTime now st, consumerReady)] }
  | CollectorEvent.workersDone => st

/-- The loop `collectorLoop` run over the sequence of cases that fire: the
state reached, and whether `break collectorLoop` was executed (when the
sequence ends before the workers-done case fires the loop is still waiting). -/
def collectorLoop (startTime : ℤ) :
    CollectorState → List CollectorEvent → CollectorState × Bool
  | st, [] => (st, false)
  | st, CollectorEvent.workersDone :: _ => (st, true)
  | st, ev :: rest => collectorLoop startTime (collectorStep startTime st ev) rest

/-- The first drain loop, `for latency := range resultsChan`. -/
def drainResults (st : CollectorState) (buffered : List ℤ) : CollectorState :=
  buffered.foldl (fun s latency =>
    { s with requestsCompleted := s.requestsCompleted + 1,
             latencyData := s.latencyData ++ [latency] }) st

/-- The second drain loop, `for _ = range errorsChan`. -/
def drainErrors (st : CollectorState) (buffered : List (Option GoError)) : CollectorState :=
  buffered.foldl (fun s _ =>
    { s with errorCount := s.errorCount + 1,
             errorDetails := bump "Drained Error (Final Loop)" s.errorDetails }) st

/-- The value of `ctx.Err()`. -/
inductive CtxErr where
  | none
  | canceled
  | deadlineExceeded
  deriving DecidableEq

/-- The terminal error chosen at the end of `runCollector`. -/
def finalError (ctxErr : CtxErr) (errorCount : ℤ) : Option String :=
  match ctxErr with
  | CtxErr.canceled => some "benchmark stopped by user"
  | CtxErr.deadlineExceeded =>
    if errorCount > 0 then some ("benchmark completed with " ++ toString errorCount ++ " errors")
    else none
  | CtxErr.none =>
    if errorCount > 0 then
      some ("benchmark finished with " ++ toString errorCount ++
        " errors (unknown reason for stop)")
    else none

/-- The worker count after `cfg.Threads = cfg.Threads * 20`. -/
def amplify (cfg : BenchmarkConfig) : BenchmarkConfig :=
  { cfg with Threads := wrapInt64 (cfg.Threads * 20) }

/-- The capacity `resultsChanBufferSize` of the two outcome channels, from the
amplified configuration. -/
def resultsChanBufferSize (cfg : BenchmarkConfig) : ℤ :=
  let bufferFactor : ℤ :=
    if cfg.Threads > cfg.Connections ∧ cfg.Connections > 0 then
      (if wrapInt64 (cfg.Threads.tdiv cfg.Connections * 2) < 2 then 2
       else wrapInt64 (cfg.Threads.tdiv cfg.Connections * 2))
    else if cfg.Connections = 0 ∧ cfg.Threads > 0 then wrapInt64 (cfg.Threads * 2)
    else 2
  let size := wrapInt64 (cfg.Connections * bufferFactor)
  let size := if size < 100 then 100 else size
  if size > 10000 ∧ cfg.Threads < 1000 then 10000 else size

/-- The part of `runCollector` after `collectorLoop`: drain of the two closed
channels and final aggregation. -/
def finalize (cfg : BenchmarkConfig) (ctxErr : CtxErr) (startTime endTime : ℤ)
    (st : CollectorState) (bufferedResults : List ℤ)
    (bufferedErrors : List (Option GoError)) : BenchmarkResult :=
  let st := drainErrors (drainResults st bufferedResults) bufferedErrors
  let totalDuration := timeSub endTime startTime
  let finalAttempted := st.requestsCompleted + st.errorCount
  let totalDuration := if totalDuration < 1 * millisecond then 1 * millisecond else totalDuration
  let finalThroughput := F64.div (F64.ofInt st.requestsCompleted) (durationSeconds totalDuration)
  let finalErrorRate :=
    if finalAttempted > 0 then
      F64.mul (F64.div (F64.ofInt st.errorCount) (F64.ofInt finalAttempted)) (F64.fin 100)
    else F64.fin 0
  let latencyData := SortLatencies st.latencyData
  { Config := some cfg, TotalRequestsSent := finalAttempted,
    TotalRequestsCompleted := st.requestsCompleted, TotalErrors := st.errorCount,
    TotalDuration := totalDuration, Throughput := finalThroughput, ErrorRate := finalErrorRate,
    LatencyAvg := CalculateAverage latencyData,
    LatencyP50 := CalculatePercentile latencyData (F64.fin 50),
    LatencyP95 := CalculatePercentile latencyData (F64.fin 95),
    LatencyP99 := CalculatePercentile latencyData (F64.fin 99),
    LatencyData := latencyData, ErrorDetails := st.errorDetails,
    Error := finalError ctxErr st.errorCount }

/-- How a call of `runCollector` ends. -/
inductive CollectorOutcome where
  | returned (r : BenchmarkResult)
  | panicked (v : String)
  | waiting
  deriving DecidableEq

/-- The report of a call that returned. -/
def CollectorOutcome.result? : CollectorOutcome → Option BenchmarkResult
  | CollectorOutcome.returned r => some r
  | _ => none

/-- A call of `runCollector` as seen from outside: the progress snapshots it
built (each with whether it was delivered) and how the call ends. -/
structure CollectorRun where
  progress : List (ProgressUpdate × Bool)
  outcome : CollectorOutcome
  deriving DecidableEq

/-- Embedding of `Engine.runCollector`. The environment is explicit: the clock
readings at entry and after the drain, the cases of the main `select` in the
order they fire, what is still buffered in the two channels when the loop
ends, and the value of `ctx.Err()` at the end. The counters are `int`s that
count consumed messages; they stay far below `2^63`, so no wrap is written.
A negative worker count makes `wgWorkers.Add` panic. -/
def runCollector (cfg : BenchmarkConfig) (ctxErr : CtxErr) (startTime endTime : ℤ)
    (events : List CollectorEvent) (bufferedResults : List ℤ)
    (bufferedErrors : List (Option GoError)) : CollectorRun :=
  let cfg := amplify cfg
  if cfg.Threads < 0 then
    { progress := [], outcome := CollectorOutcome.panicked "sync: negative WaitGroup counter" }
  else
    let loop := collectorLoop startTime CollectorState.init events
    { progress := loop.1.progress,
      outcome :=
        if loop.2 then
          CollectorOutcome.returned
            (finalize cfg ctxErr startTime endTime loop.1 bufferedResults bufferedErrors)
        else CollectorOutcome.waiting }

/-! ## benchmark/engine.go -/

/-- The type `Status`. -/
inductive Status where
  | StatusIdle
  | StatusRunning
  | StatusStopping
  | StatusFinished
  deriving DecidableEq, Repr

/-- The state of a `chan struct{}` variable on which nothing is ever sent. -/
inductive ChanState where
  | nilChan
  | openChan
  | closedChan
  deriving DecidableEq, Repr

/-- The builtin `close`: it panics (`none`) on a nil or already closed channel. -/
def ChanState.close : ChanState → Option ChanState
  | ChanState.openChan => some ChanState.closedChan
  | _ => none

/-- Whether a receive is ready: only a closed channel yields a value here. -/
def ChanState.recvReady : ChanState → Bool
  | ChanState.closedChan => true
  | _ => false

/-- The fields of `Engine` (the mutex aside); `wgGlobal` is the counter of the
wait group. -/
structure Engine where
  status : Status
  stopSignal : ChanState
  wgGlobal : ℤ
  deriving DecidableEq, Repr

/-- The constructor `NewEngine`. -/
def NewEngine : Engine :=
  { status := Status.StatusIdle, stopSignal := ChanState.nilChan, wgGlobal := 0 }

/-- What a call of `Engine.Start` leaves behind: the engine, the returned error
(`none` is nil), whether `Start` itself closed each output channel, whether it
sent anything on them, and whether the run task (with the stop watcher) was
spawned, with the parsed duration bounding its context. -/
structure StartResult where
  engine : Engine
  err : Option String
  progressChanClosed : Bool
  resultChanClosed : Bool
  resultsSent : List BenchmarkResult
  progressSent : List ProgressUpdate
  spawned : Option ℤ
  deriving DecidableEq

/-- Embedding of `Engine.Start`, one call taken as a whole. `parseURL` stands
for `url.Parse` and `parseDuration` for `time.ParseDuration`; each returns the
parsed value or the error text. -/
def Engine.Start (parseURL : String → Except String String)
    (parseDuration : String → Except String ℤ) (e : Engine) (cfg : BenchmarkConfig) :
    StartResult :=
  if e.status = Status.StatusRunning ∨ e.status = Status.StatusStopping then
    { engine := e, err := some "benchmark is already running or stopping",
      progressChanClosed := false, resultChanClosed := false, resultsSent := [],
      progressSent := [], spawned := none }
  else
    let e := { e with status := Status.StatusRunning, stopSignal := ChanState.openChan }
    match parseURL cfg.TargetURL with
    | Except.error msg =>
      { engine := { e with status := Status.StatusIdle },
        err := some ("invalid target URL for fasthttp client: " ++ msg),
        progressChanClosed := true, resultChanClosed := true, resultsSent := [],
        progressSent := [], spawned := none }
    | Except.ok _ =>
      match parseDuration cfg.Duration with
      | Except.error msg =>
        { engine := { e with status := Status.StatusIdle },
          err := some ("invalid duration format in config: " ++ msg),
          progressChanClosed := true, resultChanClosed := true, resultsSent := [],
          progressSent := [], spawned := none }
      | Except.ok duration =>
        { engine := { e with wgGlobal := e.wgGlobal + 1 }, err := none,
          progressChanClosed := false, resultChanClosed := false, resultsSent := [],
          progressSent := [], spawned := some duration }

/-- Embedding of `Engine.Stop`; `none` is a panic (a `close` of a closed or nil
channel). -/
def Engine.Stop (e : Engine) : Option Engine :=
  if e.status = Status.StatusRunning ∧ e.stopSignal ≠ ChanState.nilChan then
    if e.stopSignal.recvReady then some { e with status := Status.StatusStopping }
    else
      match e.stopSignal.close with
      | some c => some { e with status := Status.StatusStopping, stopSignal := c }
      | none => none
  else some e

/-- The method `Engine.GetStatus`. -/
def Engine.GetStatus (e : Engine) : Status := e.status

/-- The case of the delivery `select` of the run task that is taken. -/
inductive DeliveryCase where
  | send
  | ctxDone
  | timeout
  deriving DecidableEq, Repr

/-- The choices left to the scheduler and the consumer while the run task
delivers: the case taken by the delivery `select`, whether the follow-up
non-blocking send finds the consumer receiving, and, after a recovered panic,
whether the send wins against the 200ms timer. -/
structure Delivery where
  outer : DeliveryCase
  consumerReady : Bool
  recoverSend : Bool
  deriving DecidableEq, Repr

/-- What the run task does that others can observe, in order. -/
inductive TaskEvent where
  | sendResult (r : BenchmarkResult)
  | logPanic (v : String)
  | setStatus (s : Status)
  | closeResultChan
  | closeProgressChan
  | cancel
  | wgDone
  deriving DecidableEq

/-- The deferred calls of the run task after the recovering one, in the order
they run. -/
def deferredTail : List TaskEvent :=
  [TaskEvent.closeResultChan, TaskEvent.closeProgressChan, TaskEvent.cancel, TaskEvent.wgDone]

/-- The follow-up of the `ctx.Done()` and timeout cases of the delivery
`select`: only a report without terminal error is marked and offered once. -/
def fallbackSend (finalResult : BenchmarkResult) (msg : String) (consumerReady : Bool) :
    List TaskEvent :=
  if finalResult.Error = none then
    if consumerReady then [TaskEvent.sendResult { finalResult with Error := some msg }] else []
  else []

/-- The delivery `select` that follows the return of `runCollector`. -/
def deliver (finalResult : BenchmarkResult) (d : Delivery) : List TaskEvent :=
  match d.outer with
  | DeliveryCase.send => [TaskEvent.sendResult finalResult]
  | DeliveryCase.ctxDone =>
    fallbackSend finalResult "benchmark interrupted before final result sent" d.consumerReady
  | DeliveryCase.timeout =>
    fallbackSend finalResult "timed out sending final result to TUI" d.consumerReady

/-- The body of the run task spawned by `Engine.Start`, from the point where
`runCollector` ends (by a return or by a panic, `collector`) to the last
deferred call. -/
def runTask (cfg : BenchmarkConfig) (collector : Except String BenchmarkResult)
    (d : Delivery) : List TaskEvent :=
  match collector with
  | Except.ok finalResult =>
    deliver finalResult d ++ [TaskEvent.setStatus Status.StatusFinished] ++ deferredTail
  | Except.error v =>
    let finalResult := BenchmarkResult.zero
    let finalResult :=
      if finalResult.Config = none then { finalResult with Config := some cfg } else finalResult
    let finalResult := { finalResult with Error := some ("panic during benchmark: " ++ v) }
    [TaskEvent.logPanic v]
      ++ (if d.recoverSend then [TaskEvent.sendResult finalResult] else [])
      ++ [TaskEvent.setStatus Status.StatusFinished] ++ deferredTail

/-- The reports sent on `resultChan` before it is closed, in order. -/
def sentBeforeClose : List TaskEvent → List BenchmarkResult
  | [] => []
  | TaskEvent.closeResultChan :: _ => []
  | TaskEvent.sendResult r :: rest => r :: sentBeforeClose rest
  | _ :: rest => sentBeforeClose rest

/-- All the reports sent on `resultChan`, in order. -/
def sentResults : List TaskEvent → List BenchmarkResult
  | [] => []
  | TaskEvent.sendResult r :: rest => r :: sentResults rest
  | _ :: rest => sentResults rest

/-- The effect of the run task on the engine: the status assignments and the
`wgGlobal.Done()` of its trace. -/
def applyTask (e : Engine) : List TaskEvent → Engine
  | [] => e
  | TaskEvent.setStatus s :: rest => applyTask { e with status := s } rest
  | TaskEvent.wgDone :: rest => applyTask { e with wgGlobal := e.wgGlobal - 1 } rest
  | _ :: rest => applyTask e rest

/-- How the run task spawned by `Start` sees the end of `runCollector`. -/
def CollectorOutcome.toExcept : CollectorOutcome → Option (Except String BenchmarkResult)
  | CollectorOutcome.returned r => some (Except.ok r)
  | CollectorOutcome.panicked v => some (Except.error v)
  | CollectorOutcome.waiting => none

/-- The engine states that calls of `NewEngine`, `Start`, `Stop` and the end of
a run task can produce. -/
inductive Engine.Reachable : Engine → Prop where
  | new : Engine.Reachable NewEngine
  | start (parseURL : String → Except String String) (parseDuration : String → Except String ℤ)
      (e : Engine) (cfg : BenchmarkConfig) :
      Engine.Reachable e → Engine.Reachable (Engine.Start parseURL parseDuration e cfg).engine
  | stop (e e' : Engine) : Engine.Reachable e → Engine.Stop e = some e' → Engine.Reachable e'
  | finish (e : Engine) (cfg : BenchmarkConfig) (collector : Except String BenchmarkResult)
      (d : Delivery) : Engine.Reachable e → Engine.Reachable (applyTask e (runTask cfg collector d))

/-- Every snapshot recorded in a collector state balances its three counts. -/
def ProgressBalanced (st : CollectorState) : Prop :=
  ∀ pm ∈ st.progress, pm.1.RequestsAttempted = pm.1.RequestsCompleted + pm.1.Errors

/-! ## benchmark/collector.go: the worker -/

/-- The error value `&metrics.HttpStatusError{StatusCode, Status}`: no sentinel
matches it, its dynamic type carries the status code, and `Error()` prints
`HTTP status error: <code> <status>`. -/
def httpStatusError (statusCode : ℤ) (status : String) : GoError :=
  { isTimeout := false, isConnectionClosed := false, isNoFreeConns := false,
    isPipelineOverflow := false, httpStatus := some statusCode, isCanceled := false,
    isDeadlineExceeded := false,
    msg := "HTTP status error: " ++ toString statusCode ++ " " ++ status }

/-- How one call `hostClient.Do(req, resp)` ends: with a non-nil transport
error, or with a response, of which the worker reads the status code and the
status message. -/
inductive Attempt where
  | transportError (err : GoError)
  | response (statusCode : ℤ) (statusMessage : String)
  deriving DecidableEq

/-- A message of a worker: a latency for `resultsChan` or an error for
`errorsChan`. -/
inductive Outcome where
  | success (latency : ℤ)
  | failure (err : GoError)
  deriving DecidableEq

/-- The test of `runWorker` for a transport error caused by cancellation:
`errors.Is(err, context.Canceled) || errors.Is(err, context.DeadlineExceeded) ||
strings.Contains(err.Error(), "context canceled")`. -/
def causedByCancellation (err : GoError) : Bool :=
  err.isCanceled || err.isDeadlineExceeded || stringsContains err.msg "context canceled"

/-- The message that one iteration of the loop of `runWorker` offers in its
`select`, if any, from the end of the attempt and the measured latency. -/
def workerOffer (attempt : Attempt) (latency : ℤ) : Option Outcome :=
  match attempt with
  | Attempt.transportError err =>
    if !(causedByCancellation err) then some (Outcome.failure err) else none
  | Attempt.response statusCode statusMessage =>
    if statusCode ≥ 200 ∧ statusCode < 300 then some (Outcome.success latency)
    else some (Outcome.failure (httpStatusError statusCode statusMessage))

/-- One iteration of the loop of `runWorker` that passes the cancellation check
at its head: the attempt, the latency measured around it, and whether the send
case of the `select` is the one taken (the other case is `ctx.Done()`). -/
structure WorkerIteration where
  attempt : Attempt
  latency : ℤ
  sendTaken : Bool
  deriving DecidableEq

/-- The messages that one iteration puts on the channels. -/
def workerStep (it : WorkerIteration) : List Outcome :=
  match workerOffer it.attempt it.latency with
  | some o => if it.sendTaken then [o] else []
  | none => []

/-- Embedding of `runWorker`: the messages put on the two channels, over the
iterations made before the cancellation check at the head of the loop
succeeds. -/
def runWorker : List WorkerIteration → List Outcome
  | [] => []
  | it :: rest => workerStep it ++ runWorker rest

/-! ## config/config.go -/

/-- What the code reads of a `*url.URL`. -/
structure ParsedURL where
  Scheme : String
  Host : String
  deriving DecidableEq, Repr

/-- Embedding of `BenchmarkConfig.Validate`: the configuration after the call
(the URL is trimmed in place) and the returned error (`none` is nil).
`trimSpace` stands for `strings.TrimSpace`, `parseRequestURI` for
`url.ParseRequestURI` and `parseDuration` for `time.ParseDuration`. -/
def BenchmarkConfig.Validate (trimSpace : String → String)
    (parseRequestURI : String → Except String ParsedURL)
    (parseDuration : String → Except String ℤ) (c : BenchmarkConfig) :
    BenchmarkConfig × Option String :=
  let c := { c with TargetURL := trimSpace c.TargetURL }
  if c.TargetURL = "" then (c, some "target URL cannot be empty")
  else
    match parseRequestURI c.TargetURL with
    | Except.error msg => (c, some ("invalid target URL: " ++ msg))
    | Except.ok parsedURL =>
      if parsedURL.Scheme ≠ "http" ∧ parsedURL.Scheme ≠ "https" then
        (c, some "target URL must use http or https scheme")
      else if c.Threads ≤ 0 then (c, some "threads must be greater than 0")
      else if c.Connections ≤ 0 then (c, some "connections must be greater than 0")
      else if c.Duration = "" then (c, some "duration cannot be empty")
      else
        match parseDuration c.Duration with
        | Except.error msg => (c, some ("invalid duration format: " ++ msg))
        | Except.ok _ => (c, none)

/-- The predicate `unicode.IsSpace` on a code point: tab, line feed, vertical
tab, form feed, carriage return, space, U+0085, U+00A0 and the code points of
category Z (U+1680, U+2000 to U+200A, U+2028, U+2029, U+202F, U+205F, U+3000). -/
def isSpace (c : Char) : Bool :=
  decide (9 ≤ c.toNat ∧ c.toNat ≤ 13) || decide (c.toNat = 32) || decide (c.toNat = 133) ||
  decide (c.toNat = 160) || decide (c.toNat = 5760) ||
  decide (8192 ≤ c.toNat ∧ c.toNat ≤ 8202) || decide (c.toNat = 8232) ||
  decide (c.toNat = 8233) || decide (c.toNat = 8239) || decide (c.toNat = 8287) ||
  decide (c.toNat = 12288)

/-- The function `strings.TrimSpace` on the code points of a string: leading
and trailing white space removed. -/
def trimSpaceRunes (s : List Char) : List Char :=
  ((s.dropWhile isSpace).reverse.dropWhile isSpace).reverse

/-- The characters that `SanitizeFilename` replaces by an underscore, in the
order of `replaceChars`: slash, backslash, colon, asterisk, question mark,
double quote, less-than, greater-than, vertical bar, space. -/
def replaceChars : List Char :=
  [Char.ofNat 47, Char.ofNat 92, Char.ofNat 58, Char.ofNat 42, Char.ofNat 63, Char.ofNat 34,
    Char.ofNat 60, Char.ofNat 62, Char.ofNat 124, Char.ofNat 32]

/-- The call `strings.ReplaceAll(name, old, "_")` for a pattern `old` of one
character. -/
def replaceAllByUnderscore (name : List Char) (old : Char) : List Char :=
  name.map fun c => if c = old then Char.ofNat 95 else c

/-- The test of the filter loop of `SanitizeFilename`: an ASCII letter, a
digit, an underscore or a hyphen. -/
def allowedRune (r : Char) : Bool :=
  decide (97 ≤ r.toNat ∧ r.toNat ≤ 122) || decide (65 ≤ r.toNat ∧ r.toNat ≤ 90) ||
  decide (48 ≤ r.toNat ∧ r.toNat ≤ 57) || decide (r.toNat = 95) || decide (r.toNat = 45)

/-- Embedding of `SanitizeFilename` in `config/config.go`, a string being the
sequence of its code points. -/
def SanitizeFilename (name : String) : String :=
  let name := trimSpaceRunes name.toList
  let name := replaceChars.foldl replaceAllByUnderscore name
  let name := String.mk (name.filter allowedRune)
  if name = "" then "unnamed_test" else name

/-! ## tui/view.go: the histogram -/

/-- The bounds `minLat` and `maxLat` of `renderHistogram` after their two
adjustments, for a non-empty `data`. -/
def histogramRange (data : List ℤ) (buckets : ℤ) : ℤ × ℤ :=
  let sortedData := SortLatencies data
  let minLat := sortedData.getD 0 0
  let maxLat := sortedData.getD (sortedData.length - 1) 0
  let widened : ℤ × ℤ :=
    if maxLat = minLat then
      (if minLat - buckets.tdiv 2 * millisecond < 0 then 0
        else minLat - buckets.tdiv 2 * millisecond,
       maxLat + (buckets.tdiv 2 + 1) * millisecond)
    else (minLat, maxLat)
  let minLat := widened.1
  let maxLat := widened.2
  let maxLat :=
    if maxLat ≤ minLat then
      (if minLat + buckets * millisecond = minLat then
        minLat + buckets * millisecond + millisecond
       else minLat + buckets * millisecond)
    else maxLat
  (minLat, maxLat)

/-- The width `bucketSize` of a bucket of `renderHistogram`. -/
def histogramBucketSize (minLat maxLat buckets : ℤ) : ℤ :=
  if (maxLat - minLat).tdiv buckets ≤ 0 then millisecond else (maxLat - minLat).tdiv buckets

/-- The bounds `bucketStart` and `bucketEnd` of bucket `i` of `renderHistogram`. -/
def bucketBounds (minLat maxLat bucketSize buckets i : ℤ) : ℤ × ℤ :=
  (minLat + i * bucketSize,
   if i = buckets - 1 then maxLat + 1 else minLat + i * bucketSize + bucketSize)

/-- The count of bucket `i`: the samples `d` with `bucketStart ≤ d < bucketEnd`. -/
def bucketCount (data : List ℤ) (minLat maxLat bucketSize buckets i : ℤ) : ℤ :=
  (data.countP fun d =>
    decide ((bucketBounds minLat maxLat bucketSize buckets i).1 ≤ d ∧
      d < (bucketBounds minLat maxLat bucketSize buckets i).2) : ℕ)

/-- The slice `counts` that `renderHistogram` fills before it draws the bars
(integer overflow aside); `none` when it returns early with `No latency data.` -/
def histogramCounts (data : List ℤ) (buckets : ℤ) : Option (List ℤ) :=
  if data.length = 0 ∨ buckets ≤ 0 then none
  else
    let range := histogramRange data buckets
    let bucketSize := histogramBucketSize range.1 range.2 buckets
    some ((List.range buckets.toNat).map fun i : ℕ =>
      bucketCount data range.1 range.2 bucketSize buckets (i : ℤ))

/-! ## Quantities used in the statements -/

/-- The latencies consumed by `collectorLoop` over a sequence of cases, in
order, up to the case that ends the loop. -/
def consumedLatencies : List CollectorEvent → List ℤ
  | [] => []
  | CollectorEvent.workersDone :: _ => []
  | CollectorEvent.result latency :: rest => latency :: consumedLatencies rest
  | _ :: rest => consumedLatencies rest

/-- The sum of all the counts of an error-cause mapping. -/
def totalCount (m : List (String × ℤ)) : ℤ := (m.map Prod.snd).sum

/-- What `collectorLoop` keeps true: the completed count is the length of the
latency series, and the error count is the sum of the error-cause counts. -/
def CountsMatch (st : CollectorState) : Prop :=
  st.requestsCompleted = st.latencyData.length ∧ st.errorCount = totalCount st.errorDetails

/-- The index of the sample that `CalculatePercentile` returns on a list of
`n > 0` samples: the code of its three branches without the final lookup. -/
def percentileIndex (n : ℤ) (percentile : F64) : ℤ :=
  if F64.le percentile (F64.fin 0) then 0
  else if F64.le (F64.fin 100) percentile then n - 1
  else
    let index := F64.mul (F64.div percentile (F64.fin 100)) (F64.ofInt n)
    let ceilIndex := wrapInt64 (F64.toInt (F64.ceil index) - 1)
    let ceilIndex := if ceilIndex ≥ n then n - 1 else ceilIndex
    if ceilIndex < 0 then 0 else ceilIndex

/-- The index kept by `CalculatePercentile` from the integral value `c` of
`math.Ceil(index)`: conversion to `int`, decrement and the two boundary checks. -/
def indexOfCeil (n c : ℤ) : ℤ :=
  let ceilIndex := wrapInt64 (F64.toInt (F64.fin c) - 1)
  let ceilIndex := if ceilIndex ≥ n then n - 1 else ceilIndex
  if ceilIndex < 0 then 0 else ceilIndex

/-! ## Sample inputs -/

/-- One hundred sorted samples, `0ns, 1ns, ..., 99ns`. -/
def samples100 : List ℤ := (List.range 100).map Int.ofNat

/-- The configuration of the end-to-end scenario of the specification. -/
def sampleConfig : BenchmarkConfig :=
  { TargetURL := "http://localhost:9/none", Method := "GET", Payload := "", Threads := 5,
    Connections := 5, Duration := "200ms" }

/-- A transport error of a refused connection. -/
def refusedError : GoError :=
  { isTimeout := false, isConnectionClosed := false, isNoFreeConns := false,
    isPipelineOverflow := false, httpStatus := none, isCanceled := false,
    isDeadlineExceeded := false,
    msg := "dial tcp 127.0.0.1:9: connect: connection refused" }

/-- A `url.Parse` that accepts every string. -/
def parseURLOk (s : String) : Except String String := Except.ok s

/-- A `time.ParseDuration` that reads every string as 200ms. -/
def parseDurationOk (_ : String) : Except String ℤ := Except.ok 200000000

/-- A `url.Parse` that rejects every string. -/
def parseURLBad (_ : String) : Except String String := Except.error "invalid URL"

/-- A `time.ParseDuration` that rejects every string. -/
def parseDurationBad (_ : String) : Except String ℤ :=
  Except.error "time: invalid duration"

/-- The values of `time.ParseDuration` on a few strings (nanoseconds); every
other string is rejected here. -/
def parseDurationSample (s : String) : Except String ℤ :=
  if s = "200ms" then Except.ok 200000000
  else if s = "30s" then Except.ok 30000000000
  else if s = "0s" then Except.ok 0
  else if s = "-5s" then Except.ok (-5000000000)
  else Except.error "time: invalid duration"

/-- The function `strings.TrimSpace` on strings that neither begin nor end with
white space, which it returns unchanged. -/
def trimSpaceSample (s : String) : String := s

/-- The value of `url.ParseRequestURI` on the URL of `sampleConfig`; every
other string is rejected here. -/
def parseRequestURISample (s : String) : Except String ParsedURL :=
  if s = "http://localhost:9/none" then Except.ok { Scheme := "http", Host := "localhost:9" }
  else Except.error "invalid URI for request"

/-- A sequence of 1001 successes, the first of 1001000ns and the others of
1000ns, followed by a tick of the ticker and the end of the workers. -/
def slowStartEvents : List CollectorEvent :=
  (1001000 :: List.replicate 1000 1000).map CollectorEvent.result
    ++ [CollectorEvent.tick 1000000000 true, CollectorEvent.workersDone]

/-! ## Facts about binary64 rounding -/

theorem F64.roundHalfEven_intCast (z : ℤ) : F64.roundHalfEven (z : ℚ) = z := by
  simp [F64.roundHalfEven]

/-- The floor of the binary logarithm is pinned down by the enclosing powers. -/
theorem intLog_two_eq {q : ℚ} {e : ℤ} (h1 : (2 : ℚ) ^ e ≤ q) (h2 : q < (2 : ℚ) ^ (e + 1)) :
    Int.log 2 q = e := by
  have hq : 0 < q := lt_of_lt_of_le (by positivity) h1
  have hb : 1 < (2 : ℕ) := by norm_num
  have ha : e ≤ Int.log 2 q := by
    rw [← Int.zpow_le_iff_le_log hb hq]; exact_mod_cast h1
  have hc : Int.log 2 q < e + 1 := by
    rw [← Int.lt_zpow_iff_log_lt hb hq]; exact_mod_cast h2
  omega


theorem F64.roundHalfEven_eq_of_abs_lt {x : ℚ} {m : ℤ} (h : |x - m| < 1 / 2) :
    F64.roundHalfEven x = m := by
  have h1 := abs_lt.mp h
  have hf1 : (⌊x⌋ : ℚ) ≤ x := Int.floor_le x
  have hf2 : x < ⌊x⌋ + 1 := Int.lt_floor_add_one x
  unfold F64.roundHalfEven
  split_ifs with a b c
  · have h3 : ((⌊x⌋ : ℤ) : ℚ) < (m : ℚ) + 1 := by linarith [h1.1, h1.2]
    have h4 : ((m : ℤ) : ℚ) < (⌊x⌋ : ℚ) + 1 := by linarith [h1.1, h1.2]
    have h3' : ⌊x⌋ < m + 1 := by exact_mod_cast h3
    have h4' : m < ⌊x⌋ + 1 := by exact_mod_cast h4
    omega
  · have h3 : ((⌊x⌋ : ℤ) : ℚ) < (m : ℚ) := by linarith [h1.1, h1.2]
    have h4 : ((m : ℤ) : ℚ) < (⌊x⌋ : ℚ) + 2 := by linarith [h1.1, h1.2]
    have h3' : ⌊x⌋ < m := by exact_mod_cast h3
    have h4' : m < ⌊x⌋ + 2 := by exact_mod_cast h4
    omega
  · exfalso
    have e : x - ⌊x⌋ = 1 / 2 := le_antisymm (not_lt.mp b) (not_lt.mp a)
    have h3 : ((⌊x⌋ : ℤ) : ℚ) < (m : ℚ) := by linarith [h1.1, h1.2]
    have h4 : ((m : ℤ) : ℚ) < (⌊x⌋ : ℚ) + 1 := by linarith [h1.1, h1.2]
    have h3' : ⌊x⌋ < m := by exact_mod_cast h3
    have h4' : m < ⌊x⌋ + 1 := by exact_mod_cast h4
    omega
  · exfalso
    have e : x - ⌊x⌋ = 1 / 2 := le_antisymm (not_lt.mp b) (not_lt.mp a)
    have h3 : ((⌊x⌋ : ℤ) : ℚ) < (m : ℚ) := by linarith [h1.1, h1.2]
    have h4 : ((m : ℤ) : ℚ) < (⌊x⌋ : ℚ) + 1 := by linarith [h1.1, h1.2]
    have h3' : ⌊x⌋ < m := by exact_mod_cast h3
    have h4' : m < ⌊x⌋ + 1 := by exact_mod_cast h4
    omega

theorem F64.ulpExp_eq {q : ℚ} {e : ℤ} (h1 : (2 : ℚ) ^ e ≤ |q|) (h2 : |q| < (2 : ℚ) ^ (e + 1))
    (he : -1022 ≤ e) : F64.ulpExp q = e - 52 := by
  unfold F64.ulpExp
  rw [intLog_two_eq h1 h2, max_eq_left he]

/-- Evaluation of the rounding at a value whose binade and nearest grid point
are known. -/
theorem F64.roundQ_eq {q : ℚ} {e m : ℤ} (h1 : (2 : ℚ) ^ e ≤ |q|) (h2 : |q| < (2 : ℚ) ^ (e + 1))
    (he : -1022 ≤ e) (hm : |q / 2 ^ (e - 52) - m| < 1 / 2) :
    F64.roundQ q = (m : ℚ) * 2 ^ (e - 52) := by
  unfold F64.roundQ
  rw [F64.ulpExp_eq h1 h2 he, F64.roundHalfEven_eq_of_abs_lt hm]

theorem F64.roundQ_eq_pos {q : ℚ} {e m : ℤ} (h1 : (2 : ℚ) ^ e ≤ q) (h2 : q < (2 : ℚ) ^ (e + 1))
    (he : -1022 ≤ e) (hm : |q / 2 ^ (e - 52) - m| < 1 / 2) :
    F64.roundQ q = (m : ℚ) * 2 ^ (e - 52) := by
  have hq : 0 ≤ q := le_trans (by positivity) h1
  exact F64.roundQ_eq (by rwa [abs_of_nonneg hq]) (by rwa [abs_of_nonneg hq]) he hm

theorem F64.roundQ_of_multiple {q : ℚ} {u : ℤ} (m : ℤ) (d : ℕ) (hu : F64.ulpExp q = u)
    (hq : q = (m : ℚ) * 2 ^ d * 2 ^ u) : F64.roundQ q = q := by
  have hupos : (0 : ℚ) < 2 ^ u := by positivity
  have hz : q / 2 ^ u = ((m * 2 ^ d : ℤ) : ℚ) := by
    rw [div_eq_iff hupos.ne.symm, hq]; push_cast; ring
  unfold F64.roundQ
  rw [hu, hz, F64.roundHalfEven_intCast, hq]
  push_cast; ring

/-- A value on the binary64 grid is left unchanged by the rounding. -/
theorem F64.roundQ_grid (m k : ℤ) (hm : |m| < 2 ^ (53 : ℕ)) (hk : -1074 ≤ k) :
    F64.roundQ ((m : ℚ) * 2 ^ k) = (m : ℚ) * 2 ^ k := by
  by_cases hm0 : m = 0
  · subst hm0; simp [F64.roundQ, F64.roundHalfEven]
  have hb : 1 < (2 : ℕ) := by norm_num
  have h2k : (0 : ℚ) < 2 ^ k := by positivity
  have hqabs : |(m : ℚ) * 2 ^ k| = |(m : ℚ)| * 2 ^ k := by rw [abs_mul, abs_of_pos h2k]
  have hqpos : 0 < |(m : ℚ) * 2 ^ k| := by
    rw [hqabs]; exact mul_pos (abs_pos.mpr (by exact_mod_cast hm0)) h2k
  have hlog : Int.log 2 |(m : ℚ) * 2 ^ k| < 53 + k := by
    rw [← Int.lt_zpow_iff_log_lt hb hqpos, hqabs]
    have : |(m : ℚ)| < 2 ^ (53 : ℕ) := by exact_mod_cast hm
    calc |(m : ℚ)| * 2 ^ k < 2 ^ (53 : ℕ) * 2 ^ k := by
          exact mul_lt_mul_of_pos_right this h2k
      _ = ((2 : ℕ) : ℚ) ^ (53 + k) := by
          rw [zpow_add₀ (by norm_num)]; norm_num
  have hu : F64.ulpExp ((m : ℚ) * 2 ^ k) ≤ k := by unfold F64.ulpExp; omega
  obtain ⟨d, hd⟩ := Int.le.dest hu
  apply F64.roundQ_of_multiple m d rfl
  conv_lhs => rw [← hd]
  rw [zpow_add₀ (by norm_num)]; norm_num; ring

theorem F64.ofRat_grid (m k : ℤ) (hm : |m| < 2 ^ (53 : ℕ)) (hk : -1074 ≤ k)
    (hk2 : k ≤ 971) : F64.ofRat ((m : ℚ) * 2 ^ k) = F64.fin ((m : ℚ) * 2 ^ k) := by
  unfold F64.ofRat
  rw [F64.roundQ_grid m k hm hk, if_neg]
  rw [not_le, abs_mul, abs_of_pos (by positivity : (0 : ℚ) < 2 ^ k)]
  have h1 : |(m : ℚ)| < 2 ^ (53 : ℕ) := by exact_mod_cast hm
  have h2 : (2 : ℚ) ^ k ≤ 2 ^ (971 : ℤ) := zpow_le_zpow_right₀ (by norm_num) hk2
  calc |(m : ℚ)| * 2 ^ k < 2 ^ (53 : ℕ) * 2 ^ (971 : ℤ) := by
        apply mul_lt_mul h1 h2 (by positivity) (by positivity)
    _ = 2 ^ (1024 : ℕ) := by norm_num

/-- Integers of magnitude below `2^53` convert to `float64` exactly. -/
theorem F64.ofInt_exact (i : ℤ) (hi : |i| < 2 ^ (53 : ℕ)) : F64.ofInt i = F64.fin i := by
  have := F64.ofRat_grid i 0 hi (by norm_num) (by norm_num)
  simpa [F64.ofInt] using this

theorem F64.ofRat_eq_pos {q : ℚ} {e m : ℤ} (h1 : (2 : ℚ) ^ e ≤ q) (h2 : q < (2 : ℚ) ^ (e + 1))
    (he : -1022 ≤ e) (he2 : e ≤ 1022) (hm : |q / 2 ^ (e - 52) - m| < 1 / 2) :
    F64.ofRat q = F64.fin ((m : ℚ) * 2 ^ (e - 52)) := by
  have hq : 0 < q := lt_of_lt_of_le (by positivity) h1
  have hpos : (0 : ℚ) < 2 ^ (e - 52) := by positivity
  have hm2 : (m : ℚ) < q / 2 ^ (e - 52) + 1 / 2 := by linarith [(abs_lt.mp hm).1]
  have hm0 : (0 : ℚ) ≤ (m : ℚ) * 2 ^ (e - 52) := by
    have : (-1 : ℚ) < (m : ℚ) := by
      have := div_pos hq hpos
      linarith [(abs_lt.mp hm).2]
    have : (-1 : ℤ) < m := by exact_mod_cast this
    have : (0 : ℚ) ≤ (m : ℚ) := by exact_mod_cast (by omega : (0 : ℤ) ≤ m)
    positivity
  unfold F64.ofRat
  rw [F64.roundQ_eq_pos h1 h2 he hm, if_neg]
  rw [not_le, abs_of_nonneg hm0]
  have h3 : (m : ℚ) * 2 ^ (e - 52) < q + 1 / 2 * 2 ^ (e - 52) := by
    have := mul_lt_mul_of_pos_right hm2 hpos
    rwa [add_mul, div_mul_cancel₀ _ hpos.ne.symm] at this
  have h4 : (2 : ℚ) ^ (e - 52) ≤ 2 ^ (e + 1) := zpow_le_zpow_right₀ (by norm_num) (by omega)
  have h5 : (2 : ℚ) ^ (e + 1) ≤ 2 ^ (1023 : ℤ) := zpow_le_zpow_right₀ (by norm_num) (by omega)
  have h6 : (2 : ℚ) ^ (1024 : ℕ) = 2 * 2 ^ (1023 : ℤ) := by norm_num
  have h7 : (0 : ℚ) < 2 ^ (1023 : ℤ) := by positivity
  rw [h6]; nlinarith

/-- The general branch of `CalculatePercentile`, once the `float64` product is
known: the sample at the ceiling of the product, less one. -/
theorem CalculatePercentile_of_index (s : List ℤ) (q idx : ℚ) (k : ℤ) (hq0 : 0 < q)
    (hq100 : q < 100)
    (hidx : F64.mul (F64.div (F64.fin q) (F64.fin 100)) (F64.ofInt s.length) = F64.fin idx)
    (hk : ⌈idx⌉ = k) (h1 : 1 ≤ k) (hkn : k ≤ s.length) (hlen : s.length < 2 ^ 63) :
    CalculatePercentile s (F64.fin q) = s.getD (k - 1).toNat 0 := by
  have hn : (s.length : ℤ) ≠ 0 := by omega
  have hlen' : (s.length : ℤ) < 2 ^ 63 := by exact_mod_cast hlen
  have hle0 : F64.le (F64.fin q) (F64.fin 0) = false := by
    simp [F64.le, hq0]
  have hle100 : F64.le (F64.fin 100) (F64.fin q) = false := by
    simp [F64.le, hq100]
  have htr : F64.toInt (F64.ceil (F64.fin idx)) = k := by
    have hk0 : (0 : ℚ) ≤ ((k : ℤ) : ℚ) := by exact_mod_cast (by omega : (0 : ℤ) ≤ k)
    simp only [F64.ceil, F64.toInt, F64.truncQ, hk, if_pos hk0, Int.floor_intCast]
    rw [if_pos]; constructor <;> omega
  have hw : wrapInt64 (k - 1) = k - 1 := by
    unfold wrapInt64; omega
  unfold CalculatePercentile
  simp only [hn, if_false, hle0, hle100, hidx, htr, hw, Bool.false_eq_true]
  rw [if_neg (by omega), if_neg (by omega)]

theorem index_seven_hundred :
    F64.mul (F64.div (F64.fin 7) (F64.fin 100)) (F64.ofInt 100)
      = F64.fin (7881299347898369 / 1125899906842624) := by
  have h1 : F64.div (F64.fin 7) (F64.fin 100)
      = F64.fin (1261007895663739 / 18014398509481984) := by
    rw [F64.div, if_neg (by norm_num),
      @F64.ofRat_eq_pos (7 / 100) (-4) 5044031582654956 (by norm_num) (by norm_num)
        (by norm_num) (by norm_num) (by rw [abs_lt]; constructor <;> norm_num)]
    norm_num
  have h2 : F64.ofInt 100 = F64.fin 100 := by
    simpa using F64.ofInt_exact 100 (by norm_num)
  rw [h1, h2, F64.mul,
    @F64.ofRat_eq_pos (1261007895663739 / 18014398509481984 * 100) 2 7881299347898369
      (by norm_num) (by norm_num) (by norm_num) (by norm_num)
      (by rw [abs_lt]; constructor <;> norm_num)]
  norm_num

/-! ## Percentiles -/

/-- Claim C1. On the hundred sorted samples `0ns, ..., 99ns` and `p = 7` the
code returns the sample of index 7, because the `float64` product
`(7 / 100) * 100` is `7.000000000000001` and its ceiling is 8, while the
nearest-rank reference `⌈(p / 100) * n⌉ - 1 = 6` selects the sample of index 6. -/
theorem C1_percentile_seven_of_hundred :
    CalculatePercentile samples100 (F64.fin 7) = 7 ∧ nearestRankSpec samples100 7 = 6 := by
  constructor
  · rw [CalculatePercentile_of_index samples100 7 _ 8 (by norm_num) (by norm_num)
      (by simpa [samples100] using index_seven_hundred)
      (by rw [Int.ceil_eq_iff]; constructor <;> norm_num) (by norm_num)
      (by simp [samples100]) (by simp [samples100])]
    rfl
  · have h : ⌈(7 : ℚ) / 100 * ((samples100.length : ℕ) : ℚ)⌉ = 7 := by
      rw [Int.ceil_eq_iff]; constructor <;> norm_num [samples100]
    unfold nearestRankSpec
    rw [if_neg (by simp [samples100]), if_neg (by norm_num), if_neg (by norm_num), h]
    rfl

/-- The median of four samples: the `float64` product `(50 / 100) * 4` is
exactly 2, so the sample of index 1 is returned. -/
theorem percentile_fifty_of_four (a b c d : ℤ) :
    CalculatePercentile [a, b, c, d] (F64.fin 50) = b := by
  have h1 : F64.div (F64.fin 50) (F64.fin 100) = F64.fin (1 / 2) := by
    have := F64.ofRat_grid 1 (-1) (by norm_num) (by norm_num) (by norm_num)
    have e : ((1 : ℤ) : ℚ) * 2 ^ (-1 : ℤ) = 50 / 100 := by norm_num
    rw [e] at this
    rw [F64.div, if_neg (by norm_num), this]; norm_num
  have h2 : F64.ofInt (([a, b, c, d] : List ℤ).length : ℤ) = F64.fin 4 := by
    simpa using F64.ofInt_exact 4 (by norm_num)
  have h3 : F64.mul (F64.fin (1 / 2)) (F64.fin 4) = F64.fin 2 := by
    have := F64.ofRat_grid 2 0 (by norm_num) (by norm_num) (by norm_num)
    have e : ((2 : ℤ) : ℚ) * 2 ^ (0 : ℤ) = 1 / 2 * 4 := by norm_num
    rw [e] at this
    rw [F64.mul, this]; norm_num
  rw [CalculatePercentile_of_index _ 50 2 2 (by norm_num) (by norm_num) (by rw [h1, h2, h3])
    (by norm_num) (by norm_num) (by simp) (by simp)]
  rfl

/-- The extreme branches agree with the nearest-rank reference: the minimum
for `p ≤ 0`, the maximum for `p ≥ 100`, and `0` on the empty list. -/
theorem CalculatePercentile_extremes (s : List ℤ) (p : ℚ) (hp : p ≤ 0 ∨ 100 ≤ p) :
    CalculatePercentile s (F64.fin p) = nearestRankSpec s p := by
  unfold CalculatePercentile nearestRankSpec
  by_cases hn : s.length = 0
  · simp [hn]
  · have hn' : ¬ ((s.length : ℤ) = 0) := by exact_mod_cast hn
    have e : ((s.length : ℤ) - 1).toNat = s.length - 1 := by omega
    simp only [hn, hn', if_false, F64.le, decide_eq_true_eq, e]
    rcases hp with hp | hp
    · rw [if_pos hp, if_pos hp]
    · by_cases h0 : p ≤ 0
      · rw [if_pos h0, if_pos h0]
      · rw [if_neg h0, if_neg h0, if_pos hp, if_pos hp]

/-- The median agrees with the nearest-rank reference: for `p = 50` the
`float64` product is exact on every list shorter than `2^53`. -/
theorem CalculatePercentile_fifty (s : List ℤ) (hlen : s.length < 2 ^ 53) (hs : 0 < s.length) :
    CalculatePercentile s (F64.fin 50) = nearestRankSpec s 50 := by
  have hlenZ : ((s.length : ℤ)) < 2 ^ (53 : ℕ) := by exact_mod_cast hlen
  have h1 : F64.div (F64.fin 50) (F64.fin 100) = F64.fin (1 / 2) := by
    have := F64.ofRat_grid 1 (-1) (by norm_num) (by norm_num) (by norm_num)
    have e : ((1 : ℤ) : ℚ) * 2 ^ (-1 : ℤ) = 50 / 100 := by norm_num
    rw [e] at this
    rw [F64.div, if_neg (by norm_num), this]; norm_num
  have h2 : F64.ofInt (s.length : ℤ) = F64.fin ((s.length : ℤ) : ℚ) :=
    F64.ofInt_exact _ (by rw [abs_of_nonneg (by positivity)]; exact hlenZ)
  have h3 : F64.mul (F64.fin (1 / 2)) (F64.fin ((s.length : ℤ) : ℚ))
      = F64.fin ((s.length : ℚ) / 2) := by
    have := F64.ofRat_grid (s.length : ℤ) (-1)
      (by rw [abs_of_nonneg (by positivity)]; exact hlenZ) (by norm_num) (by norm_num)
    have e : (((s.length : ℤ)) : ℚ) * 2 ^ (-1 : ℤ) = 1 / 2 * ((s.length : ℤ) : ℚ) := by
      norm_num; ring
    rw [e] at this
    rw [F64.mul, this]; congr 1; push_cast; ring
  have hpos : (0 : ℚ) < (s.length : ℚ) / 2 := by
    have : (0 : ℚ) < (s.length : ℚ) := by exact_mod_cast hs
    linarith
  have hk1 : 1 ≤ ⌈(s.length : ℚ) / 2⌉ := by
    have := Int.ceil_pos.mpr hpos
    omega
  have hk2 : ⌈(s.length : ℚ) / 2⌉ ≤ (s.length : ℤ) := by
    rw [Int.ceil_le]
    have : (0 : ℚ) < (s.length : ℚ) := by exact_mod_cast hs
    push_cast; linarith
  rw [CalculatePercentile_of_index s 50 _ ⌈(s.length : ℚ) / 2⌉ (by norm_num) (by norm_num)
    (by rw [h1, h2, h3]) rfl hk1 hk2 (by omega)]
  unfold nearestRankSpec
  rw [if_neg (by omega), if_neg (by norm_num), if_neg (by norm_num)]
  have e : (50 : ℚ) / 100 * (s.length : ℚ) = (s.length : ℚ) / 2 := by ring
  rw [e, max_eq_right (by omega), min_eq_left (by omega)]

/-- Claim C2, refuted as stated: on `[10ms, 20ms, 30ms, 40ms]` with `p = 50` the
code does not return 30ms. -/
theorem C2_not_thirty :
    CalculatePercentile [10 * millisecond, 20 * millisecond, 30 * millisecond, 40 * millisecond]
      (F64.fin 50) ≠ 30 * millisecond := by
  rw [percentile_fifty_of_four]; decide

/-- Claim C2, amended: on `[10ms, 20ms, 30ms, 40ms]` with `p = 50` the code
returns 20ms, the sample of index `⌈0.5 * 4⌉ - 1 = 1`. -/
theorem C2_twenty :
    CalculatePercentile [10 * millisecond, 20 * millisecond, 30 * millisecond, 40 * millisecond]
      (F64.fin 50) = 20 * millisecond :=
  percentile_fifty_of_four _ _ _ _

/-! ## The run task: delivery of the final report -/

theorem sentResults_deferredTail : sentResults deferredTail = [] := rfl

theorem sentResults_append (xs ys : List TaskEvent) :
    sentResults (xs ++ ys) = sentResults xs ++ sentResults ys := by
  induction xs with
  | nil => rfl
  | cons x xs ih => cases x <;> simp [sentResults, ih]

theorem sentResults_fallbackSend_length (r : BenchmarkResult) (msg : String) (b : Bool) :
    (sentResults (fallbackSend r msg b)).length ≤ 1 := by
  unfold fallbackSend
  split_ifs <;> simp [sentResults]

/-- The reports sent by the run task after `runCollector` returns `r`, by
resolution of the delivery `select`: `r` in the send case; in the `ctx.Done()`
and timeout cases, for an `r` without terminal error, `r` marked with an error
if the consumer is receiving; none if it is not; in every case nothing is sent
after the close, which happens once. -/
theorem runTask_delivery (cfg : BenchmarkConfig) (r : BenchmarkResult) (d : Delivery) :
    (d.outer = DeliveryCase.send →
      sentBeforeClose (runTask cfg (Except.ok r) d) = [r]) ∧
    (d.outer = DeliveryCase.ctxDone → r.Error = none → d.consumerReady = true →
      sentBeforeClose (runTask cfg (Except.ok r) d)
        = [{ r with Error := some "benchmark interrupted before final result sent" }]) ∧
    (d.outer = DeliveryCase.timeout → r.Error = none → d.consumerReady = true →
      sentBeforeClose (runTask cfg (Except.ok r) d)
        = [{ r with Error := some "timed out sending final result to TUI" }]) ∧
    (d.outer ≠ DeliveryCase.send → d.consumerReady = false →
      sentBeforeClose (runTask cfg (Except.ok r) d) = []) ∧
    sentResults (runTask cfg (Except.ok r) d) = sentBeforeClose (runTask cfg (Except.ok r) d) ∧
    (runTask cfg (Except.ok r) d).count TaskEvent.closeResultChan = 1 := by
  obtain ⟨outer, ready, rs⟩ := d
  refine ⟨?_, ?_, ?_, ?_, ?_, ?_⟩
  · intro h
    simp only at h
    subst h
    simp [runTask, deliver, sentBeforeClose, deferredTail]
  · intro h hr hc
    simp only at h hc
    subst h hc
    simp [runTask, deliver, fallbackSend, hr, sentBeforeClose, deferredTail]
  · intro h hr hc
    simp only at h hc
    subst h hc
    simp [runTask, deliver, fallbackSend, hr, sentBeforeClose, deferredTail]
  · intro h hc
    simp only at h hc
    subst hc
    cases outer with
    | send => exact absurd rfl h
    | ctxDone =>
      by_cases hr : r.Error = none <;>
        simp [runTask, deliver, fallbackSend, hr, sentBeforeClose, deferredTail]
    | timeout =>
      by_cases hr : r.Error = none <;>
        simp [runTask, deliver, fallbackSend, hr, sentBeforeClose, deferredTail]
  · cases outer <;> cases ready <;> by_cases hr : r.Error = none <;>
      simp [runTask, deliver, fallbackSend, hr, sentBeforeClose, sentResults, deferredTail]
  · cases outer <;> cases ready <;> by_cases hr : r.Error = none <;>
      simp [runTask, deliver, fallbackSend, hr, deferredTail]

/-- The delivery on concrete runs: the send case delivers the report, the
`ctx.Done()` case with a receiving consumer delivers the marked report, and the
timeout case without a consumer delivers nothing. -/
theorem runTask_delivery_sample :
    sentBeforeClose
        (runTask sampleConfig (Except.ok BenchmarkResult.zero)
          { outer := DeliveryCase.send, consumerReady := true, recoverSend := true })
        = [BenchmarkResult.zero] ∧
    sentBeforeClose
        (runTask sampleConfig (Except.ok BenchmarkResult.zero)
          { outer := DeliveryCase.ctxDone, consumerReady := true, recoverSend := true })
        = [{ BenchmarkResult.zero with
              Error := some "benchmark interrupted before final result sent" }] ∧
    sentBeforeClose
        (runTask sampleConfig (Except.ok BenchmarkResult.zero)
          { outer := DeliveryCase.timeout, consumerReady := false, recoverSend := true })
        = [] :=
  ⟨(runTask_delivery sampleConfig BenchmarkResult.zero
      { outer := DeliveryCase.send, consumerReady := true, recoverSend := true }).1 rfl,
   (runTask_delivery sampleConfig BenchmarkResult.zero
      { outer := DeliveryCase.ctxDone, consumerReady := true, recoverSend := true }).2.1
      rfl rfl rfl,
   (runTask_delivery sampleConfig BenchmarkResult.zero
      { outer := DeliveryCase.timeout, consumerReady := false, recoverSend := true }).2.2.2.1
      (by decide) rfl⟩

/-- Claim C4. On every path of the run task (return of `runCollector` followed
by any case of the delivery `select`, or a recovered panic) at most one report
is sent on `resultChan`. -/
theorem C4_at_most_one_report (cfg : BenchmarkConfig) (collector : Except String BenchmarkResult)
    (d : Delivery) : (sentResults (runTask cfg collector d)).length ≤ 1 := by
  cases collector with
  | ok r =>
    simp only [runTask, sentResults_append, List.length_append, sentResults_deferredTail,
      sentResults, List.length_nil, add_zero]
    cases h : d.outer <;> simp only [deliver, h]
    · simp [sentResults]
    · exact sentResults_fallbackSend_length _ _ _
    · exact sentResults_fallbackSend_length _ _ _
  | error v =>
    simp only [runTask, sentResults_append, List.length_append, sentResults_deferredTail,
      sentResults, List.length_nil, add_zero]
    split_ifs <;> simp [sentResults]

/-! ## The collector -/

theorem collectorStep_balanced (startTime : ℤ) (st : CollectorState) (ev : CollectorEvent)
    (h : ProgressBalanced st) : ProgressBalanced (collectorStep startTime st ev) := by
  cases ev with
  | ctxDone => exact h
  | result latency => exact h
  | failure err => exact h
  | workersDone => exact h
  | tick now ready =>
    unfold collectorStep
    split_ifs
    · exact h
    · intro pm hpm
      simp only [List.mem_append, List.mem_singleton] at hpm
      rcases hpm with hpm | hpm
      · exact h pm hpm
      · subst hpm; rfl

theorem collectorLoop_balanced (startTime : ℤ) (events : List CollectorEvent) :
    ∀ st, ProgressBalanced st → ProgressBalanced (collectorLoop startTime st events).1 := by
  induction events with
  | nil => intro st h; exact h
  | cons ev rest ih =>
    intro st h
    cases ev with
    | workersDone => exact h
    | ctxDone => exact ih _ (collectorStep_balanced startTime st _ h)
    | result latency => exact ih _ (collectorStep_balanced startTime st _ h)
    | failure err => exact ih _ (collectorStep_balanced startTime st _ h)
    | tick now ready => exact ih _ (collectorStep_balanced startTime st _ h)

/-- The loop ends as soon as the workers-done case fires. -/
theorem collectorLoop_exits (startTime : ℤ) (events : List CollectorEvent)
    (h : CollectorEvent.workersDone ∈ events) :
    ∀ st, (collectorLoop startTime st events).2 = true := by
  induction events with
  | nil => simp at h
  | cons ev rest ih =>
    intro st
    cases ev with
    | workersDone => rfl
    | ctxDone => exact ih (by simpa using h) _
    | result latency => exact ih (by simpa using h) _
    | failure err => exact ih (by simpa using h) _
    | tick now ready => exact ih (by simpa using h) _

theorem drainResults_fields (buffered : List ℤ) :
    ∀ st : CollectorState,
      (drainResults st buffered).requestsCompleted = st.requestsCompleted + buffered.length ∧
      (drainResults st buffered).latencyData = st.latencyData ++ buffered ∧
      (drainResults st buffered).errorCount = st.errorCount ∧
      (drainResults st buffered).errorDetails = st.errorDetails := by
  induction buffered with
  | nil => intro st; simp [drainResults]
  | cons x xs ih =>
    intro st
    have := ih { st with requestsCompleted := st.requestsCompleted + 1,
                         latencyData := st.latencyData ++ [x] }
    simp only [drainResults, List.foldl_cons] at this ⊢
    obtain ⟨h1, h2, h3, h4⟩ := this
    refine ⟨?_, ?_, h3, h4⟩
    · rw [h1]; simp; ring
    · rw [h2]; simp

theorem lookup_bump (key k : String) (m : List (String × ℤ)) :
    lookup k (bump key m) = lookup k m + if k = key then 1 else 0 := by
  induction m with
  | nil =>
    by_cases h : k = key
    · subst h; simp [bump, lookup]
    · have h' : ¬ key = k := fun e => h e.symm
      simp [bump, lookup, h, h']
  | cons p rest ih =>
    obtain ⟨k0, c⟩ := p
    by_cases h0 : k0 = key
    · subst h0
      by_cases h : k0 = k
      · subst h; simp [bump, lookup]
      · have h' : ¬ k = k0 := fun e => h e.symm
        simp [bump, lookup, h, h']
    · by_cases h : k0 = k
      · subst h
        simp [bump, lookup, h0]
      · simp [bump, lookup, h0, h, ih]

theorem drainErrors_fields (buffered : List (Option GoError)) :
    ∀ st : CollectorState,
      (drainErrors st buffered).errorCount = st.errorCount + buffered.length ∧
      (drainErrors st buffered).requestsCompleted = st.requestsCompleted ∧
      (drainErrors st buffered).latencyData = st.latencyData ∧
      ∀ k, lookup k (drainErrors st buffered).errorDetails
        = lookup k st.errorDetails
          + if k = "Drained Error (Final Loop)" then (buffered.length : ℤ) else 0 := by
  induction buffered with
  | nil => intro st; simp [drainErrors]
  | cons x xs ih =>
    intro st
    have := ih { st with errorCount := st.errorCount + 1,
                         errorDetails := bump "Drained Error (Final Loop)" st.errorDetails }
    simp only [drainErrors, List.foldl_cons] at this ⊢
    obtain ⟨h1, h2, h3, h4⟩ := this
    refine ⟨?_, h2, h3, ?_⟩
    · rw [h1]; simp; ring
    · intro k
      rw [h4 k, lookup_bump]
      by_cases hk : k = "Drained Error (Final Loop)"
      · simp [hk]; ring
      · simp [hk]

theorem finalize_counts (cfg : BenchmarkConfig) (ctxErr : CtxErr) (startTime endTime : ℤ)
    (st : CollectorState) (bufferedResults : List ℤ) (bufferedErrors : List (Option GoError)) :
    (finalize cfg ctxErr startTime endTime st bufferedResults bufferedErrors).TotalRequestsCompleted
        = st.requestsCompleted + bufferedResults.length ∧
    (finalize cfg ctxErr startTime endTime st bufferedResults bufferedErrors).TotalErrors
        = st.errorCount + bufferedErrors.length ∧
    (finalize cfg ctxErr startTime endTime st bufferedResults bufferedErrors).TotalRequestsSent
        = (finalize cfg ctxErr startTime endTime st bufferedResults
            bufferedErrors).TotalRequestsCompleted
          + (finalize cfg ctxErr startTime endTime st bufferedResults bufferedErrors).TotalErrors ∧
    (finalize cfg ctxErr startTime endTime st bufferedResults bufferedErrors).LatencyData
        = SortLatencies (st.latencyData ++ bufferedResults) := by
  obtain ⟨r1, r2, r3, _⟩ := drainResults_fields bufferedResults st
  obtain ⟨e1, e2, e3, _⟩ := drainErrors_fields bufferedErrors (drainResults st bufferedResults)
  refine ⟨?_, ?_, rfl, ?_⟩
  · show (drainErrors (drainResults st bufferedResults) bufferedErrors).requestsCompleted = _
    rw [e2, r1]
  · show (drainErrors (drainResults st bufferedResults) bufferedErrors).errorCount = _
    rw [e1, r3]
  · show SortLatencies (drainErrors (drainResults st bufferedResults) bufferedErrors).latencyData
      = _
    rw [e3, r2]

/-- A call of `runCollector` with a non-negative worker count whose loop has
ended returns the aggregate of the state at the end of the loop. -/
theorem runCollector_returned (cfg : BenchmarkConfig) (ctxErr : CtxErr) (startTime endTime : ℤ)
    (events : List CollectorEvent) (bufferedResults : List ℤ)
    (bufferedErrors : List (Option GoError)) (hthreads : 0 ≤ (amplify cfg).Threads)
    (hloop : (collectorLoop startTime CollectorState.init events).2 = true) :
    (runCollector cfg ctxErr startTime endTime events bufferedResults bufferedErrors).outcome
      = CollectorOutcome.returned
          (finalize (amplify cfg) ctxErr startTime endTime
            (collectorLoop startTime CollectorState.init events).1 bufferedResults
            bufferedErrors) := by
  unfold runCollector
  simp only [if_neg (not_lt.mpr hthreads), hloop, if_true]

/-- Claim C5. Count conservation: every progress snapshot built by
`runCollector` has `RequestsAttempted = RequestsCompleted + Errors`, every
report it returns has `TotalRequestsSent = TotalRequestsCompleted + TotalErrors`,
and it does return a report once the workers-done case fires (the worker count
being non-negative). -/
theorem C5_count_conservation (cfg : BenchmarkConfig) (ctxErr : CtxErr) (startTime endTime : ℤ)
    (events : List CollectorEvent) (bufferedResults : List ℤ)
    (bufferedErrors : List (Option GoError)) :
    (∀ pm ∈ (runCollector cfg ctxErr startTime endTime events bufferedResults
        bufferedErrors).progress,
      pm.1.RequestsAttempted = pm.1.RequestsCompleted + pm.1.Errors) ∧
    (∀ r, (runCollector cfg ctxErr startTime endTime events bufferedResults
        bufferedErrors).outcome = CollectorOutcome.returned r →
      r.TotalRequestsSent = r.TotalRequestsCompleted + r.TotalErrors) ∧
    (0 ≤ (amplify cfg).Threads → CollectorEvent.workersDone ∈ events →
      ∃ r, (runCollector cfg ctxErr startTime endTime events bufferedResults
        bufferedErrors).outcome = CollectorOutcome.returned r) := by
  refine ⟨?_, ?_, ?_⟩
  · by_cases h : (amplify cfg).Threads < 0
    · intro pm hpm
      simp [runCollector, h] at hpm
    · simp only [runCollector, if_neg h]
      exact collectorLoop_balanced startTime events _
        (by intro pm hpm; simp [CollectorState.init] at hpm)
  · intro r hr
    by_cases h : (amplify cfg).Threads < 0
    · simp [runCollector, h] at hr
    · by_cases h2 : (collectorLoop startTime CollectorState.init events).2 = true
      · rw [runCollector_returned cfg ctxErr startTime endTime events bufferedResults
          bufferedErrors (not_lt.mp h) h2] at hr
        simp only [CollectorOutcome.returned.injEq] at hr
        subst hr
        exact (finalize_counts _ _ _ _ _ _ _).2.2.1
      · simp [runCollector, h, h2] at hr
  · intro hthreads hdone
    exact ⟨_, runCollector_returned cfg ctxErr startTime endTime events bufferedResults
      bufferedErrors hthreads (collectorLoop_exits startTime events hdone _)⟩

/-- Claim C5 on a concrete run: one success, one failure and a tick in the
loop, one success and one failure drained. -/
theorem C5_count_conservation_witness :
    ∃ r, (runCollector sampleConfig CtxErr.deadlineExceeded 0 200000000
        [CollectorEvent.result 5000000, CollectorEvent.failure (some refusedError),
          CollectorEvent.tick 100000000 true, CollectorEvent.workersDone]
        [7000000] [some refusedError]).outcome = CollectorOutcome.returned r ∧
      r.TotalRequestsSent = r.TotalRequestsCompleted + r.TotalErrors := by
  obtain ⟨_, h2, h3⟩ := C5_count_conservation sampleConfig CtxErr.deadlineExceeded 0 200000000
    [CollectorEvent.result 5000000, CollectorEvent.failure (some refusedError),
      CollectorEvent.tick 100000000 true, CollectorEvent.workersDone]
    [7000000] [some refusedError]
  obtain ⟨r, hr⟩ := h3 (by decide) (by simp)
  exact ⟨r, hr, h2 r hr⟩

/-- Claim C6. Drain completeness: when the main loop ends in state `st` with
`bufferedResults` still in the results channel and `bufferedErrors` still in
the errors channel, `runCollector` returns a report whose completed count is
the one of `st` plus the number of buffered latencies, whose error count is
the one of `st` plus the number of buffered errors, and whose latency series is
the sorted series of `st` extended by the buffered latencies. -/
theorem C6_drain_complete (cfg : BenchmarkConfig) (ctxErr : CtxErr) (startTime endTime : ℤ)
    (events : List CollectorEvent) (bufferedResults : List ℤ)
    (bufferedErrors : List (Option GoError)) (st : CollectorState)
    (hthreads : 0 ≤ (amplify cfg).Threads)
    (hloop : collectorLoop startTime CollectorState.init events = (st, true)) :
    ∃ r, (runCollector cfg ctxErr startTime endTime events bufferedResults
        bufferedErrors).outcome = CollectorOutcome.returned r ∧
      r.TotalRequestsCompleted = st.requestsCompleted + bufferedResults.length ∧
      r.TotalErrors = st.errorCount + bufferedErrors.length ∧
      r.TotalRequestsSent
        = st.requestsCompleted + st.errorCount + bufferedResults.length + bufferedErrors.length ∧
      r.LatencyData.Perm (st.latencyData ++ bufferedResults) := by
  have h := runCollector_returned cfg ctxErr startTime endTime events bufferedResults
    bufferedErrors hthreads (by rw [hloop])
  rw [hloop] at h
  obtain ⟨c1, c2, c3, c4⟩ := finalize_counts (amplify cfg) ctxErr startTime endTime st
    bufferedResults bufferedErrors
  refine ⟨_, h, c1, c2, ?_, ?_⟩
  · rw [c3, c1, c2]; ring
  · rw [c4]; exact List.perm_insertionSort _ _

/-- Claim C6 on a concrete run: one success consumed in the loop, two successes
and one failure still buffered when it ends. -/
theorem C6_drain_complete_witness :
    ∃ r, (runCollector sampleConfig CtxErr.canceled 0 200000000
        [CollectorEvent.result 5000000, CollectorEvent.ctxDone, CollectorEvent.workersDone]
        [7000000, 6000000] [some refusedError]).outcome = CollectorOutcome.returned r ∧
      r.TotalRequestsCompleted = 1 + 2 ∧ r.TotalErrors = 0 + 1 ∧
      r.TotalRequestsSent = 1 + 0 + 2 + 1 ∧
      r.LatencyData.Perm ([5000000] ++ [7000000, 6000000]) :=
  C6_drain_complete sampleConfig CtxErr.canceled 0 200000000
    [CollectorEvent.result 5000000, CollectorEvent.ctxDone, CollectorEvent.workersDone]
    [7000000, 6000000] [some refusedError]
    { requestsCompleted := 1, errorCount := 0, latencyData := [5000000], errorDetails := [],
      contextAlreadyDone := true, progress := [] }
    (by decide) rfl

/-- Claim C7, refuted as stated: the same connection-refused failure ends under
the key `Connection Refused` when the main loop consumes it and under the key
`Drained Error (Final Loop)` when the drain consumes it. -/
theorem C7_drained_key_differs :
    ((runCollector sampleConfig CtxErr.deadlineExceeded 0 200000000
        [CollectorEvent.failure (some refusedError), CollectorEvent.workersDone]
        [] []).outcome.result?.map BenchmarkResult.ErrorDetails
      = some [("Connection Refused", 1)]) ∧
    ((runCollector sampleConfig CtxErr.deadlineExceeded 0 200000000
        [CollectorEvent.workersDone]
        [] [some refusedError]).outcome.result?.map BenchmarkResult.ErrorDetails
      = some [("Drained Error (Final Loop)", 1)]) := by
  constructor
  · rw [runCollector_returned sampleConfig CtxErr.deadlineExceeded 0 200000000
      [CollectorEvent.failure (some refusedError), CollectorEvent.workersDone] [] []
      (by decide) rfl]
    rfl
  · rw [runCollector_returned sampleConfig CtxErr.deadlineExceeded 0 200000000
      [CollectorEvent.workersDone] [] [some refusedError] (by decide) rfl]
    rfl

/-- Claim C7, amended: a failure consumed by the drain raises the error count
by one, as one consumed by the main loop does, but it is counted under the
fixed key `Drained Error (Final Loop)` whatever its cause, where the main loop
counts it under the key derived from the error; the report of `runCollector`
carries the drained failures under that fixed key. -/
theorem C7_drain_key (cfg : BenchmarkConfig) (ctxErr : CtxErr) (startTime endTime : ℤ)
    (st : CollectorState) (err : Option GoError) (bufferedResults : List ℤ)
    (bufferedErrors : List (Option GoError)) (k : String) :
    (drainErrors st [err]).errorCount
        = (collectorStep startTime st (CollectorEvent.failure err)).errorCount ∧
    lookup k (collectorStep startTime st (CollectorEvent.failure err)).errorDetails
        = lookup k st.errorDetails + (if k = errKey err then 1 else 0) ∧
    lookup k (drainErrors st [err]).errorDetails
        = lookup k st.errorDetails + (if k = "Drained Error (Final Loop)" then 1 else 0) ∧
    lookup k (finalize cfg ctxErr startTime endTime st bufferedResults
          bufferedErrors).ErrorDetails
        = lookup k st.errorDetails
          + (if k = "Drained Error (Final Loop)" then (bufferedErrors.length : ℤ) else 0) := by
  refine ⟨?_, ?_, ?_, ?_⟩
  · rw [(drainErrors_fields [err] st).1]; simp [collectorStep]
  · simp only [collectorStep]; exact lookup_bump _ _ _
  · simpa using (drainErrors_fields [err] st).2.2.2 k
  · show lookup k (drainErrors (drainResults st bufferedResults) bufferedErrors).errorDetails
      = _
    rw [(drainErrors_fields bufferedErrors _).2.2.2 k,
      (drainResults_fields bufferedResults st).2.2.2]

/-! ## The engine -/

/-- Claim C8, refuted as stated: `Start` on a finished engine, with a URL and a
duration that parse, returns nil and moves the engine to `Running`. -/
theorem C8_start_from_finished :
    (Engine.Start parseURLOk parseDurationOk
        { status := Status.StatusFinished, stopSignal := ChanState.closedChan, wgGlobal := 0 }
        sampleConfig).err = none ∧
    (Engine.Start parseURLOk parseDurationOk
        { status := Status.StatusFinished, stopSignal := ChanState.closedChan, wgGlobal := 0 }
        sampleConfig).engine.status = Status.StatusRunning := by
  constructor <;> rfl

/-- Claim C8, amended: `Start` returns nil exactly when the status is `Idle` or
`Finished` and both the URL and the duration parse, and the engine is then
`Running`; from `Running` and from `Stopping` it returns an error. -/
theorem C8_start_accepted (parseURL : String → Except String String)
    (parseDuration : String → Except String ℤ) (e : Engine) (cfg : BenchmarkConfig) :
    ((Engine.Start parseURL parseDuration e cfg).err = none ↔
      (e.status = Status.StatusIdle ∨ e.status = Status.StatusFinished) ∧
      (∃ u, parseURL cfg.TargetURL = Except.ok u) ∧
      (∃ duration, parseDuration cfg.Duration = Except.ok duration)) ∧
    ((Engine.Start parseURL parseDuration e cfg).err = none →
      (Engine.Start parseURL parseDuration e cfg).engine.status = Status.StatusRunning) ∧
    (e.status = Status.StatusRunning ∨ e.status = Status.StatusStopping →
      (Engine.Start parseURL parseDuration e cfg).err ≠ none) := by
  obtain ⟨status, sig, wg⟩ := e
  cases status <;> cases hu : parseURL cfg.TargetURL <;>
    cases hd : parseDuration cfg.Duration <;> simp [Engine.Start, hu, hd]

/-- Claim C8, amended, on the idle engine made by `NewEngine`. -/
theorem C8_start_accepted_witness :
    (Engine.Start parseURLOk parseDurationOk NewEngine sampleConfig).engine.status
      = Status.StatusRunning :=
  (C8_start_accepted parseURLOk parseDurationOk NewEngine sampleConfig).2.1 rfl

/-- Claim C9. When the status is `Running` or `Stopping`, `Start` returns a
non-nil error and changes nothing: the engine (status, stop signal, wait
group) is the same, neither output channel is closed or written, and no run
task is spawned. -/
theorem C9_start_rejected (parseURL : String → Except String String)
    (parseDuration : String → Except String ℤ) (e : Engine) (cfg : BenchmarkConfig)
    (h : e.status = Status.StatusRunning ∨ e.status = Status.StatusStopping) :
    (Engine.Start parseURL parseDuration e cfg).err ≠ none ∧
    (Engine.Start parseURL parseDuration e cfg).engine = e ∧
    (Engine.Start parseURL parseDuration e cfg).progressChanClosed = false ∧
    (Engine.Start parseURL parseDuration e cfg).resultChanClosed = false ∧
    (Engine.Start parseURL parseDuration e cfg).resultsSent = [] ∧
    (Engine.Start parseURL parseDuration e cfg).progressSent = [] ∧
    (Engine.Start parseURL parseDuration e cfg).spawned = none := by
  simp [Engine.Start, h]

/-- Claim C9 on an engine that is running. -/
theorem C9_start_rejected_witness :
    (Engine.Start parseURLOk parseDurationOk
        { status := Status.StatusRunning, stopSignal := ChanState.openChan, wgGlobal := 1 }
        sampleConfig).err ≠ none ∧
    (Engine.Start parseURLOk parseDurationOk
        { status := Status.StatusRunning, stopSignal := ChanState.openChan, wgGlobal := 1 }
        sampleConfig).engine
      = { status := Status.StatusRunning, stopSignal := ChanState.openChan, wgGlobal := 1 } :=
  ⟨(C9_start_rejected parseURLOk parseDurationOk _ sampleConfig (Or.inl rfl)).1,
   (C9_start_rejected parseURLOk parseDurationOk _ sampleConfig (Or.inl rfl)).2.1⟩

theorem applyTask_status_ne_running (cfg : BenchmarkConfig)
    (collector : Except String BenchmarkResult) (d : Delivery) (e : Engine) :
    (applyTask e (runTask cfg collector d)).status = Status.StatusFinished := by
  cases collector with
  | ok r =>
    cases h : d.outer <;> cases hc : d.consumerReady <;> by_cases hr : r.Error = none <;>
      simp [runTask, deliver, fallbackSend, h, hc, hr, applyTask, deferredTail]
  | error v =>
    cases hc : d.recoverSend <;> simp [runTask, hc, applyTask, deferredTail]

/-- A running engine that the operations can produce has an open stop signal. -/
theorem Engine.Reachable.running_open {e : Engine} (h : Engine.Reachable e) :
    e.status = Status.StatusRunning → e.stopSignal = ChanState.openChan := by
  induction h with
  | new => intro h; simp [NewEngine] at h
  | start parseURL parseDuration e cfg _ ih =>
    obtain ⟨status, sig, wg⟩ := e
    cases status <;> cases hu : parseURL cfg.TargetURL <;>
      cases hd : parseDuration cfg.Duration <;> simp [Engine.Start, hu, hd] <;> simpa using ih
  | stop e e' _ hstop ih =>
    obtain ⟨status, sig, wg⟩ := e
    intro hrun
    cases status <;> cases sig <;>
      simp [Engine.Stop, ChanState.recvReady, ChanState.close] at hstop <;>
      subst hstop <;> simp at hrun ih ⊢
  | finish e cfg collector d _ _ =>
    intro hrun
    rw [applyTask_status_ne_running] at hrun
    exact absurd hrun (by decide)

/-- Claim C10. `Stop` acts only on a running engine and is idempotent: from
`Running` it sets the status to `Stopping` and closes the stop signal; from
every other status it changes nothing; it never panics, so the stop signal is
never closed twice, and a second `Stop` leaves the state of the first. -/
theorem C10_stop_idempotent (e : Engine) :
    (Engine.Reachable e → e.status = Status.StatusRunning →
      e.stopSignal = ChanState.openChan ∧
      Engine.Stop e
        = some { e with status := Status.StatusStopping, stopSignal := ChanState.closedChan }) ∧
    (e.status ≠ Status.StatusRunning → Engine.Stop e = some e) ∧
    (∃ e', Engine.Stop e = some e' ∧ Engine.Stop e' = some e') ∧
    ((Engine.Stop e).bind Engine.Stop = Engine.Stop e) := by
  refine ⟨?_, ?_, ?_, ?_⟩
  · intro hreach hrun
    have hopen := hreach.running_open hrun
    refine ⟨hopen, ?_⟩
    simp [Engine.Stop, hrun, hopen, ChanState.recvReady, ChanState.close]
  · intro h
    simp [Engine.Stop, h]
  · obtain ⟨status, sig, wg⟩ := e
    cases status <;> cases sig <;>
      simp [Engine.Stop, ChanState.recvReady, ChanState.close]
  · obtain ⟨status, sig, wg⟩ := e
    cases status <;> cases sig <;>
      simp [Engine.Stop, ChanState.recvReady, ChanState.close]

/-- Claim C10 on the engine left by a successful `Start` of a new engine. -/
theorem C10_stop_idempotent_witness :
    Engine.Stop (Engine.Start parseURLOk parseDurationOk NewEngine sampleConfig).engine
      = some { status := Status.StatusStopping, stopSignal := ChanState.closedChan,
               wgGlobal := 1 } ∧
    Engine.Stop { status := Status.StatusStopping, stopSignal := ChanState.closedChan,
                  wgGlobal := 1 }
      = some { status := Status.StatusStopping, stopSignal := ChanState.closedChan,
               wgGlobal := 1 } :=
  ⟨((C10_stop_idempotent
        (Engine.Start parseURLOk parseDurationOk NewEngine sampleConfig).engine).1
      (Engine.Reachable.start parseURLOk parseDurationOk NewEngine sampleConfig
        Engine.Reachable.new) rfl).2,
   (C10_stop_idempotent
      { status := Status.StatusStopping, stopSignal := ChanState.closedChan,
        wgGlobal := 1 }).2.1 (by decide)⟩

/-! ## The engine: failed starts and the end of the run task -/

/-- Claim C11. When `url.Parse` or `time.ParseDuration` fails, `Start` returns
a non-nil error, sends no report on `resultChan` and spawns no run task (hence
no worker and no collector); on an engine that is not already running or
stopping, the one case where the parsers are consulted, the status afterwards
is `Idle`. -/
theorem C11_start_invalid_config (parseURL : String → Except String String)
    (parseDuration : String → Except String ℤ) (e : Engine) (cfg : BenchmarkConfig)
    (hbad : (∃ msg, parseURL cfg.TargetURL = Except.error msg) ∨
      (∃ msg, parseDuration cfg.Duration = Except.error msg)) :
    (Engine.Start parseURL parseDuration e cfg).err ≠ none ∧
    (Engine.Start parseURL parseDuration e cfg).resultsSent = [] ∧
    (Engine.Start parseURL parseDuration e cfg).spawned = none ∧
    (e.status ≠ Status.StatusRunning ∧ e.status ≠ Status.StatusStopping →
      (Engine.Start parseURL parseDuration e cfg).engine.status = Status.StatusIdle) := by
  obtain ⟨status, sig, wg⟩ := e
  rcases hbad with ⟨msg, hu⟩ | ⟨msg, hd⟩
  · cases status <;> simp [Engine.Start, hu]
  · cases status <;> cases hu : parseURL cfg.TargetURL <;> simp [Engine.Start, hu, hd]

/-- Claim C11 on a new engine: an unparsable URL, and an unparsable duration. -/
theorem C11_start_invalid_config_witness :
    (Engine.Start parseURLBad parseDurationOk NewEngine sampleConfig).err ≠ none ∧
    (Engine.Start parseURLBad parseDurationOk NewEngine sampleConfig).engine.status
      = Status.StatusIdle ∧
    (Engine.Start parseURLOk parseDurationBad NewEngine sampleConfig).spawned = none ∧
    (Engine.Start parseURLOk parseDurationBad NewEngine sampleConfig).engine.status
      = Status.StatusIdle :=
  ⟨(C11_start_invalid_config parseURLBad parseDurationOk NewEngine sampleConfig
      (Or.inl ⟨_, rfl⟩)).1,
   (C11_start_invalid_config parseURLBad parseDurationOk NewEngine sampleConfig
      (Or.inl ⟨_, rfl⟩)).2.2.2 (by decide),
   (C11_start_invalid_config parseURLOk parseDurationBad NewEngine sampleConfig
      (Or.inr ⟨_, rfl⟩)).2.2.1,
   (C11_start_invalid_config parseURLOk parseDurationBad NewEngine sampleConfig
      (Or.inr ⟨_, rfl⟩)).2.2.2 (by decide)⟩

/-- Claim C12. When the run task ends, after a return of `runCollector` or
after a panic, the engine status is `Finished`; after a panic with value `v`
the report offered on `resultChan` is the zero report with the configuration
of `Start` and the error `panic during benchmark: v`, and it is the only
report that can be sent. -/
theorem C12_task_ends_finished (e : Engine) (cfg : BenchmarkConfig)
    (collector : Except String BenchmarkResult) (d : Delivery) (v : String) :
    (applyTask e (runTask cfg collector d)).status = Status.StatusFinished ∧
    (∀ r ∈ sentResults (runTask cfg (Except.error v) d),
      r = { BenchmarkResult.zero with
              Config := some cfg, Error := some ("panic during benchmark: " ++ v) }) ∧
    (d.recoverSend = true →
      sentResults (runTask cfg (Except.error v) d)
        = [{ BenchmarkResult.zero with
              Config := some cfg, Error := some ("panic during benchmark: " ++ v) }]) := by
  refine ⟨applyTask_status_ne_running cfg collector d e, ?_, ?_⟩
  · intro r hr
    cases hc : d.recoverSend <;>
      simp [runTask, hc, sentResults, deferredTail, BenchmarkResult.zero] at hr ⊢
    exact hr
  · intro hc
    simp [runTask, hc, sentResults, deferredTail, BenchmarkResult.zero]

/-- Claim C12 on a run whose collector panicked while the consumer receives. -/
theorem C12_task_ends_finished_witness :
    sentResults (runTask sampleConfig (Except.error "sync: negative WaitGroup counter")
        { outer := DeliveryCase.send, consumerReady := true, recoverSend := true })
      = [{ BenchmarkResult.zero with
            Config := some sampleConfig,
            Error := some ("panic during benchmark: " ++ "sync: negative WaitGroup counter") }] :=
  (C12_task_ends_finished NewEngine sampleConfig (Except.ok BenchmarkResult.zero)
    { outer := DeliveryCase.send, consumerReady := true, recoverSend := true }
    "sync: negative WaitGroup counter").2.2 rfl

/-- Claim C3, at the failing run: the user stops a run after one success, so
the report of `runCollector` carries the terminal error `benchmark stopped by
user`; the consumer is receiving and the delivery `select` takes its
`ctx.Done()` case, ready since the stop: no report is sent on `resultChan`,
before or after it is closed. The send case of the same `select` delivers this
report, and the `ctx.Done()` case itself delivers a report whose `Error` is nil
(marked), since its retry is nested under the test `finalResult.Error == nil`. -/
theorem C3_no_report_delivered :
    ∃ r, (runCollector sampleConfig CtxErr.canceled 0 200000000
        [CollectorEvent.result 5000000, CollectorEvent.ctxDone, CollectorEvent.workersDone]
        [] []).outcome = CollectorOutcome.returned r ∧
      r.Error = some "benchmark stopped by user" ∧
      sentBeforeClose (runTask sampleConfig (Except.ok r)
        { outer := DeliveryCase.ctxDone, consumerReady := true, recoverSend := true }) = [] ∧
      sentResults (runTask sampleConfig (Except.ok r)
        { outer := DeliveryCase.ctxDone, consumerReady := true, recoverSend := true }) = [] ∧
      sentBeforeClose (runTask sampleConfig (Except.ok r)
        { outer := DeliveryCase.send, consumerReady := true, recoverSend := true }) = [r] ∧
      sentBeforeClose (runTask sampleConfig (Except.ok { r with Error := none })
        { outer := DeliveryCase.ctxDone, consumerReady := true, recoverSend := true })
        = [{ r with Error := some "benchmark interrupted before final result sent" }] := by
  refine ⟨_, runCollector_returned sampleConfig CtxErr.canceled 0 200000000
    [CollectorEvent.result 5000000, CollectorEvent.ctxDone, CollectorEvent.workersDone] [] []
    (by decide) rfl, rfl, ?_, ?_, ?_, ?_⟩ <;>
  simp [runTask, deliver, fallbackSend, finalize, finalError, drainErrors, drainResults,
    collectorLoop, collectorStep, CollectorState.init, sentBeforeClose, sentResults,
    deferredTail]

/-- Claim C13, at the failing run: the deadline expires with no error, so the
report of `runCollector` has a nil `Error`; the delivery `select` takes its
`ctx.Done()` case while the consumer receives; the report then delivered
carries the error `benchmark interrupted before final result sent`. -/
theorem C13_clean_run_marked_interrupted :
    ∃ r, (runCollector sampleConfig CtxErr.deadlineExceeded 0 200000000
        [CollectorEvent.result 5000000, CollectorEvent.ctxDone, CollectorEvent.workersDone]
        [] []).outcome = CollectorOutcome.returned r ∧
      r.TotalErrors = 0 ∧ r.Error = none ∧
      (sentBeforeClose (runTask sampleConfig (Except.ok r)
          { outer := DeliveryCase.ctxDone, consumerReady := true, recoverSend := true })).map
          BenchmarkResult.Error
        = [some "benchmark interrupted before final result sent"] := by
  refine ⟨_, runCollector_returned sampleConfig CtxErr.deadlineExceeded 0 200000000
    [CollectorEvent.result 5000000, CollectorEvent.ctxDone, CollectorEvent.workersDone] [] []
    (by decide) rfl, rfl, rfl, ?_⟩
  simp [runTask, deliver, fallbackSend, finalize, finalError, drainErrors, drainResults,
    collectorLoop, collectorStep, CollectorState.init, sentBeforeClose, deferredTail]

/-! ## The terminal error and the reported configuration -/

theorem stringsContains_middle (a b c : String) : stringsContains (a ++ b ++ c) b = true := by
  simp only [stringsContains, decide_eq_true_eq, String.toList, String.data_append]
  exact ⟨a.data, c.data, rfl⟩

theorem collectorLoop_errorCount_nonneg (startTime : ℤ) (events : List CollectorEvent) :
    ∀ st : CollectorState, 0 ≤ st.errorCount →
      0 ≤ (collectorLoop startTime st events).1.errorCount := by
  induction events with
  | nil => intro st h; exact h
  | cons ev rest ih =>
    intro st h
    cases ev with
    | workersDone => exact h
    | ctxDone => exact ih _ h
    | result latency => exact ih _ h
    | failure err => exact ih _ (by simp only [collectorStep]; omega)
    | tick now ready =>
      apply ih
      simp only [collectorStep]
      split_ifs <;> exact h

/-- What `runCollector` returns is the aggregate of the loop state. -/
theorem runCollector_returned_inv (cfg : BenchmarkConfig) (ctxErr : CtxErr)
    (startTime endTime : ℤ) (events : List CollectorEvent) (bufferedResults : List ℤ)
    (bufferedErrors : List (Option GoError)) (r : BenchmarkResult)
    (h : (runCollector cfg ctxErr startTime endTime events bufferedResults
      bufferedErrors).outcome = CollectorOutcome.returned r) :
    r = finalize (amplify cfg) ctxErr startTime endTime
          (collectorLoop startTime CollectorState.init events).1 bufferedResults
          bufferedErrors := by
  by_cases h1 : (amplify cfg).Threads < 0
  · simp [runCollector, h1] at h
  · by_cases h2 : (collectorLoop startTime CollectorState.init events).2 = true
    · rw [runCollector_returned cfg ctxErr startTime endTime events bufferedResults
        bufferedErrors (not_lt.mp h1) h2] at h
      simp only [CollectorOutcome.returned.injEq] at h
      exact h.symm
    · simp [runCollector, h1, h2] at h

/-- Claim C14. The terminal error of a report returned by `runCollector` is a
function of the value of `ctx.Err()` and of the error count alone: after a
cancellation it is `benchmark stopped by user` whatever the count; after the
deadline, and when the context is not done, it is nil for a zero count and
otherwise a message that contains the count. -/
theorem C14_terminal_error (cfg : BenchmarkConfig) (ctxErr : CtxErr) (startTime endTime : ℤ)
    (events : List CollectorEvent) (bufferedResults : List ℤ)
    (bufferedErrors : List (Option GoError)) (r : BenchmarkResult)
    (h : (runCollector cfg ctxErr startTime endTime events bufferedResults
      bufferedErrors).outcome = CollectorOutcome.returned r) :
    r.Error = finalError ctxErr r.TotalErrors ∧
    (ctxErr = CtxErr.canceled → r.Error = some "benchmark stopped by user") ∧
    (ctxErr = CtxErr.deadlineExceeded →
      (r.TotalErrors = 0 → r.Error = none) ∧
      (r.TotalErrors ≠ 0 →
        r.Error = some ("benchmark completed with " ++ toString r.TotalErrors ++ " errors") ∧
        ∃ msg, r.Error = some msg ∧ stringsContains msg (toString r.TotalErrors) = true)) ∧
    (ctxErr = CtxErr.none →
      (r.TotalErrors = 0 → r.Error = none) ∧
      (r.TotalErrors ≠ 0 →
        r.Error = some ("benchmark finished with " ++ toString r.TotalErrors ++
          " errors (unknown reason for stop)") ∧
        ∃ msg, r.Error = some msg ∧ stringsContains msg (toString r.TotalErrors) = true)) := by
  have hr := runCollector_returned_inv cfg ctxErr startTime endTime events bufferedResults
    bufferedErrors r h
  have herr : r.Error = finalError ctxErr r.TotalErrors := by rw [hr]; rfl
  have hnn : 0 ≤ r.TotalErrors := by
    rw [hr, (finalize_counts _ _ _ _ _ _ _).2.1]
    have := collectorLoop_errorCount_nonneg startTime events CollectorState.init (le_refl _)
    omega
  refine ⟨herr, ?_, ?_, ?_⟩
  · intro hc; rw [herr, hc]; rfl
  · intro hc
    rw [herr, hc]
    refine ⟨fun h0 => by simp [finalError, h0], fun h0 => ?_⟩
    have hpos : r.TotalErrors > 0 := by omega
    have hfe : finalError CtxErr.deadlineExceeded r.TotalErrors
        = some ("benchmark completed with " ++ toString r.TotalErrors ++ " errors") := by
      simp [finalError, hpos]
    rw [hfe]
    exact ⟨rfl, _, rfl, stringsContains_middle _ _ _⟩
  · intro hc
    rw [herr, hc]
    refine ⟨fun h0 => by simp [finalError, h0], fun h0 => ?_⟩
    have hpos : r.TotalErrors > 0 := by omega
    have hfe : finalError CtxErr.none r.TotalErrors
        = some ("benchmark finished with " ++ toString r.TotalErrors ++
            " errors (unknown reason for stop)") := by
      simp [finalError, hpos]
    rw [hfe]
    exact ⟨rfl, _, rfl, stringsContains_middle _ _ _⟩

/-- Claim C14 on a run that reaches its deadline after one failure. -/
theorem C14_terminal_error_witness :
    (finalize (amplify sampleConfig) CtxErr.deadlineExceeded 0 200000000
        (collectorLoop 0 CollectorState.init
          [CollectorEvent.failure (some refusedError), CollectorEvent.workersDone]).1
        [] []).Error
      = finalError CtxErr.deadlineExceeded
          (finalize (amplify sampleConfig) CtxErr.deadlineExceeded 0 200000000
            (collectorLoop 0 CollectorState.init
              [CollectorEvent.failure (some refusedError), CollectorEvent.workersDone]).1
            [] []).TotalErrors :=
  (C14_terminal_error sampleConfig CtxErr.deadlineExceeded 0 200000000
    [CollectorEvent.failure (some refusedError), CollectorEvent.workersDone] [] [] _
    (runCollector_returned sampleConfig CtxErr.deadlineExceeded 0 200000000
      [CollectorEvent.failure (some refusedError), CollectorEvent.workersDone] [] []
      (by decide) rfl)).1

/-- Claim C19, refuted as stated: started with 5 threads, the run returns a
report whose `Config` has 100 threads. -/
theorem C19_config_threads_amplified :
    (runCollector sampleConfig CtxErr.deadlineExceeded 0 200000000
        [CollectorEvent.workersDone] [] []).outcome.result?.map BenchmarkResult.Config
      = some (some { sampleConfig with Threads := 100 }) ∧
    sampleConfig.Threads = 5 := by
  constructor
  · rw [runCollector_returned sampleConfig CtxErr.deadlineExceeded 0 200000000
      [CollectorEvent.workersDone] [] [] (by decide) rfl]
    rfl
  · rfl

/-- Claim C19, amended: the `Config` of a report returned by `runCollector`,
also as the run task delivers it, equals the configuration passed to `Start`
in `TargetURL`, `Method`, `Payload`, `Connections` and `Duration`, and its
`Threads` is 20 times the requested count (in `int64` arithmetic); the report
made after a panic carries the configuration passed to `Start` unchanged. -/
theorem C19_config_reported (cfg : BenchmarkConfig) (ctxErr : CtxErr) (startTime endTime : ℤ)
    (events : List CollectorEvent) (bufferedResults : List ℤ)
    (bufferedErrors : List (Option GoError)) (r : BenchmarkResult) (d : Delivery)
    (v : String)
    (h : (runCollector cfg ctxErr startTime endTime events bufferedResults
      bufferedErrors).outcome = CollectorOutcome.returned r) :
    r.Config = some { cfg with Threads := wrapInt64 (cfg.Threads * 20) } ∧
    (∀ r' ∈ sentResults (runTask cfg (Except.ok r) d),
      r'.Config = some { cfg with Threads := wrapInt64 (cfg.Threads * 20) }) ∧
    (∀ r' ∈ sentResults (runTask cfg (Except.error v) d), r'.Config = some cfg) := by
  have hr := runCollector_returned_inv cfg ctxErr startTime endTime events bufferedResults
    bufferedErrors r h
  have hc : r.Config = some { cfg with Threads := wrapInt64 (cfg.Threads * 20) } := by
    rw [hr]; rfl
  refine ⟨hc, ?_, ?_⟩
  · intro r' hr'
    cases ho : d.outer <;> cases hcr : d.consumerReady <;> by_cases he : r.Error = none <;>
      simp [runTask, deliver, fallbackSend, ho, hcr, he, sentResults, deferredTail] at hr' <;>
      subst hr' <;> exact hc
  · intro r' hr'
    cases hs : d.recoverSend <;>
      simp [runTask, hs, sentResults, deferredTail, BenchmarkResult.zero] at hr'
    subst hr'; rfl

/-- Claim C19, amended, on the run of the sample configuration. -/
theorem C19_config_reported_witness :
    (finalize (amplify sampleConfig) CtxErr.deadlineExceeded 0 200000000
        (collectorLoop 0 CollectorState.init [CollectorEvent.workersDone]).1 [] []).Config
      = some { sampleConfig with Threads := wrapInt64 (sampleConfig.Threads * 20) } :=
  (C19_config_reported sampleConfig CtxErr.deadlineExceeded 0 200000000
    [CollectorEvent.workersDone] [] [] _
    { outer := DeliveryCase.send, consumerReady := true, recoverSend := true } ""
    (runCollector_returned sampleConfig CtxErr.deadlineExceeded 0 200000000
      [CollectorEvent.workersDone] [] [] (by decide) rfl)).1

/-! ## The worker -/

theorem workerStep_length_le_one (it : WorkerIteration) : (workerStep it).length ≤ 1 := by
  unfold workerStep
  cases workerOffer it.attempt it.latency with
  | none => simp
  | some o => cases it.sendTaken <;> simp

/-- Claim C15. An attempt that ends with a response of status code `s` makes
the worker offer exactly one message: the latency on the results channel when
`200 ≤ s < 300`, otherwise an `HttpStatusError` with `StatusCode = s` on the
errors channel (which the collector counts under `HTTP s`); no iteration puts
more than one message on the channels, so none yields both a success and a
failure. -/
theorem C15_response_outcome (s : ℤ) (statusMessage : String) (latency : ℤ)
    (it : WorkerIteration) :
    (200 ≤ s ∧ s < 300 →
      workerOffer (Attempt.response s statusMessage) latency
        = some (Outcome.success latency)) ∧
    (¬ (200 ≤ s ∧ s < 300) →
      workerOffer (Attempt.response s statusMessage) latency
        = some (Outcome.failure (httpStatusError s statusMessage))) ∧
    (httpStatusError s statusMessage).httpStatus = some s ∧
    errKey (some (httpStatusError s statusMessage)) = "HTTP " ++ toString s ∧
    (workerStep it).length ≤ 1 ∧
    ¬ (∃ l err, Outcome.success l ∈ workerStep it ∧ Outcome.failure err ∈ workerStep it) := by
  refine ⟨?_, ?_, rfl, rfl, workerStep_length_le_one it, ?_⟩
  · intro h
    simp [workerOffer, h]
  · intro h
    have h' : ¬ (s ≥ 200 ∧ s < 300) := h
    simp only [workerOffer, if_neg h']
  · rintro ⟨l, err, h1, h2⟩
    have hlen := workerStep_length_le_one it
    match hw : workerStep it, h1, h2, hlen with
    | [], h1, _, _ => simp at h1
    | [o], h1, h2, _ =>
      simp only [List.mem_singleton] at h1 h2
      rw [← h1] at h2
      exact Outcome.noConfusion h2
    | _ :: _ :: _, _, _, hlen => simp at hlen

/-- Claim C15 on a response `200 OK` and a response `404 Not Found`. -/
theorem C15_response_outcome_witness :
    workerOffer (Attempt.response 200 "OK") 5000000 = some (Outcome.success 5000000) ∧
    workerOffer (Attempt.response 404 "Not Found") 5000000
      = some (Outcome.failure (httpStatusError 404 "Not Found")) :=
  ⟨(C15_response_outcome 200 "OK" 5000000
      { attempt := Attempt.response 200 "OK", latency := 5000000, sendTaken := true }).1
      (by decide),
   (C15_response_outcome 404 "Not Found" 5000000
      { attempt := Attempt.response 404 "Not Found", latency := 5000000,
        sendTaken := true }).2.1 (by decide)⟩

/-- Claim C16. An attempt that fails with a transport error `err` makes the
worker offer nothing when `err` is `context.Canceled` or
`context.DeadlineExceeded` or its text contains `context canceled`, and
otherwise offer `err` itself on the errors channel; in both cases nothing goes
on the results channel. -/
theorem C16_transport_error_outcome (err : GoError) (latency : ℤ) (sendTaken : Bool) :
    (err.isCanceled = true ∨ err.isDeadlineExceeded = true ∨
        stringsContains err.msg "context canceled" = true →
      workerOffer (Attempt.transportError err) latency = none ∧
      workerStep { attempt := Attempt.transportError err, latency := latency,
                   sendTaken := sendTaken } = []) ∧
    (¬ (err.isCanceled = true ∨ err.isDeadlineExceeded = true ∨
        stringsContains err.msg "context canceled" = true) →
      workerOffer (Attempt.transportError err) latency = some (Outcome.failure err) ∧
      workerStep { attempt := Attempt.transportError err, latency := latency,
                   sendTaken := sendTaken } = if sendTaken then [Outcome.failure err] else []) ∧
    (∀ l, Outcome.success l ∉
      workerStep { attempt := Attempt.transportError err, latency := latency,
                   sendTaken := sendTaken }) := by
  by_cases h : err.isCanceled = true ∨ err.isDeadlineExceeded = true ∨
      stringsContains err.msg "context canceled" = true
  · have hc : causedByCancellation err = true := by
      simpa [causedByCancellation, or_assoc] using h
    refine ⟨fun _ => ?_, fun h' => absurd h h', ?_⟩ <;>
      simp [workerOffer, workerStep, hc]
  · have hc : causedByCancellation err = false := by
      have : ¬ (causedByCancellation err = true) := by
        simpa [causedByCancellation, or_assoc] using h
      simpa using this
    refine ⟨fun h' => absurd h' h, fun _ => ?_, ?_⟩
    · simp [workerOffer, workerStep, hc]
    · intro l
      cases sendTaken <;> simp [workerOffer, workerStep, hc]

/-- Claim C16 on a refused connection, which is reported, and on an error that
wraps a cancellation, which is not. -/
theorem C16_transport_error_outcome_witness :
    workerOffer (Attempt.transportError refusedError) 5000000
      = some (Outcome.failure refusedError) ∧
    workerOffer (Attempt.transportError { refusedError with isCanceled := true }) 5000000
      = none :=
  ⟨((C16_transport_error_outcome refusedError 5000000 true).2.1 (by decide)).1,
   ((C16_transport_error_outcome { refusedError with isCanceled := true } 5000000 true).1
      (Or.inl rfl)).1⟩

/-! ## Validation of the configuration -/

/-- The configurations that `Validate` accepts. -/
theorem Validate_accepts_iff (trimSpace : String → String)
    (parseRequestURI : String → Except String ParsedURL)
    (parseDuration : String → Except String ℤ) (c : BenchmarkConfig) :
    (BenchmarkConfig.Validate trimSpace parseRequestURI parseDuration c).2 = none ↔
      trimSpace c.TargetURL ≠ "" ∧
      (∃ u, parseRequestURI (trimSpace c.TargetURL) = Except.ok u ∧
        (u.Scheme = "http" ∨ u.Scheme = "https")) ∧
      0 < c.Threads ∧ 0 < c.Connections ∧ c.Duration ≠ "" ∧
      ∃ d, parseDuration c.Duration = Except.ok d := by
  unfold BenchmarkConfig.Validate
  by_cases h1 : trimSpace c.TargetURL = ""
  · simp [h1]
  · cases hu : parseRequestURI (trimSpace c.TargetURL) with
    | error msg => simp [h1, hu]
    | ok u =>
      by_cases h2 : u.Scheme ≠ "http" ∧ u.Scheme ≠ "https"
      · simp [h1, hu, h2]
      · have h2' : u.Scheme = "http" ∨ u.Scheme = "https" := by
          by_contra hne
          exact h2 ⟨fun e => hne (Or.inl e), fun e => hne (Or.inr e)⟩
        by_cases h3 : c.Threads ≤ 0
        · simp [h1, hu, h2, h3]
        · by_cases h4 : c.Connections ≤ 0
          · simp [h1, hu, h2, h3, h4]
          · by_cases h5 : c.Duration = ""
            · simp [h1, hu, h2, h3, h4, h5]
            · cases hd : parseDuration c.Duration with
              | error msg => simp [h1, hu, h2, h3, h4, h5, hd]
              | ok d =>
                simp [h1, hu, h2, h3, h4, h5, hd]
                exact ⟨h2', by omega, by omega⟩

/-- Claim C20, refuted as stated: `Validate` accepts the sample configuration
with the duration `0s`, which parses to the zero span, and with the duration
`-5s`, which parses to a negative span; `Start` begins a run for both. -/
theorem C20_nonpositive_duration_accepted :
    (BenchmarkConfig.Validate trimSpaceSample parseRequestURISample parseDurationSample
        { sampleConfig with Duration := "0s" }).2 = none ∧
    parseDurationSample "0s" = Except.ok 0 ∧
    (BenchmarkConfig.Validate trimSpaceSample parseRequestURISample parseDurationSample
        { sampleConfig with Duration := "-5s" }).2 = none ∧
    parseDurationSample "-5s" = Except.ok (-5000000000) ∧
    (Engine.Start parseURLOk parseDurationSample NewEngine
        { sampleConfig with Duration := "0s" }).spawned = some 0 ∧
    (Engine.Start parseURLOk parseDurationSample NewEngine
        { sampleConfig with Duration := "-5s" }).spawned = some (-5000000000) := by
  refine ⟨?_, rfl, ?_, rfl, rfl, rfl⟩ <;> rfl

/-- Claim C20, amended: a configuration that `Validate` accepts has a non-empty
duration that `time.ParseDuration` parses; the sign of the span is not looked
at: with the other fields valid, `Validate` accepts whatever span the duration
parses to, and `Start` on an engine that is not running or stopping begins a
run bounded by whatever span it parses to, zero and negative spans included. -/
theorem C20_duration_only_parsed (trimSpace : String → String)
    (parseRequestURI : String → Except String ParsedURL) (parseURL : String → Except String String)
    (parseDuration : String → Except String ℤ) (c : BenchmarkConfig) (e : Engine) (d : ℤ) :
    ((BenchmarkConfig.Validate trimSpace parseRequestURI parseDuration c).2 = none →
      c.Duration ≠ "" ∧ ∃ d', parseDuration c.Duration = Except.ok d') ∧
    (parseDuration c.Duration = Except.ok d →
      ((BenchmarkConfig.Validate trimSpace parseRequestURI parseDuration c).2 = none ↔
        trimSpace c.TargetURL ≠ "" ∧
        (∃ u, parseRequestURI (trimSpace c.TargetURL) = Except.ok u ∧
          (u.Scheme = "http" ∨ u.Scheme = "https")) ∧
        0 < c.Threads ∧ 0 < c.Connections ∧ c.Duration ≠ "") ∧
      (e.status ≠ Status.StatusRunning → e.status ≠ Status.StatusStopping →
        (∃ u, parseURL c.TargetURL = Except.ok u) →
        (Engine.Start parseURL parseDuration e c).err = none ∧
        (Engine.Start parseURL parseDuration e c).spawned = some d)) := by
  refine ⟨fun h => ?_, fun hd => ⟨?_, ?_⟩⟩
  · have := (Validate_accepts_iff trimSpace parseRequestURI parseDuration c).mp h
    exact ⟨this.2.2.2.2.1, this.2.2.2.2.2⟩
  · rw [Validate_accepts_iff]
    constructor
    · rintro ⟨a, b, c1, c2, c3, _⟩; exact ⟨a, b, c1, c2, c3⟩
    · rintro ⟨a, b, c1, c2, c3⟩; exact ⟨a, b, c1, c2, c3, d, hd⟩
  · rintro h1 h2 ⟨u, hu⟩
    obtain ⟨status, sig, wg⟩ := e
    cases status <;> simp_all [Engine.Start]

/-- Claim C20, amended, on the sample configuration with a negative duration. -/
theorem C20_duration_only_parsed_witness :
    (Engine.Start parseURLOk parseDurationSample NewEngine
        { sampleConfig with Duration := "-5s" }).spawned = some (-5000000000) :=
  ((C20_duration_only_parsed trimSpaceSample parseRequestURISample parseURLOk parseDurationSample
      { sampleConfig with Duration := "-5s" } NewEngine (-5000000000)).2 rfl).2
    (by decide) (by decide) ⟨_, rfl⟩ |>.2

/-! ## The average -/

theorem wrapInt64_of_range {a : ℤ} (h1 : -(2 ^ (63 : ℕ)) ≤ a) (h2 : a < 2 ^ (63 : ℕ)) :
    wrapInt64 a = a := by
  unfold wrapInt64; omega

theorem wrapInt64_add_wrap (a b : ℤ) : wrapInt64 (wrapInt64 a + b) = wrapInt64 (a + b) := by
  unfold wrapInt64; omega

/-- The wrapping accumulation of `CalculateAverage` is the wrapped sum. -/
theorem foldl_wrap_sum (data : List ℤ) :
    ∀ t : ℤ, data.foldl (fun t d => wrapInt64 (t + d)) (wrapInt64 t)
      = wrapInt64 (t + data.sum) := by
  induction data with
  | nil => intro t; simp
  | cons x xs ih =>
    intro t
    simp only [List.foldl_cons, List.sum_cons]
    rw [wrapInt64_add_wrap, ih (t + x), add_assoc]

theorem F64.roundHalfEven_ge_floor (y : ℚ) : ⌊y⌋ ≤ F64.roundHalfEven y := by
  unfold F64.roundHalfEven
  split_ifs <;> omega

theorem F64.roundHalfEven_le_floor_succ (y : ℚ) : F64.roundHalfEven y ≤ ⌊y⌋ + 1 := by
  unfold F64.roundHalfEven
  split_ifs <;> omega

theorem F64.roundHalfEven_ge {m : ℤ} {y : ℚ} (h : (m : ℚ) ≤ y) : m ≤ F64.roundHalfEven y :=
  le_trans (Int.le_floor.mpr h) (F64.roundHalfEven_ge_floor y)

theorem F64.roundHalfEven_le {M : ℤ} {y : ℚ} (h : y ≤ (M : ℚ)) : F64.roundHalfEven y ≤ M := by
  have hf1 : (⌊y⌋ : ℚ) ≤ y := Int.floor_le y
  have hfM : ⌊y⌋ ≤ M := by
    have : ((⌊y⌋ : ℤ) : ℚ) ≤ (M : ℚ) := le_trans hf1 h
    exact_mod_cast this
  rcases lt_or_eq_of_le hfM with hlt | heq
  · have := F64.roundHalfEven_le_floor_succ y
    omega
  · have hfrac : y - ⌊y⌋ < 1 / 2 := by
      rw [heq]; linarith
    unfold F64.roundHalfEven
    rw [if_pos hfrac]; exact hfM

theorem F64.roundHalfEven_le_pred {M : ℤ} {y : ℚ} (h : y < (M : ℚ) - 1 / 2) :
    F64.roundHalfEven y ≤ M - 1 := by
  have hf1 : (⌊y⌋ : ℚ) ≤ y := Int.floor_le y
  have hfM : ⌊y⌋ < M := by
    have : ((⌊y⌋ : ℤ) : ℚ) < (M : ℚ) := by linarith
    exact_mod_cast this
  by_cases hfrac : y - ⌊y⌋ < 1 / 2
  · unfold F64.roundHalfEven
    rw [if_pos hfrac]; omega
  · have : ((⌊y⌋ : ℤ) : ℚ) + 1 < (M : ℚ) := by linarith [not_lt.mp hfrac]
    have h2 : ⌊y⌋ + 1 < M := by exact_mod_cast this
    have := F64.roundHalfEven_le_floor_succ y
    omega

theorem F64.roundHalfEven_neg (y : ℚ) : F64.roundHalfEven (-y) = -F64.roundHalfEven y := by
  have hf1 : (⌊y⌋ : ℚ) ≤ y := Int.floor_le y
  have hf2 : y < ⌊y⌋ + 1 := Int.lt_floor_add_one y
  by_cases hint : y = (⌊y⌋ : ℚ)
  · have h1 : F64.roundHalfEven y = ⌊y⌋ := by
      conv_lhs => rw [hint]
      exact F64.roundHalfEven_intCast _
    have h2 : F64.roundHalfEven (-y) = -⌊y⌋ := by
      have : -y = ((-⌊y⌋ : ℤ) : ℚ) := by push_cast; rw [← hint]
      rw [this]; exact F64.roundHalfEven_intCast _
    rw [h1, h2]
  · have hlt : (⌊y⌋ : ℚ) < y := lt_of_le_of_ne hf1 (fun e => hint e.symm)
    have hfl : ⌊-y⌋ = -⌊y⌋ - 1 := by
      rw [Int.floor_eq_iff]; push_cast; constructor <;> linarith
    have hcast : ((⌊-y⌋ : ℤ) : ℚ) = -(⌊y⌋ : ℚ) - 1 := by rw [hfl]; push_cast; ring
    unfold F64.roundHalfEven
    rw [hcast]
    by_cases ha : y - ⌊y⌋ < 1 / 2
    · rw [if_pos ha, if_neg (by linarith), if_pos (by linarith), hfl]; ring
    · by_cases hb : 1 / 2 < y - ⌊y⌋
      · rw [if_neg ha, if_pos hb, if_pos (by linarith), hfl]; ring
      · rw [if_neg ha, if_neg hb, if_neg (by linarith), if_neg (by linarith), hfl]
        by_cases hp : ⌊y⌋ % 2 = 0
        · rw [if_pos hp, if_neg (by omega)]; ring
        · rw [if_neg hp, if_pos (by omega)]; ring

theorem F64.ulpExp_neg (q : ℚ) : F64.ulpExp (-q) = F64.ulpExp q := by
  unfold F64.ulpExp; rw [abs_neg]

theorem F64.roundQ_neg (q : ℚ) : F64.roundQ (-q) = -F64.roundQ q := by
  unfold F64.roundQ
  rw [F64.ulpExp_neg, neg_div, F64.roundHalfEven_neg]
  push_cast; ring

/-- The quotient of two integers below `2^53`, rounded to binary64, has the
integer part of the exact quotient. -/
theorem F64.floor_roundQ_div (a n : ℤ) (ha : 1 ≤ a) (ha' : a < 2 ^ (53 : ℕ)) (hn : 1 ≤ n)
    (hn' : n < 2 ^ (53 : ℕ)) :
    ⌊F64.roundQ ((a : ℚ) / n)⌋ = a / n ∧ 0 ≤ F64.roundQ ((a : ℚ) / n) ∧
      F64.roundQ ((a : ℚ) / n) < 2 ^ (53 : ℕ) := by
  have hb : 1 < (2 : ℕ) := by norm_num
  have haQ : (1 : ℚ) ≤ a := by exact_mod_cast ha
  have haQ' : (a : ℚ) < 2 ^ (53 : ℕ) := by exact_mod_cast ha'
  have hnQ : (1 : ℚ) ≤ n := by exact_mod_cast hn
  have hnQ' : (n : ℚ) < 2 ^ (53 : ℕ) := by exact_mod_cast hn'
  have hnpos : (0 : ℚ) < n := by linarith
  have hxpos : 0 < (a : ℚ) / n := div_pos (by linarith) hnpos
  have hxlt : (a : ℚ) / n < 2 ^ (53 : ℕ) := by
    have : (a : ℚ) / n ≤ a := div_le_self (by linarith) hnQ
    linarith
  have hxge : (2 : ℚ) ^ (-53 : ℤ) ≤ (a : ℚ) / n := by
    rw [le_div_iff₀ hnpos]
    have e : (2 : ℚ) ^ (-53 : ℤ) = 1 / 2 ^ (53 : ℕ) := by norm_num
    rw [e, div_mul_eq_mul_div, one_mul]
    have : (n : ℚ) / 2 ^ (53 : ℕ) ≤ 1 := by
      rw [div_le_one (by positivity)]; linarith
    linarith
  have hL1 : (2 : ℚ) ^ (Int.log 2 ((a : ℚ) / n)) ≤ (a : ℚ) / n := by
    have := Int.zpow_log_le_self hb hxpos; exact_mod_cast this
  have hLle : Int.log 2 ((a : ℚ) / n) ≤ 52 := by
    have : Int.log 2 ((a : ℚ) / n) < 53 := by
      rw [← Int.lt_zpow_iff_log_lt hb hxpos]
      have e : (((2 : ℕ) : ℚ)) ^ (53 : ℤ) = 2 ^ (53 : ℕ) := by norm_num
      rw [e]; exact hxlt
    omega
  have hLge : -53 ≤ Int.log 2 ((a : ℚ) / n) := by
    rw [← Int.zpow_le_iff_le_log hb hxpos]; exact_mod_cast hxge
  have hulp : F64.ulpExp ((a : ℚ) / n) = Int.log 2 ((a : ℚ) / n) - 52 := by
    unfold F64.ulpExp; rw [abs_of_pos hxpos, max_eq_left (by omega)]
  obtain ⟨L, hLdef⟩ : ∃ L, L = Int.log 2 ((a : ℚ) / n) := ⟨_, rfl⟩
  rw [← hLdef] at hL1 hLle hLge hulp
  obtain ⟨e, he⟩ : ∃ e : ℕ, (e : ℤ) = 52 - L := ⟨(52 - L).toNat, by omega⟩
  have hNpos : (0 : ℚ) < 2 ^ e := by positivity
  have hu : (2 : ℚ) ^ (L - 52) = ((2 : ℚ) ^ e)⁻¹ := by
    rw [show L - 52 = -(e : ℤ) by omega, zpow_neg, zpow_natCast]
  have h2L : (2 : ℚ) ^ L * 2 ^ e = 2 ^ (52 : ℕ) := by
    rw [← zpow_natCast (2 : ℚ) e, ← zpow_add₀ (by norm_num), show L + (e : ℤ) = 52 by omega]
    norm_num
  -- the exact quotient between its integer part and the next integer
  have hdiv : n * (a / n) + a % n = a := Int.ediv_add_emod a n
  have hr0 : 0 ≤ a % n := Int.emod_nonneg a (by omega)
  have hr1 : a % n < n := Int.emod_lt_of_pos a (by omega)
  have hk0 : 0 ≤ a / n := Int.ediv_nonneg (by omega) (by omega)
  have hka : (n : ℚ) * ((a / n : ℤ) : ℚ) ≤ a := by
    have : n * (a / n) ≤ a := by omega
    exact_mod_cast this
  have hka' : (a : ℚ) + 1 ≤ (n : ℚ) * (((a / n : ℤ) : ℚ) + 1) := by
    have : a + 1 ≤ n * (a / n + 1) := by rw [mul_add, mul_one]; omega
    exact_mod_cast this
  have hklo : ((a / n : ℤ) : ℚ) ≤ (a : ℚ) / n := by
    rw [le_div_iff₀ hnpos]; linarith
  have hkhi : (a : ℚ) / n ≤ ((a / n : ℤ) : ℚ) + 1 - 1 / n := by
    rw [div_le_iff₀ hnpos, sub_mul, div_mul_cancel₀ _ hnpos.ne.symm]; linarith
  have hn2N : (n : ℚ) < 2 * 2 ^ e := by
    have h1 : (2 : ℚ) ^ L * n ≤ a := by rwa [le_div_iff₀ hnpos] at hL1
    have h2 : (2 : ℚ) ^ L * n * 2 ^ e < 2 ^ (53 : ℕ) * 2 ^ e := by
      apply mul_lt_mul_of_pos_right _ hNpos; linarith
    have h3 : (2 : ℚ) ^ L * n * 2 ^ e = 2 ^ (52 : ℕ) * n := by rw [← h2L]; ring
    rw [h3] at h2
    have h4 : (2 : ℚ) ^ (53 : ℕ) = 2 ^ (52 : ℕ) * 2 := by norm_num
    rw [h4, mul_assoc] at h2
    have := lt_of_mul_lt_mul_left h2 (by positivity)
    linarith
  have hNn : (1 : ℚ) / 2 < 2 ^ e * (1 / n) := by
    rw [mul_one_div, lt_div_iff₀ hnpos]; linarith
  have hlo : (a / n) * 2 ^ e ≤ F64.roundHalfEven ((a : ℚ) / n * 2 ^ e) := by
    apply F64.roundHalfEven_ge
    push_cast
    exact mul_le_mul_of_nonneg_right hklo hNpos.le
  have hhi : F64.roundHalfEven ((a : ℚ) / n * 2 ^ e) ≤ (a / n + 1) * 2 ^ e - 1 := by
    apply F64.roundHalfEven_le_pred
    push_cast
    have := mul_le_mul_of_nonneg_right hkhi hNpos.le
    nlinarith
  have hround : F64.roundQ ((a : ℚ) / n)
      = (F64.roundHalfEven ((a : ℚ) / n * 2 ^ e) : ℚ) / 2 ^ e := by
    unfold F64.roundQ
    rw [hulp, hu, div_inv_eq_mul]
    exact (div_eq_mul_inv _ _).symm
  have hloQ : (((a / n : ℤ) : ℚ)) * 2 ^ e ≤ (F64.roundHalfEven ((a : ℚ) / n * 2 ^ e) : ℚ) := by
    exact_mod_cast hlo
  have hhiQ : (F64.roundHalfEven ((a : ℚ) / n * 2 ^ e) : ℚ)
      ≤ (((a / n : ℤ) : ℚ) + 1) * 2 ^ e - 1 := by
    exact_mod_cast hhi
  have hge : ((a / n : ℤ) : ℚ) ≤ F64.roundQ ((a : ℚ) / n) := by
    rw [hround, le_div_iff₀ hNpos]; exact hloQ
  have hlt : F64.roundQ ((a : ℚ) / n) < ((a / n : ℤ) : ℚ) + 1 := by
    rw [hround, div_lt_iff₀ hNpos]; linarith
  refine ⟨?_, ?_, ?_⟩
  · rw [Int.floor_eq_iff]; exact ⟨hge, hlt⟩
  · have : (0 : ℚ) ≤ ((a / n : ℤ) : ℚ) := by exact_mod_cast hk0
    linarith
  · have h1 : a / n ≤ a := Int.ediv_le_self n (by omega)
    have h2 : ((a / n : ℤ) : ℚ) + 1 ≤ 2 ^ (53 : ℕ) := by
      have : a / n + 1 ≤ 2 ^ (53 : ℕ) := by omega
      exact_mod_cast this
    linarith

theorem F64.ulpExp_le_of_grid (m k : ℤ) (hm0 : m ≠ 0) (hm : |m| < 2 ^ (53 : ℕ))
    (hk : -1074 ≤ k) : F64.ulpExp ((m : ℚ) * 2 ^ k) ≤ k := by
  have hb : 1 < (2 : ℕ) := by norm_num
  have h2k : (0 : ℚ) < 2 ^ k := by positivity
  have hqabs : |(m : ℚ) * 2 ^ k| = |(m : ℚ)| * 2 ^ k := by rw [abs_mul, abs_of_pos h2k]
  have hqpos : 0 < |(m : ℚ) * 2 ^ k| := by
    rw [hqabs]; exact mul_pos (abs_pos.mpr (by exact_mod_cast hm0)) h2k
  have hlog : Int.log 2 |(m : ℚ) * 2 ^ k| < 53 + k := by
    rw [← Int.lt_zpow_iff_log_lt hb hqpos, hqabs]
    have : |(m : ℚ)| < 2 ^ (53 : ℕ) := by exact_mod_cast hm
    calc |(m : ℚ)| * 2 ^ k < 2 ^ (53 : ℕ) * 2 ^ k := by
          exact mul_lt_mul_of_pos_right this h2k
      _ = ((2 : ℕ) : ℚ) ^ (53 + k) := by
          rw [zpow_add₀ (by norm_num)]; norm_num
  unfold F64.ulpExp; omega

theorem F64.ulpExp_mono {x y : ℚ} (hx : 0 < x) (hxy : x ≤ y) : F64.ulpExp x ≤ F64.ulpExp y := by
  unfold F64.ulpExp
  rw [abs_of_pos hx, abs_of_pos (lt_of_lt_of_le hx hxy)]
  have := Int.log_mono_right (b := 2) hx hxy
  omega

theorem F64.roundQ_nonneg {x : ℚ} (hx : 0 ≤ x) : 0 ≤ F64.roundQ x := by
  unfold F64.roundQ
  have h : (0 : ℤ) ≤ F64.roundHalfEven (x / 2 ^ F64.ulpExp x) :=
    F64.roundHalfEven_ge (by push_cast; positivity)
  have : (0 : ℚ) ≤ (F64.roundHalfEven (x / 2 ^ F64.ulpExp x) : ℚ) := by exact_mod_cast h
  positivity

/-- Rounding does not cross a grid point from below. -/
theorem F64.roundQ_le_grid {x : ℚ} (m k : ℤ) (hx : 0 ≤ x) (hm : |m| < 2 ^ (53 : ℕ))
    (hk : -1074 ≤ k) (hxg : x ≤ (m : ℚ) * 2 ^ k) : F64.roundQ x ≤ (m : ℚ) * 2 ^ k := by
  rcases eq_or_lt_of_le hx with h0 | hpos
  · subst h0
    have : F64.roundQ 0 = 0 := by simp [F64.roundQ, F64.roundHalfEven]
    rw [this]; exact hxg
  have h2k : (0 : ℚ) < 2 ^ k := by positivity
  have hm0 : m ≠ 0 := by
    rintro rfl
    simp at hxg; linarith
  have hu : F64.ulpExp x ≤ k :=
    le_trans (F64.ulpExp_mono hpos hxg) (F64.ulpExp_le_of_grid m k hm0 hm hk)
  obtain ⟨d, hd⟩ := Int.le.dest hu
  have hupos : (0 : ℚ) < 2 ^ F64.ulpExp x := by positivity
  have hpow : (2 : ℚ) ^ k = 2 ^ d * 2 ^ F64.ulpExp x := by
    rw [← hd, zpow_add₀ (by norm_num), zpow_natCast]; ring
  have hle : F64.roundHalfEven (x / 2 ^ F64.ulpExp x) ≤ m * 2 ^ d := by
    apply F64.roundHalfEven_le
    rw [div_le_iff₀ hupos]; push_cast
    calc x ≤ (m : ℚ) * 2 ^ k := hxg
      _ = (m : ℚ) * 2 ^ d * 2 ^ F64.ulpExp x := by rw [hpow]; ring
  have hleQ : (F64.roundHalfEven (x / 2 ^ F64.ulpExp x) : ℚ) ≤ (m : ℚ) * 2 ^ d := by
    exact_mod_cast hle
  unfold F64.roundQ
  calc (F64.roundHalfEven (x / 2 ^ F64.ulpExp x) : ℚ) * 2 ^ F64.ulpExp x
      ≤ (m : ℚ) * 2 ^ d * 2 ^ F64.ulpExp x := mul_le_mul_of_nonneg_right hleQ hupos.le
    _ = (m : ℚ) * 2 ^ k := by rw [hpow]; ring

/-- Rounding does not cross a power of two from above. -/
theorem F64.roundQ_ge_pow {x : ℚ} (j : ℤ) (hj : -1022 ≤ j) (hx : (2 : ℚ) ^ j ≤ x) :
    (2 : ℚ) ^ j ≤ F64.roundQ x := by
  have hb : 1 < (2 : ℕ) := by norm_num
  have hxpos : 0 < x := lt_of_lt_of_le (by positivity) hx
  have hjL : j ≤ Int.log 2 x := by
    rw [← Int.zpow_le_iff_le_log hb hxpos]; exact_mod_cast hx
  have hL1 : (2 : ℚ) ^ (Int.log 2 x) ≤ x := by
    have := Int.zpow_log_le_self hb hxpos; exact_mod_cast this
  have hulp : F64.ulpExp x = Int.log 2 x - 52 := by
    unfold F64.ulpExp; rw [abs_of_pos hxpos, max_eq_left (by omega)]
  have hupos : (0 : ℚ) < 2 ^ (Int.log 2 x - 52) := by positivity
  have hsplit : (2 : ℚ) ^ (Int.log 2 x) = 2 ^ (52 : ℕ) * 2 ^ (Int.log 2 x - 52) := by
    rw [← zpow_natCast (2 : ℚ) 52, ← zpow_add₀ (by norm_num)]; congr 1; push_cast; ring
  have hge : (2 : ℤ) ^ (52 : ℕ) ≤ F64.roundHalfEven (x / 2 ^ (Int.log 2 x - 52)) := by
    apply F64.roundHalfEven_ge
    rw [le_div_iff₀ hupos]
    have e : (((2 : ℤ) ^ (52 : ℕ) : ℤ) : ℚ) = 2 ^ (52 : ℕ) := by norm_num
    rw [e, ← hsplit]; exact hL1
  have hgeQ : (2 : ℚ) ^ (52 : ℕ) ≤ (F64.roundHalfEven (x / 2 ^ (Int.log 2 x - 52)) : ℚ) := by
    exact_mod_cast hge
  unfold F64.roundQ
  rw [hulp]
  calc (2 : ℚ) ^ j ≤ 2 ^ (Int.log 2 x) := zpow_le_zpow_right₀ (by norm_num) hjL
    _ = 2 ^ (52 : ℕ) * 2 ^ (Int.log 2 x - 52) := hsplit
    _ ≤ _ := mul_le_mul_of_nonneg_right hgeQ hupos.le

theorem F64.truncQ_neg (q : ℚ) : F64.truncQ (-q) = -F64.truncQ q := by
  unfold F64.truncQ
  rcases lt_trichotomy q 0 with h | h | h
  · rw [if_pos (by linarith), if_neg (by linarith), Int.floor_neg]
  · subst h; simp
  · rw [if_neg (by linarith), if_pos (by linarith), Int.ceil_neg]

theorem F64.truncQ_eq_zero {q : ℚ} (h : |q| < 1) : F64.truncQ q = 0 := by
  have h1 := abs_lt.mp h
  unfold F64.truncQ
  split_ifs with h0
  · rw [Int.floor_eq_iff]; constructor <;> simp <;> linarith [h1.1, h1.2]
  · rw [Int.ceil_eq_iff]; constructor <;> simp <;> linarith [h1.1, h1.2]

theorem tdiv_eq_zero_of_abs_lt {a n : ℤ} (h : |a| < n) : a.tdiv n = 0 := by
  have h1 := abs_lt.mp h
  rcases le_or_lt 0 a with ha | ha
  · rw [Int.tdiv_eq_ediv ha (by omega)]
    exact Int.ediv_eq_zero_of_lt ha h1.2
  · have e : a = -(-a) := by ring
    rw [e, Int.neg_tdiv, Int.tdiv_eq_ediv (by omega) (by omega),
      Int.ediv_eq_zero_of_lt (by omega) (by omega)]
    rfl

theorem F64.roundQ_zero : F64.roundQ 0 = 0 := by
  simp [F64.roundQ, F64.roundHalfEven]

/-- The rounded quotient of an integer below `2^53` in magnitude by a count
below `2^53` truncates to the integer quotient. -/
theorem F64.truncQ_roundQ_div (a n : ℤ) (ha : |a| < 2 ^ (53 : ℕ)) (hn : 1 ≤ n)
    (hn' : n < 2 ^ (53 : ℕ)) :
    |F64.roundQ ((a : ℚ) / n)| < 2 ^ (53 : ℕ) ∧
      F64.truncQ (F64.roundQ ((a : ℚ) / n)) = a.tdiv n := by
  have ha2 := abs_lt.mp ha
  rcases lt_trichotomy a 0 with hneg | hzero | hpos
  · obtain ⟨h1, h2, h3⟩ := F64.floor_roundQ_div (-a) n (by omega) (by omega) hn hn'
    have e : (a : ℚ) / n = -(((-a : ℤ) : ℚ) / n) := by push_cast; ring
    rw [e, F64.roundQ_neg, abs_neg, abs_of_nonneg h2, F64.truncQ_neg]
    refine ⟨h3, ?_⟩
    have e2 : a = -(-a) := by ring
    conv_rhs => rw [e2, Int.neg_tdiv, Int.tdiv_eq_ediv (by omega) (by omega)]
    rw [← h1]
    simp only [F64.truncQ, if_pos h2]
  · subst hzero
    simp [F64.roundQ_zero, F64.truncQ]
  · obtain ⟨h1, h2, h3⟩ := F64.floor_roundQ_div a n (by omega) (by omega) hn hn'
    rw [abs_of_nonneg h2]
    refine ⟨h3, ?_⟩
    rw [Int.tdiv_eq_ediv (by omega) (by omega), ← h1]
    simp only [F64.truncQ, if_pos h2]

/-- A quotient of magnitude at most `1 - 2^-53` rounds to a value of magnitude
below one. -/
theorem F64.roundQ_abs_lt_one {x : ℚ} (hx : |x| ≤ 1 - 1 / 2 ^ (53 : ℕ)) :
    |F64.roundQ x| < 1 := by
  have hg : ((2 ^ (53 : ℕ) - 1 : ℤ) : ℚ) * 2 ^ (-53 : ℤ) = 1 - 1 / 2 ^ (53 : ℕ) := by
    norm_num
  have key : ∀ y : ℚ, 0 ≤ y → y ≤ 1 - 1 / 2 ^ (53 : ℕ) →
      0 ≤ F64.roundQ y ∧ F64.roundQ y < 1 := by
    intro y hy0 hy1
    have := F64.roundQ_le_grid (x := y) (2 ^ (53 : ℕ) - 1) (-53) hy0 (by norm_num)
      (by norm_num) (by rw [hg]; exact hy1)
    rw [hg] at this
    refine ⟨F64.roundQ_nonneg hy0, ?_⟩
    have h2 : (0 : ℚ) < 1 / 2 ^ (53 : ℕ) := by positivity
    linarith
  rcases le_or_lt 0 x with h0 | h0
  · rw [abs_of_nonneg h0] at hx
    obtain ⟨k1, k2⟩ := key x h0 hx
    rw [abs_of_nonneg k1]; exact k2
  · rw [abs_of_neg h0] at hx
    obtain ⟨k1, k2⟩ := key (-x) (by linarith) hx
    rw [F64.roundQ_neg] at k1 k2
    rw [abs_lt]; constructor <;> linarith

/-- The quotient step of `CalculateAverage`: a sum of magnitude below `2^53`
divided in `float64` by a positive count and converted back is the integer
quotient truncated toward zero. -/
theorem average_core (a n : ℤ) (ha : |a| < 2 ^ (53 : ℕ)) (hn : 1 ≤ n) :
    F64.toInt (F64.div (F64.ofInt a) (F64.ofInt n)) = a.tdiv n := by
  have ha2 := abs_lt.mp ha
  have haQ : |(a : ℚ)| < 2 ^ (53 : ℕ) := by exact_mod_cast ha
  rw [F64.ofInt_exact a ha]
  rcases lt_or_le n (2 ^ (53 : ℕ)) with hsmall | hbig
  · rw [F64.ofInt_exact n (by rw [abs_of_nonneg (by omega)]; exact hsmall)]
    have hn0 : ((n : ℤ) : ℚ) ≠ 0 := by
      have : (1 : ℚ) ≤ n := by exact_mod_cast hn
      linarith
    obtain ⟨h1, h2⟩ := F64.truncQ_roundQ_div a n ha hn hsmall
    have hfin : F64.ofRat ((a : ℚ) / n) = F64.fin (F64.roundQ ((a : ℚ) / n)) := by
      unfold F64.ofRat
      rw [if_neg]
      rw [not_le]
      calc |F64.roundQ ((a : ℚ) / n)| < 2 ^ (53 : ℕ) := h1
        _ ≤ 2 ^ (1024 : ℕ) := by norm_num
    have hq : |a.tdiv n| ≤ |a| := by
      rcases le_or_lt 0 a with h0 | h0
      · rw [Int.tdiv_eq_ediv h0 (by omega), abs_of_nonneg (Int.ediv_nonneg h0 (by omega)),
          abs_of_nonneg h0]
        exact Int.ediv_le_self n h0
      · have e : a = -(-a) := by ring
        rw [e, Int.neg_tdiv, abs_neg, abs_neg, Int.tdiv_eq_ediv (by omega) (by omega),
          abs_of_nonneg (Int.ediv_nonneg (by omega) (by omega)), abs_of_nonneg (by omega)]
        exact Int.ediv_le_self n (by omega)
    have hq2 := abs_le.mp hq
    have hr := abs_lt.mp (lt_of_le_of_lt hq ha)
    simp only [F64.div, if_neg hn0, hfin, F64.toInt, h2]
    rw [if_pos]
    constructor <;> omega
  · have hbigQ : (2 : ℚ) ^ (53 : ℤ) ≤ ((n : ℤ) : ℚ) := by
      have : ((2 ^ (53 : ℕ) : ℤ) : ℚ) ≤ ((n : ℤ) : ℚ) := by exact_mod_cast hbig
      norm_num at this ⊢; exact this
    have htd : a.tdiv n = 0 := tdiv_eq_zero_of_abs_lt (by omega)
    have hzero : F64.toInt (F64.fin 0) = 0 := by
      simp [F64.toInt, F64.truncQ]
    unfold F64.ofInt F64.ofRat
    split_ifs with hov
    · simp only [F64.div]
      rw [hzero, htd]
    · have hb := F64.roundQ_ge_pow 53 (by norm_num) hbigQ
      have hbpos : (0 : ℚ) < F64.roundQ ((n : ℤ) : ℚ) := lt_of_lt_of_le (by positivity) hb
      have hx : |(a : ℚ) / F64.roundQ ((n : ℤ) : ℚ)| ≤ 1 - 1 / 2 ^ (53 : ℕ) := by
        rw [abs_div, abs_of_pos hbpos, div_le_iff₀ hbpos]
        have h1 : |(a : ℚ)| ≤ 2 ^ (53 : ℕ) - 1 := by
          have : |a| ≤ 2 ^ (53 : ℕ) - 1 := by omega
          exact_mod_cast this
        have h2 : (2 : ℚ) ^ (53 : ℤ) = 2 ^ (53 : ℕ) := by norm_num
        rw [h2] at hb
        have h3 : (1 - 1 / 2 ^ (53 : ℕ) : ℚ) * 2 ^ (53 : ℕ) = 2 ^ (53 : ℕ) - 1 := by norm_num
        have h4 : (0 : ℚ) ≤ 1 - 1 / 2 ^ (53 : ℕ) := by norm_num
        calc |(a : ℚ)| ≤ 2 ^ (53 : ℕ) - 1 := h1
          _ = (1 - 1 / 2 ^ (53 : ℕ) : ℚ) * 2 ^ (53 : ℕ) := h3.symm
          _ ≤ (1 - 1 / 2 ^ (53 : ℕ) : ℚ) * F64.roundQ ((n : ℤ) : ℚ) :=
              mul_le_mul_of_nonneg_left hb h4
      have hlt := F64.roundQ_abs_lt_one hx
      have hfin : F64.ofRat ((a : ℚ) / F64.roundQ ((n : ℤ) : ℚ))
          = F64.fin (F64.roundQ ((a : ℚ) / F64.roundQ ((n : ℤ) : ℚ))) := by
        unfold F64.ofRat
        rw [if_neg]
        rw [not_le]
        calc |F64.roundQ ((a : ℚ) / F64.roundQ ((n : ℤ) : ℚ))| < 1 := hlt
          _ ≤ 2 ^ (1024 : ℕ) := by norm_num
      simp only [F64.div, if_neg hbpos.ne.symm, hfin, F64.toInt, F64.truncQ_eq_zero hlt, htd]
      norm_num

/-- Claim C17. `CalculateAverage` returns 0 on the empty list, and on a
non-empty list whose sum has magnitude below `2^53` it returns the sum divided
by the number of samples, truncated toward zero. -/
theorem C17_average_exact (data : List ℤ) :
    (data = [] → CalculateAverage data = 0) ∧
    (data ≠ [] → |data.sum| < 2 ^ (53 : ℕ) →
      CalculateAverage data = data.sum.tdiv data.length) := by
  constructor
  · rintro rfl; rfl
  · intro hne hsum
    have hlen : data.length ≠ 0 := by
      intro h; exact hne (List.length_eq_zero.mp h)
    have hs := abs_lt.mp hsum
    have htotal : data.foldl (fun t d => wrapInt64 (t + d)) 0 = data.sum := by
      have h0 : wrapInt64 0 = 0 := by unfold wrapInt64; norm_num
      have := foldl_wrap_sum data 0
      rw [h0, zero_add] at this
      rw [this]
      exact wrapInt64_of_range (by omega) (by omega)
    unfold CalculateAverage
    rw [if_neg hlen]
    simp only [htotal]
    exact average_core data.sum data.length hsum (by omega)

/-- Claim C17 on three samples whose mean is not an integer. -/
theorem C17_average_exact_witness :
    CalculateAverage [10000000, 20000000, 31000000]
      = (([10000000, 20000000, 31000000] : List ℤ).sum).tdiv
          (([10000000, 20000000, 31000000] : List ℤ).length) :=
  (C17_average_exact [10000000, 20000000, 31000000]).2 (by decide) (by decide)

/-- Claim C18, at the failing input: on two samples of `2^62` nanoseconds the
`int64` accumulator wraps to `-2^63` and the code returns `-2^62`, where the
mean of the samples is `2^62`. -/
theorem C18_average_wraps :
    CalculateAverage [4611686018427387904, 4611686018427387904] = -4611686018427387904 ∧
    (([4611686018427387904, 4611686018427387904] : List ℤ).sum)
        / (([4611686018427387904, 4611686018427387904] : List ℤ).length)
      = 4611686018427387904 := by
  constructor
  · have htotal : ([4611686018427387904, 4611686018427387904] : List ℤ).foldl
        (fun t d => wrapInt64 (t + d)) 0 = -9223372036854775808 := by
      simp [wrapInt64]
    have h1 : F64.ofInt (-9223372036854775808) = F64.fin (-9223372036854775808) := by
      have := F64.ofRat_grid (-1) 63 (by norm_num) (by norm_num) (by norm_num)
      have e : (((-1 : ℤ) : ℚ)) * 2 ^ (63 : ℤ) = ((-9223372036854775808 : ℤ) : ℚ) := by norm_num
      rw [e] at this
      rw [F64.ofInt, this]; norm_num
    have h2 : F64.ofInt ((([4611686018427387904, 4611686018427387904] : List ℤ).length : ℕ) : ℤ)
        = F64.fin 2 := by
      simpa using F64.ofInt_exact 2 (by norm_num)
    have h3 : F64.div (F64.fin (-9223372036854775808)) (F64.fin 2)
        = F64.fin (-4611686018427387904) := by
      have := F64.ofRat_grid (-1) 62 (by norm_num) (by norm_num) (by norm_num)
      have e : (((-1 : ℤ) : ℚ)) * 2 ^ (62 : ℤ) = (-9223372036854775808 : ℚ) / 2 := by norm_num
      rw [e] at this
      rw [F64.div, if_neg (by norm_num), this]; norm_num
    have h4 : F64.toInt (F64.fin (-4611686018427387904)) = -4611686018427387904 := by
      have hc : F64.truncQ (-4611686018427387904) = -4611686018427387904 := by
        unfold F64.truncQ
        rw [if_neg (by norm_num)]
        have : (-4611686018427387904 : ℚ) = ((-4611686018427387904 : ℤ) : ℚ) := by norm_num
        rw [this, Int.ceil_intCast]
      simp only [F64.toInt, hc]
      rw [if_pos (by norm_num)]
    unfold CalculateAverage
    rw [if_neg (by simp)]
    simp only [htotal]
    rw [h1, h2, h3, h4]
  · decide

/-! ## Validation: scheme and counts -/

/-- Claim C21. If `Validate` returns nil, the trimmed target URL is non-empty,
it parses to a URL of scheme `http` or `https`, and `Threads` and
`Connections` are positive; conversely `Validate` returns an error whenever
the trimmed URL does not parse to a URL of scheme `http` or `https`, whenever
`Threads ≤ 0` and whenever `Connections ≤ 0`. -/
theorem C21_validate_scheme_and_counts (trimSpace : String → String)
    (parseRequestURI : String → Except String ParsedURL)
    (parseDuration : String → Except String ℤ) (c : BenchmarkConfig) :
    ((BenchmarkConfig.Validate trimSpace parseRequestURI parseDuration c).2 = none →
      trimSpace c.TargetURL ≠ "" ∧
      (∃ u, parseRequestURI (trimSpace c.TargetURL) = Except.ok u ∧
        (u.Scheme = "http" ∨ u.Scheme = "https")) ∧
      0 < c.Threads ∧ 0 < c.Connections) ∧
    ((∀ u, parseRequestURI (trimSpace c.TargetURL) = Except.ok u →
        u.Scheme ≠ "http" ∧ u.Scheme ≠ "https") →
      (BenchmarkConfig.Validate trimSpace parseRequestURI parseDuration c).2 ≠ none) ∧
    (c.Threads ≤ 0 →
      (BenchmarkConfig.Validate trimSpace parseRequestURI parseDuration c).2 ≠ none) ∧
    (c.Connections ≤ 0 →
      (BenchmarkConfig.Validate trimSpace parseRequestURI parseDuration c).2 ≠ none) ∧
    (BenchmarkConfig.Validate trimSpace parseRequestURI parseDuration c).1.TargetURL
      = trimSpace c.TargetURL := by
  have key := Validate_accepts_iff trimSpace parseRequestURI parseDuration c
  refine ⟨fun h => ?_, fun h hacc => ?_, fun h hacc => ?_, fun h hacc => ?_, ?_⟩
  · obtain ⟨h1, h2, h3, h4, _⟩ := key.mp h
    exact ⟨h1, h2, h3, h4⟩
  · obtain ⟨_, ⟨u, hu, hs⟩, _⟩ := key.mp hacc
    obtain ⟨n1, n2⟩ := h u hu
    rcases hs with hs | hs
    · exact n1 hs
    · exact n2 hs
  · obtain ⟨_, _, h3, _⟩ := key.mp hacc
    omega
  · obtain ⟨_, _, _, h4, _⟩ := key.mp hacc
    omega
  · unfold BenchmarkConfig.Validate
    simp only
    repeat' split
    all_goals rfl

/-- Claim C21 on the sample configuration, which is accepted, and on the same
configuration with no thread, which is rejected. -/
theorem C21_validate_scheme_and_counts_witness :
    0 < sampleConfig.Threads ∧
    (BenchmarkConfig.Validate trimSpaceSample parseRequestURISample parseDurationSample
        { sampleConfig with Threads := 0 }).2 ≠ none :=
  ⟨((C21_validate_scheme_and_counts trimSpaceSample parseRequestURISample parseDurationSample
      sampleConfig).1 rfl).2.2.1,
   (C21_validate_scheme_and_counts trimSpaceSample parseRequestURISample parseDurationSample
      { sampleConfig with Threads := 0 }).2.2.1 (by decide)⟩

/-! ## The capacity of the outcome channels -/

/-- Claim C26. The capacity of the two outcome channels is at least 100 for
every worker count and connection count, and at most 10000 whenever the
spawned worker count, 20 times the configured `Threads`, is below 1000. -/
theorem C26_buffer_capacity (cfg : BenchmarkConfig) :
    100 ≤ resultsChanBufferSize (amplify cfg) ∧
    0 < resultsChanBufferSize (amplify cfg) ∧
    ((amplify cfg).Threads < 1000 → resultsChanBufferSize (amplify cfg) ≤ 10000) ∧
    (amplify cfg).Threads = wrapInt64 (cfg.Threads * 20) := by
  have h : ∀ c : BenchmarkConfig, 100 ≤ resultsChanBufferSize c ∧
      (c.Threads < 1000 → resultsChanBufferSize c ≤ 10000) := by
    intro c
    unfold resultsChanBufferSize
    simp only
    constructor
    · split_ifs <;> omega
    · intro ht
      split_ifs <;> omega
  obtain ⟨h1, h2⟩ := h (amplify cfg)
  exact ⟨h1, by omega, h2, rfl⟩

/-- Claim C26 on the sample configuration: 5 threads, spawned as 100 workers. -/
theorem C26_buffer_capacity_witness : resultsChanBufferSize (amplify sampleConfig) ≤ 10000 :=
  (C26_buffer_capacity sampleConfig).2.2.1 (by decide)

/-! ## The collector: latency series and error causes -/

theorem totalCount_bump (key : String) (m : List (String × ℤ)) :
    totalCount (bump key m) = totalCount m + 1 := by
  induction m with
  | nil => simp [bump, totalCount]
  | cons p rest ih =>
    obtain ⟨k, c⟩ := p
    unfold totalCount at ih ⊢
    by_cases h : k = key
    · simp [bump, h]; ring
    · simp [bump, h, ih]; ring

theorem collectorStep_countsMatch (startTime : ℤ) (st : CollectorState) (ev : CollectorEvent)
    (h : CountsMatch st) : CountsMatch (collectorStep startTime st ev) := by
  obtain ⟨h1, h2⟩ := h
  cases ev with
  | ctxDone => exact ⟨h1, h2⟩
  | result latency =>
    refine ⟨?_, h2⟩
    simp only [collectorStep, List.length_append, List.length_singleton]
    push_cast; omega
  | failure err =>
    refine ⟨h1, ?_⟩
    simp only [collectorStep, totalCount_bump]
    omega
  | workersDone => exact ⟨h1, h2⟩
  | tick now ready =>
    unfold collectorStep
    split_ifs
    · exact ⟨h1, h2⟩
    · exact ⟨h1, h2⟩

theorem collectorLoop_invariants (startTime : ℤ) (events : List CollectorEvent) :
    ∀ st, CountsMatch st →
      CountsMatch (collectorLoop startTime st events).1 ∧
      (collectorLoop startTime st events).1.latencyData
        = st.latencyData ++ consumedLatencies events := by
  induction events with
  | nil => intro st h; exact ⟨h, by simp [collectorLoop, consumedLatencies]⟩
  | cons ev rest ih =>
    intro st h
    cases ev with
    | workersDone => exact ⟨h, by simp [collectorLoop, consumedLatencies]⟩
    | ctxDone =>
      obtain ⟨a, b⟩ := ih _ (collectorStep_countsMatch startTime st CollectorEvent.ctxDone h)
      exact ⟨a, by simpa [collectorLoop, consumedLatencies, collectorStep] using b⟩
    | result latency =>
      obtain ⟨a, b⟩ := ih _ (collectorStep_countsMatch startTime st
        (CollectorEvent.result latency) h)
      exact ⟨a, by simpa [collectorLoop, consumedLatencies, collectorStep] using b⟩
    | failure err =>
      obtain ⟨a, b⟩ := ih _ (collectorStep_countsMatch startTime st
        (CollectorEvent.failure err) h)
      exact ⟨a, by simpa [collectorLoop, consumedLatencies, collectorStep] using b⟩
    | tick now ready =>
      obtain ⟨a, b⟩ := ih _ (collectorStep_countsMatch startTime st
        (CollectorEvent.tick now ready) h)
      refine ⟨a, ?_⟩
      have e : (collectorStep startTime st (CollectorEvent.tick now ready)).latencyData
          = st.latencyData := by
        unfold collectorStep; split_ifs <;> rfl
      rw [e] at b
      simpa [collectorLoop, consumedLatencies] using b

theorem countsMatch_init : CountsMatch CollectorState.init := by
  simp [CountsMatch, CollectorState.init, totalCount]

theorem drainErrors_totalCount (buffered : List (Option GoError)) :
    ∀ st : CollectorState,
      totalCount (drainErrors st buffered).errorDetails
        = totalCount st.errorDetails + buffered.length := by
  induction buffered with
  | nil => intro st; simp [drainErrors]
  | cons x xs ih =>
    intro st
    have := ih { st with errorCount := st.errorCount + 1,
                         errorDetails := bump "Drained Error (Final Loop)" st.errorDetails }
    simp only [drainErrors, List.foldl_cons] at this ⊢
    rw [this, totalCount_bump]
    simp; ring

/-- Claim C24. The `LatencyData` of a report returned by `runCollector` is
sorted ascending and is a permutation of the latencies consumed by the main
loop followed by those drained; its length is `TotalRequestsCompleted`; and the
final average, P50, P95 and P99 are those of that whole sorted series. -/
theorem C24_latency_series_complete (cfg : BenchmarkConfig) (ctxErr : CtxErr)
    (startTime endTime : ℤ) (events : List CollectorEvent) (bufferedResults : List ℤ)
    (bufferedErrors : List (Option GoError)) (r : BenchmarkResult)
    (h : (runCollector cfg ctxErr startTime endTime events bufferedResults
      bufferedErrors).outcome = CollectorOutcome.returned r) :
    r.LatencyData.Sorted (· ≤ ·) ∧
    r.LatencyData.Perm (consumedLatencies events ++ bufferedResults) ∧
    (r.LatencyData.length : ℤ) = r.TotalRequestsCompleted ∧
    r.LatencyAvg = CalculateAverage r.LatencyData ∧
    r.LatencyP50 = CalculatePercentile r.LatencyData (F64.fin 50) ∧
    r.LatencyP95 = CalculatePercentile r.LatencyData (F64.fin 95) ∧
    r.LatencyP99 = CalculatePercentile r.LatencyData (F64.fin 99) := by
  have hr := runCollector_returned_inv cfg ctxErr startTime endTime events bufferedResults
    bufferedErrors r h
  obtain ⟨⟨hc, _⟩, hl⟩ := collectorLoop_invariants startTime events CollectorState.init
    countsMatch_init
  obtain ⟨c1, _, _, c4⟩ := finalize_counts (amplify cfg) ctxErr startTime endTime
    (collectorLoop startTime CollectorState.init events).1 bufferedResults bufferedErrors
  have hdata : r.LatencyData = SortLatencies (consumedLatencies events ++ bufferedResults) := by
    rw [hr, c4, hl]; simp [CollectorState.init]
  refine ⟨?_, ?_, ?_, ?_, ?_, ?_, ?_⟩
  · rw [hdata]; exact List.sorted_insertionSort _ _
  · rw [hdata]; exact List.perm_insertionSort _ _
  · rw [hdata, hr, c1, hc, hl]
    have := (List.perm_insertionSort (· ≤ ·) (consumedLatencies events ++ bufferedResults)).length_eq
    unfold SortLatencies
    rw [this]
    simp [CollectorState.init]
  all_goals (rw [hr]; rfl)

/-- Claim C24 on a run with two latencies consumed and one drained. -/
theorem C24_latency_series_complete_witness :
    (finalize (amplify sampleConfig) CtxErr.deadlineExceeded 0 200000000
        (collectorLoop 0 CollectorState.init
          [CollectorEvent.result 7000000, CollectorEvent.result 5000000,
            CollectorEvent.workersDone]).1 [6000000] []).LatencyData.Perm
      (consumedLatencies [CollectorEvent.result 7000000, CollectorEvent.result 5000000,
          CollectorEvent.workersDone] ++ [6000000]) :=
  (C24_latency_series_complete sampleConfig CtxErr.deadlineExceeded 0 200000000
    [CollectorEvent.result 7000000, CollectorEvent.result 5000000, CollectorEvent.workersDone]
    [6000000] [] _
    (runCollector_returned sampleConfig CtxErr.deadlineExceeded 0 200000000
      [CollectorEvent.result 7000000, CollectorEvent.result 5000000,
        CollectorEvent.workersDone] [6000000] [] (by decide) rfl)).2.1

/-- Claim C28. Each failure consumed by `runCollector`, in the main loop or in
the drain, raises the count of exactly one key of the error-cause mapping by
one, so in every report it returns the counts of `ErrorDetails` sum to
`TotalErrors`. -/
theorem C28_error_details_sum (cfg : BenchmarkConfig) (ctxErr : CtxErr)
    (startTime endTime : ℤ) (events : List CollectorEvent) (bufferedResults : List ℤ)
    (bufferedErrors : List (Option GoError)) (r : BenchmarkResult)
    (st : CollectorState) (err : Option GoError) (k : String)
    (h : (runCollector cfg ctxErr startTime endTime events bufferedResults
      bufferedErrors).outcome = CollectorOutcome.returned r) :
    totalCount r.ErrorDetails = r.TotalErrors ∧
    lookup k (collectorStep startTime st (CollectorEvent.failure err)).errorDetails
      = lookup k st.errorDetails + (if k = errKey err then 1 else 0) ∧
    lookup k (drainErrors st [err]).errorDetails
      = lookup k st.errorDetails + (if k = "Drained Error (Final Loop)" then 1 else 0) := by
  have hr := runCollector_returned_inv cfg ctxErr startTime endTime events bufferedResults
    bufferedErrors r h
  obtain ⟨⟨_, hc⟩, _⟩ := collectorLoop_invariants startTime events CollectorState.init
    countsMatch_init
  obtain ⟨_, c2, _, _⟩ := finalize_counts (amplify cfg) ctxErr startTime endTime
    (collectorLoop startTime CollectorState.init events).1 bufferedResults bufferedErrors
  refine ⟨?_, ?_, ?_⟩
  · rw [hr, c2, hc]
    show totalCount (drainErrors (drainResults _ bufferedResults) bufferedErrors).errorDetails
      = _
    rw [drainErrors_totalCount, (drainResults_fields bufferedResults _).2.2.2]
  · simp only [collectorStep]; exact lookup_bump _ _ _
  · simpa using (drainErrors_fields [err] st).2.2.2 k

/-- Claim C28 on a run with one failure consumed and one drained. -/
theorem C28_error_details_sum_witness :
    totalCount (finalize (amplify sampleConfig) CtxErr.deadlineExceeded 0 200000000
        (collectorLoop 0 CollectorState.init
          [CollectorEvent.failure (some refusedError), CollectorEvent.workersDone]).1
        [] [some refusedError]).ErrorDetails
      = (finalize (amplify sampleConfig) CtxErr.deadlineExceeded 0 200000000
        (collectorLoop 0 CollectorState.init
          [CollectorEvent.failure (some refusedError), CollectorEvent.workersDone]).1
        [] [some refusedError]).TotalErrors :=
  (C28_error_details_sum sampleConfig CtxErr.deadlineExceeded 0 200000000
    [CollectorEvent.failure (some refusedError), CollectorEvent.workersDone]
    [] [some refusedError] _ CollectorState.init none ""
    (runCollector_returned sampleConfig CtxErr.deadlineExceeded 0 200000000
      [CollectorEvent.failure (some refusedError), CollectorEvent.workersDone]
      [] [some refusedError] (by decide) rfl)).1

/-! ## Progress snapshots -/

/-- The average of a list whose sum has magnitude below `2^53`. -/
theorem CalculateAverage_of_small_sum (data : List ℤ) (hne : data ≠ [])
    (hsum : |data.sum| < 2 ^ (53 : ℕ)) :
    CalculateAverage data = data.sum.tdiv data.length := by
  have hlen : data.length ≠ 0 := by
    intro h; exact hne (List.length_eq_zero.mp h)
  have hs := abs_lt.mp hsum
  have htotal : data.foldl (fun t d => wrapInt64 (t + d)) 0 = data.sum := by
    have h0 : wrapInt64 0 = 0 := by unfold wrapInt64; norm_num
    have := foldl_wrap_sum data 0
    rw [h0, zero_add] at this
    rw [this]
    exact wrapInt64_of_range (by omega) (by omega)
  unfold CalculateAverage
  rw [if_neg hlen]
  simp only [htotal]
  exact average_core data.sum data.length hsum (by omega)

/-- The loop over a run of successes appends their latencies. -/
theorem collectorLoop_results (startTime : ℤ) (rest : List CollectorEvent) (ls : List ℤ) :
    ∀ st : CollectorState,
      collectorLoop startTime st (ls.map CollectorEvent.result ++ rest)
        = collectorLoop startTime
            { st with requestsCompleted := st.requestsCompleted + ls.length,
                      latencyData := st.latencyData ++ ls } rest := by
  induction ls with
  | nil => intro st; simp
  | cons x xs ih =>
    intro st
    show collectorLoop startTime (collectorStep startTime st (CollectorEvent.result x))
        (xs.map CollectorEvent.result ++ rest) = _
    rw [ih]
    simp only [collectorStep, List.length_cons, List.append_assoc, List.singleton_append]
    congr 2
    push_cast; ring

theorem SortLatencies_replicate (n : ℕ) (a : ℤ) :
    SortLatencies (List.replicate n a) = List.replicate n a := by
  unfold SortLatencies
  apply List.Sorted.insertionSort_eq
  rw [List.Sorted, List.pairwise_replicate]
  right; exact le_refl a

theorem SortLatencies_sum (data : List ℤ) : (SortLatencies data).sum = data.sum :=
  (List.perm_insertionSort (· ≤ ·) data).sum_eq

theorem SortLatencies_length (data : List ℤ) : (SortLatencies data).length = data.length :=
  (List.perm_insertionSort (· ≤ ·) data).length_eq

theorem consumedLatencies_results (ls : List ℤ) (rest : List CollectorEvent) :
    consumedLatencies (ls.map CollectorEvent.result ++ rest) = ls ++ consumedLatencies rest := by
  induction ls with
  | nil => simp
  | cons x xs ih => simp [consumedLatencies, ih]

theorem CalculateAverage_replicate (n : ℕ) (a : ℤ) (hn : 0 < n)
    (h : |(n : ℤ) * a| < 2 ^ (53 : ℕ)) : CalculateAverage (List.replicate n a) = a := by
  have hne : List.replicate n a ≠ [] := by
    intro e; have := congrArg List.length e; simp at this; omega
  have hsum : (List.replicate n a).sum = (n : ℤ) * a := by simp
  rw [CalculateAverage_of_small_sum _ hne (by rw [hsum]; exact h), hsum, List.length_replicate]
  exact Int.mul_tdiv_cancel_left a (by omega)

/-- The snapshot built when the ticker fires after one success of `b` and then
a thousand successes of `a`: its statistics are those of the last thousand. -/
theorem progress_after_slow_start (n : ℕ) (hn : n = 1000) (a b now endTime : ℤ)
    (h : |(n : ℤ) * a| < 2 ^ (53 : ℕ)) :
    (runCollector sampleConfig CtxErr.none 0 endTime
        ((b :: List.replicate n a).map CollectorEvent.result
          ++ [CollectorEvent.tick now true, CollectorEvent.workersDone]) [] []).progress.map
        (fun pm => (pm.1.LatencyAvg, pm.1.LatencyData.length, pm.1.RequestsCompleted))
      = [(a, n, (n : ℤ) + 1)] := by
  have hthreads : ¬ ((amplify sampleConfig).Threads < 0) := by decide
  have hlen : (b :: List.replicate n a).length = n + 1 := by simp
  have hdrop : List.drop (n + 1 - 1000) (b :: List.replicate n a) = List.replicate n a := by
    rw [show n + 1 - 1000 = 1 by omega]; rfl
  simp only [runCollector, if_neg hthreads, collectorLoop_results]
  simp only [collectorLoop, collectorStep, CollectorState.init, List.nil_append,
    Bool.false_eq_true, if_false, List.map_cons, List.map_nil, progressMsg, hlen,
    if_pos (show n + 1 > 1000 by omega), hdrop, SortLatencies_replicate,
    CalculateAverage_replicate n a (by omega) h, List.length_replicate]
  simp only [List.cons.injEq, Prod.mk.injEq, and_true, true_and]
  push_cast; ring

/-- Claim C25, at the failing run: 1001 latencies have been observed when the
ticker fires, the first of 1001000ns and the other thousand of 1000ns. The
snapshot holds the most recent 1000 samples and its average is their average,
1000ns, where the average of all the latencies observed is 1999ns. -/
theorem C25_progress_average_recent_only :
    (runCollector sampleConfig CtxErr.none 0 2000000000 slowStartEvents [] []).progress.map
        (fun pm => (pm.1.LatencyAvg, pm.1.LatencyData.length, pm.1.RequestsCompleted))
      = [(1000, 1000, 1001)] ∧
    CalculateAverage (SortLatencies (consumedLatencies slowStartEvents)) = 1999 := by
  constructor
  · exact (progress_after_slow_start 1000 rfl 1000 1001000 1000000000 2000000000
      (by norm_num)).trans (by norm_num)
  · have hc : consumedLatencies slowStartEvents = 1001000 :: List.replicate 1000 1000 := by
      rw [slowStartEvents, consumedLatencies_results]
      simp only [consumedLatencies, List.append_nil]
    have hsum : (1001000 :: List.replicate 1000 (1000 : ℤ)).sum = 2001000 := by
      rw [List.sum_cons, List.sum_replicate]; norm_num
    have hlen : (1001000 :: List.replicate 1000 (1000 : ℤ)).length = 1001 := by
      rw [List.length_cons, List.length_replicate]
    rw [hc, CalculateAverage_of_small_sum _
      (by intro e; have := congrArg List.length e
          rw [SortLatencies_length, hlen] at this; exact absurd this (by decide))
      (by rw [SortLatencies_sum, hsum]; norm_num),
      SortLatencies_sum, SortLatencies_length, hsum, hlen]
    rfl

/-! ## Monotonicity of binary64 rounding -/

theorem F64.roundHalfEven_mono {a b : ℚ} (h : a ≤ b) :
    F64.roundHalfEven a ≤ F64.roundHalfEven b := by
  have hfl : ⌊a⌋ ≤ ⌊b⌋ := Int.floor_mono h
  rcases lt_or_eq_of_le hfl with hlt | heq
  · have h1 := F64.roundHalfEven_le_floor_succ a
    have h2 := F64.roundHalfEven_ge_floor b
    omega
  · unfold F64.roundHalfEven
    rw [heq]
    have hfrac : a - ⌊b⌋ ≤ b - ⌊b⌋ := by linarith
    split_ifs <;> first | omega | (exfalso; linarith)

/-- The exact value divided by its unit in the last place is below `2^53`. -/
theorem F64.abs_div_ulp_lt (x : ℚ) : |x / 2 ^ F64.ulpExp x| < 2 ^ (53 : ℕ) := by
  have hb : 1 < (2 : ℕ) := by norm_num
  have hupos : (0 : ℚ) < 2 ^ F64.ulpExp x := by positivity
  rw [abs_div, abs_of_pos hupos, div_lt_iff₀ hupos]
  by_cases hx : x = 0
  · subst hx; simp; positivity
  have hxpos : 0 < |x| := abs_pos.mpr hx
  have h1 : |x| < (2 : ℚ) ^ (Int.log 2 |x| + 1) := by
    have := Int.lt_zpow_succ_log_self hb |x|; exact_mod_cast this
  have h2 : (2 : ℚ) ^ (Int.log 2 |x| + 1) ≤ 2 ^ (53 : ℕ) * 2 ^ F64.ulpExp x := by
    rw [← zpow_natCast (2 : ℚ) 53, ← zpow_add₀ (by norm_num)]
    apply zpow_le_zpow_right₀ (by norm_num)
    unfold F64.ulpExp
    push_cast
    have := le_max_left (Int.log 2 |x|) (-1022)
    omega
  linarith

theorem F64.ulpExp_ge (x : ℚ) : -1074 ≤ F64.ulpExp x := by
  unfold F64.ulpExp
  have := le_max_right (Int.log 2 |x|) (-1022)
  omega

/-- Every rounded value lies on the binary64 grid. -/
theorem F64.roundQ_on_grid (x : ℚ) :
    ∃ m k : ℤ, |m| < 2 ^ (53 : ℕ) ∧ -1074 ≤ k ∧ F64.roundQ x = (m : ℚ) * 2 ^ k := by
  have hlt := abs_lt.mp (F64.abs_div_ulp_lt x)
  have hu := F64.ulpExp_ge x
  have hle : F64.roundHalfEven (x / 2 ^ F64.ulpExp x) ≤ 2 ^ (53 : ℕ) :=
    F64.roundHalfEven_le (by push_cast; linarith [hlt.2])
  have hge : -(2 ^ (53 : ℕ)) ≤ F64.roundHalfEven (x / 2 ^ F64.ulpExp x) :=
    F64.roundHalfEven_ge (by push_cast; linarith [hlt.1])
  rcases lt_or_eq_of_le hle with h1 | h1
  · rcases lt_or_eq_of_le hge with h2 | h2
    · exact ⟨_, F64.ulpExp x, abs_lt.mpr ⟨h2, h1⟩, hu, rfl⟩
    · refine ⟨-(2 ^ (52 : ℕ)), F64.ulpExp x + 1, by norm_num, by omega, ?_⟩
      unfold F64.roundQ
      rw [← h2, zpow_add₀ (by norm_num)]; push_cast; ring
  · refine ⟨2 ^ (52 : ℕ), F64.ulpExp x + 1, by norm_num, by omega, ?_⟩
    unfold F64.roundQ
    rw [h1, zpow_add₀ (by norm_num)]; push_cast; ring

theorem F64.roundQ_idem (x : ℚ) : F64.roundQ (F64.roundQ x) = F64.roundQ x := by
  obtain ⟨m, k, hm, hk, h⟩ := F64.roundQ_on_grid x
  rw [h, F64.roundQ_grid m k hm hk]

theorem F64.roundQ_nonpos {x : ℚ} (hx : x ≤ 0) : F64.roundQ x ≤ 0 := by
  have := F64.roundQ_nonneg (x := -x) (by linarith)
  rw [F64.roundQ_neg] at this
  linarith

theorem F64.roundQ_mono_pos {x y : ℚ} (hx : 0 < x) (hxy : x ≤ y) :
    F64.roundQ x ≤ F64.roundQ y := by
  have hb : 1 < (2 : ℕ) := by norm_num
  have hy : 0 < y := lt_of_lt_of_le hx hxy
  have hu := F64.ulpExp_mono hx hxy
  rcases lt_or_eq_of_le hu with hlt | heq
  · have hux := F64.ulpExp_ge x
    have huy : F64.ulpExp y = Int.log 2 y - 52 ∧ -1022 < Int.log 2 y := by
      unfold F64.ulpExp at hlt hux ⊢
      rw [abs_of_pos hy] at hlt ⊢
      rcases le_total (Int.log 2 y) (-1022) with h | h
      · rw [max_eq_right h] at hlt; omega
      · rw [max_eq_left h] at hlt ⊢
        refine ⟨rfl, ?_⟩
        rcases lt_or_eq_of_le h with h' | h'
        · exact h'
        · rw [← h'] at hlt; omega
    have hLx : Int.log 2 x < Int.log 2 y := by
      have e : F64.ulpExp x = max (Int.log 2 x) (-1022) - 52 := by
        unfold F64.ulpExp; rw [abs_of_pos hx]
      have := le_max_left (Int.log 2 x) (-1022)
      omega
    have hx2 : x < (2 : ℚ) ^ (Int.log 2 x + 1) := by
      have := Int.lt_zpow_succ_log_self hb x; exact_mod_cast this
    have hpow : (2 : ℚ) ^ (Int.log 2 x + 1) ≤ 2 ^ (Int.log 2 y) :=
      zpow_le_zpow_right₀ (by norm_num) (by omega)
    have hy2 : (2 : ℚ) ^ (Int.log 2 y) ≤ y := by
      have := Int.zpow_log_le_self hb hy; exact_mod_cast this
    have h1 : F64.roundQ x ≤ ((1 : ℤ) : ℚ) * 2 ^ (Int.log 2 y) :=
      F64.roundQ_le_grid 1 (Int.log 2 y) hx.le (by norm_num) (by omega)
        (by push_cast; linarith)
    have h2 := F64.roundQ_ge_pow (Int.log 2 y) (by omega) hy2
    push_cast at h1
    linarith
  · unfold F64.roundQ
    rw [heq]
    have hupos : (0 : ℚ) < 2 ^ F64.ulpExp y := by positivity
    have hdiv : x / 2 ^ F64.ulpExp y ≤ y / 2 ^ F64.ulpExp y :=
      div_le_div_of_nonneg_right hxy hupos.le
    have := F64.roundHalfEven_mono hdiv
    have hQ : (F64.roundHalfEven (x / 2 ^ F64.ulpExp y) : ℚ)
        ≤ (F64.roundHalfEven (y / 2 ^ F64.ulpExp y) : ℚ) := by exact_mod_cast this
    exact mul_le_mul_of_nonneg_right hQ hupos.le

/-- Rounding to binary64 is monotone. -/
theorem F64.roundQ_mono {x y : ℚ} (hxy : x ≤ y) : F64.roundQ x ≤ F64.roundQ y := by
  rcases lt_trichotomy 0 x with hx | hx | hx
  · exact F64.roundQ_mono_pos hx hxy
  · subst hx
    rw [F64.roundQ_zero]; exact F64.roundQ_nonneg hxy
  · rcases le_or_lt 0 y with hy | hy
    · exact le_trans (F64.roundQ_nonpos hx.le) (F64.roundQ_nonneg hy)
    · have := F64.roundQ_mono_pos (x := -y) (y := -x) (by linarith) (by linarith)
      rw [F64.roundQ_neg, F64.roundQ_neg] at this
      linarith

/-- An exact result bounded by a grid value below `2^1024` rounds to a finite
`float64` within the same bounds. -/
theorem F64.ofRat_of_bounds {q : ℚ} (m k : ℤ) (hm : |m| < 2 ^ (53 : ℕ)) (hk : -1074 ≤ k)
    (hk2 : k ≤ 971) (h0 : 0 ≤ q) (h : q ≤ (m : ℚ) * 2 ^ k) :
    F64.ofRat q = F64.fin (F64.roundQ q) ∧ 0 ≤ F64.roundQ q ∧
      F64.roundQ q ≤ (m : ℚ) * 2 ^ k := by
  have h1 := F64.roundQ_nonneg h0
  have h2 := F64.roundQ_le_grid m k h0 hm hk h
  refine ⟨?_, h1, h2⟩
  unfold F64.ofRat
  rw [if_neg]
  rw [not_le, abs_of_nonneg h1]
  have hm' : (m : ℚ) < 2 ^ (53 : ℕ) := by
    have : |(m : ℚ)| < 2 ^ (53 : ℕ) := by exact_mod_cast hm
    exact lt_of_le_of_lt (le_abs_self _) this
  have hp : (2 : ℚ) ^ k ≤ 2 ^ (971 : ℤ) := zpow_le_zpow_right₀ (by norm_num) hk2
  have hkpos : (0 : ℚ) < 2 ^ k := by positivity
  calc F64.roundQ q ≤ (m : ℚ) * 2 ^ k := h2
    _ < 2 ^ (53 : ℕ) * 2 ^ k := mul_lt_mul_of_pos_right hm' hkpos
    _ ≤ 2 ^ (53 : ℕ) * 2 ^ (971 : ℤ) := mul_le_mul_of_nonneg_left hp (by positivity)
    _ = 2 ^ (1024 : ℕ) := by norm_num

/-! ## Error rate and throughput of the final report -/

/-- The `float64` expression `errors / attempted * 100` for counts with
`0 ≤ errors ≤ attempted` and `0 < attempted < 2^63`. -/
theorem errorRate_bounds (e a : ℤ) (he : 0 ≤ e) (hea : e ≤ a) (ha : 0 < a)
    (ha2 : a < 2 ^ (63 : ℕ)) :
    ∃ t, F64.mul (F64.div (F64.ofInt e) (F64.ofInt a)) (F64.fin 100) = F64.fin t ∧
      0 ≤ t ∧ t ≤ 100 ∧ (e = a → t = 100) := by
  have haQ : ((a : ℤ) : ℚ) ≤ ((1 : ℤ) : ℚ) * 2 ^ (63 : ℤ) := by
    have : ((a : ℤ) : ℚ) ≤ ((2 ^ (63 : ℕ) : ℤ) : ℚ) := by exact_mod_cast ha2.le
    norm_num at this ⊢; exact this
  have heQ : ((e : ℤ) : ℚ) ≤ ((a : ℤ) : ℚ) := by exact_mod_cast hea
  have he0 : (0 : ℚ) ≤ ((e : ℤ) : ℚ) := by exact_mod_cast he
  have ha1 : (2 : ℚ) ^ (0 : ℤ) ≤ ((a : ℤ) : ℚ) := by
    have : (1 : ℚ) ≤ ((a : ℤ) : ℚ) := by exact_mod_cast ha
    simpa using this
  obtain ⟨hA, _, _⟩ := F64.ofRat_of_bounds (q := (a : ℚ)) 1 63 (by norm_num) (by norm_num)
    (by norm_num) (by linarith) haQ
  obtain ⟨hE, hE0, _⟩ := F64.ofRat_of_bounds (q := (e : ℚ)) 1 63 (by norm_num) (by norm_num)
    (by norm_num) he0 (le_trans heQ haQ)
  have hA1 : (1 : ℚ) ≤ F64.roundQ (a : ℚ) := by
    have := F64.roundQ_ge_pow 0 (by norm_num) ha1
    simpa using this
  have hEA : F64.roundQ (e : ℚ) ≤ F64.roundQ (a : ℚ) := F64.roundQ_mono heQ
  have hApos : (0 : ℚ) < F64.roundQ (a : ℚ) := by linarith
  have hratio0 : 0 ≤ F64.roundQ (e : ℚ) / F64.roundQ (a : ℚ) := div_nonneg hE0 hApos.le
  have hratio1 : F64.roundQ (e : ℚ) / F64.roundQ (a : ℚ) ≤ ((1 : ℤ) : ℚ) * 2 ^ (0 : ℤ) := by
    rw [div_le_iff₀ hApos]; push_cast; linarith
  obtain ⟨hR, hR0, hR1⟩ := F64.ofRat_of_bounds 1 0 (by norm_num) (by norm_num) (by norm_num)
    hratio0 hratio1
  have hR1' : F64.roundQ (F64.roundQ (e : ℚ) / F64.roundQ (a : ℚ)) ≤ 1 := by
    simpa using hR1
  have hprod0 : 0 ≤ F64.roundQ (F64.roundQ (e : ℚ) / F64.roundQ (a : ℚ)) * 100 := by
    positivity
  have hprod1 : F64.roundQ (F64.roundQ (e : ℚ) / F64.roundQ (a : ℚ)) * 100
      ≤ ((100 : ℤ) : ℚ) * 2 ^ (0 : ℤ) := by
    push_cast; linarith
  obtain ⟨hT, hT0, hT1⟩ := F64.ofRat_of_bounds 100 0 (by norm_num) (by norm_num)
    (by norm_num) hprod0 hprod1
  refine ⟨_, ?_, hT0, by simpa using hT1, ?_⟩
  · unfold F64.ofInt
    rw [hE, hA]
    simp only [F64.div, if_neg hApos.ne.symm, hR, F64.mul, hT]
  · intro hea'
    subst hea'
    have h1 : F64.roundQ (e : ℚ) / F64.roundQ (e : ℚ) = ((1 : ℤ) : ℚ) * 2 ^ (0 : ℤ) := by
      rw [div_self hApos.ne.symm]; norm_num
    have h2 : F64.roundQ (((1 : ℤ) : ℚ) * 2 ^ (0 : ℤ)) = ((1 : ℤ) : ℚ) * 2 ^ (0 : ℤ) :=
      F64.roundQ_grid 1 0 (by norm_num) (by norm_num)
    have h3 : F64.roundQ (((100 : ℤ) : ℚ) * 2 ^ (0 : ℤ)) = ((100 : ℤ) : ℚ) * 2 ^ (0 : ℤ) :=
      F64.roundQ_grid 100 0 (by norm_num) (by norm_num)
    rw [h1, h2]
    have e3 : (((1 : ℤ) : ℚ) * 2 ^ (0 : ℤ)) * 100 = ((100 : ℤ) : ℚ) * 2 ^ (0 : ℤ) := by norm_num
    rw [e3, h3]; norm_num

/-- Claim C23. The `ErrorRate` of a report returned by `runCollector` is 0 when
nothing was attempted and otherwise the `float64` value of
`errors / attempted * 100`; it is a finite value between 0 and 100, and it is
exactly 100 when nothing completed and there are errors (the counts being
`int` values, below `2^63`). -/
theorem C23_error_rate (cfg : BenchmarkConfig) (ctxErr : CtxErr) (startTime endTime : ℤ)
    (events : List CollectorEvent) (bufferedResults : List ℤ)
    (bufferedErrors : List (Option GoError)) (r : BenchmarkResult)
    (h : (runCollector cfg ctxErr startTime endTime events bufferedResults
      bufferedErrors).outcome = CollectorOutcome.returned r)
    (hint : r.TotalRequestsSent < 2 ^ (63 : ℕ)) :
    (r.TotalRequestsSent = 0 → r.ErrorRate = F64.fin 0) ∧
    (r.TotalRequestsSent ≠ 0 →
      r.ErrorRate = F64.mul (F64.div (F64.ofInt r.TotalErrors)
        (F64.ofInt r.TotalRequestsSent)) (F64.fin 100)) ∧
    (∃ t, r.ErrorRate = F64.fin t ∧ 0 ≤ t ∧ t ≤ 100) ∧
    (r.TotalRequestsCompleted = 0 → 0 < r.TotalErrors → r.ErrorRate = F64.fin 100) := by
  have hr := runCollector_returned_inv cfg ctxErr startTime endTime events bufferedResults
    bufferedErrors r h
  obtain ⟨⟨hc, _⟩, _⟩ := collectorLoop_invariants startTime events CollectorState.init
    countsMatch_init
  have hen := collectorLoop_errorCount_nonneg startTime events CollectorState.init (le_refl _)
  obtain ⟨c1, c2, c3, _⟩ := finalize_counts (amplify cfg) ctxErr startTime endTime
    (collectorLoop startTime CollectorState.init events).1 bufferedResults bufferedErrors
  rw [← hr] at c1 c2 c3
  have hcompl : 0 ≤ r.TotalRequestsCompleted := by rw [c1, hc]; positivity
  have herrs : 0 ≤ r.TotalErrors := by rw [c2]; positivity
  have hrate : r.ErrorRate = if r.TotalRequestsSent > 0 then
      F64.mul (F64.div (F64.ofInt r.TotalErrors) (F64.ofInt r.TotalRequestsSent)) (F64.fin 100)
      else F64.fin 0 := by
    rw [hr]; rfl
  refine ⟨fun h0 => ?_, fun h0 => ?_, ?_, fun hz hpos => ?_⟩
  · rw [hrate, if_neg (by omega)]
  · rw [hrate, if_pos (by omega)]
  · by_cases hpos : r.TotalRequestsSent > 0
    · obtain ⟨t, ht, t0, t1, _⟩ := errorRate_bounds r.TotalErrors r.TotalRequestsSent herrs
        (by omega) hpos hint
      exact ⟨t, by rw [hrate, if_pos hpos, ht], t0, t1⟩
    · exact ⟨0, by rw [hrate, if_neg hpos], le_refl _, by norm_num⟩
  · obtain ⟨t, ht, _, _, t100⟩ := errorRate_bounds r.TotalErrors r.TotalRequestsSent herrs
      (by omega) (by omega) hint
    rw [hrate, if_pos (by omega), ht, t100 (by omega)]

/-- Claim C23 on a run where every attempt failed. -/
theorem C23_error_rate_witness :
    (finalize (amplify sampleConfig) CtxErr.deadlineExceeded 0 200000000
        (collectorLoop 0 CollectorState.init
          [CollectorEvent.failure (some refusedError), CollectorEvent.workersDone]).1
        [] [some refusedError]).ErrorRate = F64.fin 100 :=
  (C23_error_rate sampleConfig CtxErr.deadlineExceeded 0 200000000
    [CollectorEvent.failure (some refusedError), CollectorEvent.workersDone]
    [] [some refusedError] _
    (runCollector_returned sampleConfig CtxErr.deadlineExceeded 0 200000000
      [CollectorEvent.failure (some refusedError), CollectorEvent.workersDone]
      [] [some refusedError] (by decide) rfl)
    (by decide)).2.2.2 (by decide) (by decide)

theorem roundQ_thousandth : (1 : ℚ) / 1000 ≤ F64.roundQ (1 / 1000) := by
  rw [@F64.roundQ_eq_pos (1 / 1000) (-10) 4611686018427388 (by norm_num) (by norm_num)
    (by norm_num) (by rw [abs_lt]; constructor <;> norm_num)]
  norm_num

/-- The value of `Duration.Seconds` on a span of at least one millisecond is a
finite `float64` of at least one thousandth. -/
theorem durationSeconds_bounds (d : ℤ) (h1 : millisecond ≤ d) (h2 : d < 2 ^ (63 : ℕ)) :
    ∃ s, durationSeconds d = F64.fin s ∧ 1 / 1000 ≤ s := by
  have hd0 : 0 ≤ d := by unfold millisecond at h1; omega
  have hsec : d.tdiv 1000000000 = d / 1000000000 := Int.tdiv_eq_ediv hd0 (by norm_num)
  have hnsec : d.tmod 1000000000 = d % 1000000000 := Int.tmod_eq_emod hd0 (by norm_num)
  have hs0 : 0 ≤ d / 1000000000 := Int.ediv_nonneg hd0 (by norm_num)
  have hs1 : d / 1000000000 < 2 ^ (34 : ℕ) := by omega
  have hn0 : 0 ≤ d % 1000000000 := Int.emod_nonneg d (by norm_num)
  have hn1 : d % 1000000000 < 1000000000 := Int.emod_lt_of_pos d (by norm_num)
  have hsplit : 1000000000 * (d / 1000000000) + d % 1000000000 = d :=
    Int.ediv_add_emod d 1000000000
  have hsecF : F64.ofInt (d / 1000000000) = F64.fin ((d / 1000000000 : ℤ) : ℚ) :=
    F64.ofInt_exact _ (by rw [abs_of_nonneg hs0]; omega)
  have hnsecF : F64.ofInt (d % 1000000000) = F64.fin ((d % 1000000000 : ℤ) : ℚ) :=
    F64.ofInt_exact _ (by rw [abs_of_nonneg hn0]; omega)
  have hn0Q : (0 : ℚ) ≤ ((d % 1000000000 : ℤ) : ℚ) := by exact_mod_cast hn0
  have hn1Q : ((d % 1000000000 : ℤ) : ℚ) ≤ 1000000000 := by exact_mod_cast hn1.le
  have hs0Q : (0 : ℚ) ≤ ((d / 1000000000 : ℤ) : ℚ) := by exact_mod_cast hs0
  have hs1Q : ((d / 1000000000 : ℤ) : ℚ) ≤ 2 ^ (34 : ℕ) := by exact_mod_cast hs1.le
  have hfrac0 : (0 : ℚ) ≤ ((d % 1000000000 : ℤ) : ℚ) / 1000000000 := by positivity
  have hfrac1 : ((d % 1000000000 : ℤ) : ℚ) / 1000000000 ≤ ((1 : ℤ) : ℚ) * 2 ^ (0 : ℤ) := by
    rw [div_le_iff₀ (by norm_num)]; push_cast; linarith
  obtain ⟨hF, hF0, hF1⟩ := F64.ofRat_of_bounds 1 0 (by norm_num) (by norm_num) (by norm_num)
    hfrac0 hfrac1
  have hF1' : F64.roundQ (((d % 1000000000 : ℤ) : ℚ) / 1000000000) ≤ 1 := by simpa using hF1
  have hsum0 : (0 : ℚ) ≤ ((d / 1000000000 : ℤ) : ℚ)
      + F64.roundQ (((d % 1000000000 : ℤ) : ℚ) / 1000000000) := by positivity
  have hsum1 : ((d / 1000000000 : ℤ) : ℚ)
      + F64.roundQ (((d % 1000000000 : ℤ) : ℚ) / 1000000000) ≤ ((1 : ℤ) : ℚ) * 2 ^ (35 : ℤ) := by
    have : ((1 : ℤ) : ℚ) * 2 ^ (35 : ℤ) = 2 ^ (34 : ℕ) + 2 ^ (34 : ℕ) := by norm_num
    rw [this]
    have : (1 : ℚ) ≤ 2 ^ (34 : ℕ) := by norm_num
    linarith
  obtain ⟨hS, _, _⟩ := F64.ofRat_of_bounds 1 35 (by norm_num) (by norm_num) (by norm_num)
    hsum0 hsum1
  refine ⟨F64.roundQ (((d / 1000000000 : ℤ) : ℚ)
    + F64.roundQ (((d % 1000000000 : ℤ) : ℚ) / 1000000000)), ?_, ?_⟩
  · unfold durationSeconds
    rw [hsec, hnsec, hsecF, hnsecF]
    simp only [F64.div, if_neg (show (1000000000 : ℚ) ≠ 0 by norm_num), hF, F64.add, hS]
  · rcases lt_or_eq_of_le hs0 with hpos | hzero
    · have h1le : (2 : ℚ) ^ (0 : ℤ) ≤ ((d / 1000000000 : ℤ) : ℚ)
          + F64.roundQ (((d % 1000000000 : ℤ) : ℚ) / 1000000000) := by
        have : (1 : ℚ) ≤ ((d / 1000000000 : ℤ) : ℚ) := by exact_mod_cast hpos
        simp only [zpow_zero]; linarith
      have := F64.roundQ_ge_pow 0 (by norm_num) h1le
      simp only [zpow_zero] at this
      linarith
    · rw [← hzero]
      simp only [Int.cast_zero, zero_add, F64.roundQ_idem]
      have hd : d % 1000000000 = d := by omega
      have hge : (1 : ℚ) / 1000 ≤ ((d % 1000000000 : ℤ) : ℚ) / 1000000000 := by
        rw [hd, le_div_iff₀ (by norm_num)]
        have : ((1000000 : ℤ) : ℚ) ≤ (d : ℚ) := by
          unfold millisecond at h1; exact_mod_cast h1
        push_cast at this; linarith
      exact le_trans roundQ_thousandth (F64.roundQ_mono hge)

/-- The `float64` quotient of a count by the seconds of a span of at least one
millisecond. -/
theorem throughput_bounds (c d : ℤ) (hc0 : 0 ≤ c) (hc : c < 2 ^ (63 : ℕ))
    (h1 : millisecond ≤ d) (h2 : d < 2 ^ (63 : ℕ)) :
    ∃ t, F64.div (F64.ofInt c) (durationSeconds d) = F64.fin t ∧ 0 ≤ t ∧
      t ≤ F64.roundQ (1000 * F64.roundQ c) ∧
      (c * 1000 < 2 ^ (53 : ℕ) → t ≤ 1000 * c) := by
  obtain ⟨s, hs, hs1⟩ := durationSeconds_bounds d h1 h2
  have hspos : (0 : ℚ) < s := by linarith
  have hc0Q : (0 : ℚ) ≤ ((c : ℤ) : ℚ) := by exact_mod_cast hc0
  have hcQ : ((c : ℤ) : ℚ) ≤ ((1 : ℤ) : ℚ) * 2 ^ (63 : ℤ) := by
    have : ((c : ℤ) : ℚ) ≤ ((2 ^ (63 : ℕ) : ℤ) : ℚ) := by exact_mod_cast hc.le
    norm_num at this ⊢; exact this
  obtain ⟨hC, hC0, hC1⟩ := F64.ofRat_of_bounds (q := (c : ℚ)) 1 63 (by norm_num)
    (by norm_num) (by norm_num) hc0Q hcQ
  have hq0 : 0 ≤ F64.roundQ (c : ℚ) / s := div_nonneg hC0 hspos.le
  have hq1 : F64.roundQ (c : ℚ) / s ≤ 1000 * F64.roundQ (c : ℚ) := by
    rw [div_le_iff₀ hspos]
    have : 1000 * F64.roundQ (c : ℚ) * (1 / 1000) ≤ 1000 * F64.roundQ (c : ℚ) * s :=
      mul_le_mul_of_nonneg_left hs1 (by positivity)
    linarith
  have hq2 : F64.roundQ (c : ℚ) / s ≤ ((1 : ℤ) : ℚ) * 2 ^ (73 : ℤ) := by
    simp only [Int.cast_one, one_mul] at hC1 ⊢
    have : (2 : ℚ) ^ (73 : ℤ) = 1024 * 2 ^ (63 : ℤ) := by norm_num
    rw [this]; linarith
  obtain ⟨hT, hT0, _⟩ := F64.ofRat_of_bounds 1 73 (by norm_num) (by norm_num) (by norm_num)
    hq0 hq2
  refine ⟨F64.roundQ (F64.roundQ (c : ℚ) / s), ?_, hT0, F64.roundQ_mono hq1, ?_⟩
  · unfold F64.ofInt
    rw [hC, hs]
    simp only [F64.div, if_neg hspos.ne.symm, hT]
  · intro hsmall
    have hexact : F64.roundQ (c : ℚ) = c := by
      have := F64.roundQ_grid c 0 (by rw [abs_of_nonneg hc0]; omega) (by norm_num)
      simpa using this
    rw [hexact] at hq1 ⊢
    have hgrid : ((c : ℤ) : ℚ) / s ≤ ((c * 1000 : ℤ) : ℚ) * 2 ^ (0 : ℤ) := by
      push_cast; linarith
    have := F64.roundQ_le_grid (c * 1000) 0 (by rw [← hexact]; exact hq0)
      (by rw [abs_of_nonneg (by omega)]; exact hsmall) (by norm_num) hgrid
    push_cast at this
    linarith

/-- Claim C22. The `TotalDuration` of a report returned by `runCollector` is
the larger of `endTime.Sub(startTime)` and one millisecond, hence at least one
millisecond; `Throughput` is the `float64` quotient of `TotalRequestsCompleted`
by the seconds of `TotalDuration`, a divisor of at least one thousandth; so it
is a finite non-negative value, at most the `float64` value of 1000 times the
completed count, and at most 1000 times the completed count itself when that
product is below `2^53` (the count being an `int`, below `2^63`). -/
theorem C22_duration_floor_throughput (cfg : BenchmarkConfig) (ctxErr : CtxErr)
    (startTime endTime : ℤ) (events : List CollectorEvent) (bufferedResults : List ℤ)
    (bufferedErrors : List (Option GoError)) (r : BenchmarkResult)
    (h : (runCollector cfg ctxErr startTime endTime events bufferedResults
      bufferedErrors).outcome = CollectorOutcome.returned r)
    (hint : r.TotalRequestsCompleted < 2 ^ (63 : ℕ)) :
    r.TotalDuration = max (timeSub endTime startTime) millisecond ∧
    millisecond ≤ r.TotalDuration ∧
    (-(2 ^ (63 : ℕ)) ≤ endTime - startTime → endTime - startTime < 2 ^ (63 : ℕ) →
      r.TotalDuration = max (endTime - startTime) millisecond) ∧
    r.Throughput
      = F64.div (F64.ofInt r.TotalRequestsCompleted) (durationSeconds r.TotalDuration) ∧
    (∃ s, durationSeconds r.TotalDuration = F64.fin s ∧ 1 / 1000 ≤ s) ∧
    (∃ t, r.Throughput = F64.fin t ∧ 0 ≤ t ∧
      t ≤ F64.roundQ (1000 * F64.roundQ r.TotalRequestsCompleted) ∧
      (r.TotalRequestsCompleted * 1000 < 2 ^ (53 : ℕ) → t ≤ 1000 * r.TotalRequestsCompleted)) := by
  have hr := runCollector_returned_inv cfg ctxErr startTime endTime events bufferedResults
    bufferedErrors r h
  obtain ⟨⟨hc, _⟩, _⟩ := collectorLoop_invariants startTime events CollectorState.init
    countsMatch_init
  obtain ⟨c1, _, _, _⟩ := finalize_counts (amplify cfg) ctxErr startTime endTime
    (collectorLoop startTime CollectorState.init events).1 bufferedResults bufferedErrors
  rw [← hr] at c1
  have hcompl : 0 ≤ r.TotalRequestsCompleted := by rw [c1, hc]; positivity
  have hdur : r.TotalDuration = if timeSub endTime startTime < 1 * millisecond
      then 1 * millisecond else timeSub endTime startTime := by
    rw [hr]; rfl
  have hthr : r.Throughput
      = F64.div (F64.ofInt r.TotalRequestsCompleted) (durationSeconds r.TotalDuration) := by
    rw [hr]; rfl
  have hmax : r.TotalDuration = max (timeSub endTime startTime) millisecond := by
    rw [hdur, one_mul]
    split_ifs with hlt
    · rw [max_eq_right hlt.le]
    · rw [max_eq_left (not_lt.mp hlt)]
  have hge : millisecond ≤ r.TotalDuration := by rw [hmax]; exact le_max_right _ _
  have hlt : r.TotalDuration < 2 ^ (63 : ℕ) := by
    rw [hmax]
    apply max_lt
    · unfold timeSub
      have := min_le_right (endTime - startTime) (2 ^ (63 : ℕ) - 1)
      apply max_lt <;> omega
    · unfold millisecond; norm_num
  refine ⟨hmax, hge, ?_, hthr, durationSeconds_bounds _ hge hlt, ?_⟩
  · intro ha hb
    rw [hmax]
    congr 1
    unfold timeSub
    rw [min_eq_left (by omega), max_eq_right ha]
  · obtain ⟨t, ht, t0, t1, t2⟩ := throughput_bounds r.TotalRequestsCompleted r.TotalDuration
      hcompl hint hge hlt
    exact ⟨t, by rw [hthr, ht], t0, t1, t2⟩

/-- Claim C22 on a run shorter than a millisecond with one completed request. -/
theorem C22_duration_floor_throughput_witness :
    (finalize (amplify sampleConfig) CtxErr.canceled 0 5000
        (collectorLoop 0 CollectorState.init
          [CollectorEvent.result 3000, CollectorEvent.workersDone]).1 [] []).TotalDuration
      = max (timeSub 5000 0) millisecond :=
  (C22_duration_floor_throughput sampleConfig CtxErr.canceled 0 5000
    [CollectorEvent.result 3000, CollectorEvent.workersDone] [] [] _
    (runCollector_returned sampleConfig CtxErr.canceled 0 5000
      [CollectorEvent.result 3000, CollectorEvent.workersDone] [] [] (by decide) rfl)
    (by decide)).1

/-! ## Monotonicity of the percentile -/

theorem CalculatePercentile_eq_index (s : List ℤ) (p : F64) (hne : s ≠ []) :
    CalculatePercentile s p = s.getD (percentileIndex s.length p).toNat 0 := by
  have hn : ¬ ((s.length : ℤ) = 0) := by
    intro h; exact hne (List.length_eq_zero.mp (by exact_mod_cast h))
  unfold CalculatePercentile percentileIndex
  simp only [hn, if_false]
  split_ifs <;> simp

theorem percentileIndex_bounds (n : ℤ) (p : F64) (hn : 1 ≤ n) :
    0 ≤ percentileIndex n p ∧ percentileIndex n p ≤ n - 1 := by
  unfold percentileIndex
  simp only
  split_ifs <;> constructor <;> omega

theorem F64.truncQ_intCast (z : ℤ) : F64.truncQ (z : ℚ) = z := by
  unfold F64.truncQ
  split_ifs <;> simp

theorem indexOfCeil_of_lt (n c : ℤ) (h0 : 0 ≤ c) (h1 : c < 2 ^ (63 : ℕ)) :
    indexOfCeil n c = if (if c - 1 ≥ n then n - 1 else c - 1) < 0 then 0
      else (if c - 1 ≥ n then n - 1 else c - 1) := by
  have hv : F64.toInt (F64.fin (c : ℚ)) = c := by
    simp only [F64.toInt, F64.truncQ_intCast]
    rw [if_pos ⟨by omega, h1⟩]
  have hw : wrapInt64 (c - 1) = c - 1 := by unfold wrapInt64; omega
  simp only [indexOfCeil, hv, hw]

theorem indexOfCeil_of_ge (n c : ℤ) (hn : 1 ≤ n) (hn2 : n < 2 ^ (63 : ℕ))
    (h1 : 2 ^ (63 : ℕ) ≤ c) : indexOfCeil n c = n - 1 := by
  have hv : F64.toInt (F64.fin (c : ℚ)) = -(2 ^ (63 : ℕ)) := by
    simp only [F64.toInt, F64.truncQ_intCast]
    rw [if_neg (fun h => by omega)]
  have hw : wrapInt64 (-(2 ^ (63 : ℕ)) - 1) = 2 ^ (63 : ℕ) - 1 := by unfold wrapInt64; omega
  simp only [indexOfCeil, hv, hw]
  split_ifs <;> omega

/-- The index kept is monotone in the ceiling of the rank. -/
theorem indexOfCeil_mono (n ca cb : ℤ) (hn : 1 ≤ n) (hn2 : n < 2 ^ (63 : ℕ)) (h0 : 0 ≤ ca)
    (h : ca ≤ cb) : indexOfCeil n ca ≤ indexOfCeil n cb := by
  by_cases ha : ca < 2 ^ (63 : ℕ)
  · by_cases hb : cb < 2 ^ (63 : ℕ)
    · rw [indexOfCeil_of_lt n ca h0 ha, indexOfCeil_of_lt n cb (by omega) hb]
      split_ifs <;> omega
    · rw [indexOfCeil_of_lt n ca h0 ha, indexOfCeil_of_ge n cb hn hn2 (by omega)]
      split_ifs <;> omega
  · rw [indexOfCeil_of_ge n ca hn hn2 (by omega), indexOfCeil_of_ge n cb hn hn2 (by omega)]

/-- The index chosen for a finite percentile strictly between 0 and 100, from
the ceiling of the rounded rank. -/
theorem percentileIndex_fin (n : ℤ) (a : ℚ) (hn : 1 ≤ n) (hn2 : n < 2 ^ (63 : ℕ))
    (ha0 : 0 < a) (ha1 : a < 100) :
    0 ≤ F64.roundQ (n : ℚ) ∧ 0 ≤ F64.roundQ (F64.roundQ (a / 100) * F64.roundQ n) ∧
    percentileIndex n (F64.fin a)
      = indexOfCeil n ⌈F64.roundQ (F64.roundQ (a / 100) * F64.roundQ n)⌉ := by
  have hnQ0 : (0 : ℚ) ≤ ((n : ℤ) : ℚ) := by exact_mod_cast (by omega : (0 : ℤ) ≤ n)
  have hnQ : ((n : ℤ) : ℚ) ≤ ((1 : ℤ) : ℚ) * 2 ^ (63 : ℤ) := by
    have : ((n : ℤ) : ℚ) ≤ ((2 ^ (63 : ℕ) : ℤ) : ℚ) := by exact_mod_cast hn2.le
    norm_num at this ⊢; exact this
  obtain ⟨hN, hN0, hN1⟩ := F64.ofRat_of_bounds (q := (n : ℚ)) 1 63 (by norm_num)
    (by norm_num) (by norm_num) hnQ0 hnQ
  have hx0 : 0 ≤ a / 100 := by positivity
  have hx1 : a / 100 ≤ ((1 : ℤ) : ℚ) * 2 ^ (0 : ℤ) := by
    rw [div_le_iff₀ (by norm_num)]; push_cast; linarith
  obtain ⟨hX, hX0, hX1⟩ := F64.ofRat_of_bounds 1 0 (by norm_num) (by norm_num) (by norm_num)
    hx0 hx1
  have hX1' : F64.roundQ (a / 100) ≤ 1 := by simpa using hX1
  have hy0 : 0 ≤ F64.roundQ (a / 100) * F64.roundQ (n : ℚ) := mul_nonneg hX0 hN0
  have hy1 : F64.roundQ (a / 100) * F64.roundQ (n : ℚ) ≤ ((1 : ℤ) : ℚ) * 2 ^ (63 : ℤ) := by
    calc F64.roundQ (a / 100) * F64.roundQ (n : ℚ) ≤ 1 * F64.roundQ (n : ℚ) :=
          mul_le_mul_of_nonneg_right hX1' hN0
      _ = F64.roundQ (n : ℚ) := one_mul _
      _ ≤ _ := hN1
  obtain ⟨hY, hY0, _⟩ := F64.ofRat_of_bounds 1 63 (by norm_num) (by norm_num) (by norm_num)
    hy0 hy1
  refine ⟨hN0, hY0, ?_⟩
  have hle0 : F64.le (F64.fin a) (F64.fin 0) = false := by simp [F64.le, ha0]
  have hle100 : F64.le (F64.fin 100) (F64.fin a) = false := by simp [F64.le, ha1]
  unfold percentileIndex indexOfCeil
  simp only [hle0, hle100, Bool.false_eq_true, if_false, F64.div,
    if_neg (show (100 : ℚ) ≠ 0 by norm_num), hX, F64.ofInt, hN, F64.mul, hY, F64.ceil]

theorem percentileIndex_of_le_zero (n : ℤ) (p : F64) (h : F64.le p (F64.fin 0) = true) :
    percentileIndex n p = 0 := by
  unfold percentileIndex; rw [if_pos h]

theorem percentileIndex_of_ge_hundred (n : ℤ) (p : F64) (h0 : F64.le p (F64.fin 0) = false)
    (h : F64.le (F64.fin 100) p = true) : percentileIndex n p = n - 1 := by
  unfold percentileIndex
  rw [if_neg (by rw [h0]; simp), if_pos h]

theorem percentileIndex_mono_fin (n : ℤ) (a b : ℚ) (hn : 1 ≤ n) (hn2 : n < 2 ^ (63 : ℕ))
    (ha0 : 0 < a) (hab : a ≤ b) (hb1 : b < 100) :
    percentileIndex n (F64.fin a) ≤ percentileIndex n (F64.fin b) := by
  obtain ⟨hN0, hYa0, ha⟩ := percentileIndex_fin n a hn hn2 ha0 (by linarith)
  obtain ⟨_, _, hb⟩ := percentileIndex_fin n b hn hn2 (by linarith) hb1
  rw [ha, hb]
  apply indexOfCeil_mono n _ _ hn hn2 (Int.ceil_nonneg hYa0)
  apply Int.ceil_mono
  apply F64.roundQ_mono
  apply mul_le_mul_of_nonneg_right _ hN0
  apply F64.roundQ_mono
  exact div_le_div_of_nonneg_right hab (by norm_num)

/-- The index chosen by `CalculatePercentile` is monotone in the percentile. -/
theorem percentileIndex_mono (n : ℤ) (p q : F64) (hn : 1 ≤ n) (hn2 : n < 2 ^ (63 : ℕ))
    (hpq : F64.le p q = true) : percentileIndex n p ≤ percentileIndex n q := by
  have bp := percentileIndex_bounds n p hn
  have bq := percentileIndex_bounds n q hn
  cases p with
  | nan => simp [F64.le] at hpq
  | inf sp =>
    cases sp with
    | true =>
      rw [percentileIndex_of_le_zero n _ (by simp [F64.le])]; exact bq.1
    | false =>
      cases q with
      | nan => simp [F64.le] at hpq
      | inf sq =>
        cases sq with
        | true => simp [F64.le] at hpq
        | false => exact le_refl _
      | fin b => simp [F64.le] at hpq
  | fin a =>
    by_cases ha0 : a ≤ 0
    · rw [percentileIndex_of_le_zero n _ (by simp [F64.le, ha0])]; exact bq.1
    · have ha0' : 0 < a := not_le.mp ha0
      cases q with
      | nan => simp [F64.le] at hpq
      | inf sq =>
        cases sq with
        | true => simp [F64.le] at hpq
        | false =>
          rw [percentileIndex_of_ge_hundred n (F64.inf false) (by simp [F64.le])
            (by simp [F64.le])]
          exact bp.2
      | fin b =>
        have hab : a ≤ b := by simpa [F64.le] using hpq
        by_cases hb1 : b < 100
        · exact percentileIndex_mono_fin n a b hn hn2 ha0' hab hb1
        · rw [percentileIndex_of_ge_hundred n (F64.fin b)
            (by simp [F64.le]; linarith) (by simp [F64.le]; linarith)]
          exact bp.2

theorem sorted_getD_mono (s : List ℤ) (hs : s.Sorted (· ≤ ·)) (i j : ℕ) (hij : i ≤ j)
    (hj : j < s.length) : s.getD i 0 ≤ s.getD j 0 := by
  rw [List.getD_eq_getElem s 0 (lt_of_le_of_lt hij hj), List.getD_eq_getElem s 0 hj]
  exact hs.rel_get_of_le (a := ⟨i, lt_of_le_of_lt hij hj⟩) (b := ⟨j, hj⟩) hij

/-- The percentile of a sorted list is monotone in the percentile and lies
between the first and the last sample. -/
theorem CalculatePercentile_mono (s : List ℤ) (p q : F64) (hs : s.Sorted (· ≤ ·))
    (hne : s ≠ []) (hlen : s.length < 2 ^ 63) (hpq : F64.le p q = true) :
    s.getD 0 0 ≤ CalculatePercentile s p ∧
    CalculatePercentile s p ≤ CalculatePercentile s q ∧
    CalculatePercentile s q ≤ s.getD (s.length - 1) 0 := by
  have hpos : 0 < s.length := List.length_pos.mpr hne
  have hn : (1 : ℤ) ≤ (s.length : ℤ) := by exact_mod_cast hpos
  have hn2 : (s.length : ℤ) < 2 ^ (63 : ℕ) := by exact_mod_cast hlen
  have bp := percentileIndex_bounds s.length p hn
  have bq := percentileIndex_bounds s.length q hn
  have hm := percentileIndex_mono s.length p q hn hn2 hpq
  rw [CalculatePercentile_eq_index s p hne, CalculatePercentile_eq_index s q hne]
  refine ⟨?_, ?_, ?_⟩
  · exact sorted_getD_mono s hs _ _ (Nat.zero_le _) (by omega)
  · exact sorted_getD_mono s hs _ _ (by omega) (by omega)
  · exact sorted_getD_mono s hs _ _ (by omega) (by omega)

/-- Claim C27. On a non-empty ascending list, `CalculatePercentile` is monotone
in the percentile and bounded by the extremes: for `p ≤ q` the result for `p`
is at least the first sample, at most the result for `q`, which is at most the
last sample; and every report returned by `runCollector` has
`LatencyP50 ≤ LatencyP95 ≤ LatencyP99` (the number of samples being an `int`,
below `2^63`). -/
theorem C27_percentile_monotone :
    (∀ (s : List ℤ) (p q : F64), s.Sorted (· ≤ ·) → s ≠ [] → s.length < 2 ^ 63 →
      F64.le p q = true →
      s.getD 0 0 ≤ CalculatePercentile s p ∧
      CalculatePercentile s p ≤ CalculatePercentile s q ∧
      CalculatePercentile s q ≤ s.getD (s.length - 1) 0) ∧
    (∀ (cfg : BenchmarkConfig) (ctxErr : CtxErr) (startTime endTime : ℤ)
      (events : List CollectorEvent) (bufferedResults : List ℤ)
      (bufferedErrors : List (Option GoError)) (r : BenchmarkResult),
      (runCollector cfg ctxErr startTime endTime events bufferedResults
        bufferedErrors).outcome = CollectorOutcome.returned r →
      r.LatencyData.length < 2 ^ 63 →
      r.LatencyP50 ≤ r.LatencyP95 ∧ r.LatencyP95 ≤ r.LatencyP99) := by
  refine ⟨fun s p q hs hne hlen hpq => CalculatePercentile_mono s p q hs hne hlen hpq, ?_⟩
  intro cfg ctxErr startTime endTime events bufferedResults bufferedErrors r h hlen
  have hr := runCollector_returned_inv cfg ctxErr startTime endTime events bufferedResults
    bufferedErrors r h
  have h50 : r.LatencyP50 = CalculatePercentile r.LatencyData (F64.fin 50) := by rw [hr]; rfl
  have h95 : r.LatencyP95 = CalculatePercentile r.LatencyData (F64.fin 95) := by rw [hr]; rfl
  have h99 : r.LatencyP99 = CalculatePercentile r.LatencyData (F64.fin 99) := by rw [hr]; rfl
  have hsorted : r.LatencyData.Sorted (· ≤ ·) := by
    rw [hr]; exact List.sorted_insertionSort _ _
  rw [h50, h95, h99]
  by_cases hne : r.LatencyData = []
  · rw [hne]; simp [CalculatePercentile]
  · exact ⟨(CalculatePercentile_mono _ (F64.fin 50) (F64.fin 95) hsorted hne hlen
        (by simp [F64.le]; norm_num)).2.1,
      (CalculatePercentile_mono _ (F64.fin 95) (F64.fin 99) hsorted hne hlen
        (by simp [F64.le]; norm_num)).2.1⟩

/-- Claim C27 on the hundred sorted samples, for the percentiles 7 and 50. -/
theorem C27_percentile_monotone_witness :
    CalculatePercentile samples100 (F64.fin 7) ≤ CalculatePercentile samples100 (F64.fin 50) :=
  (C27_percentile_monotone.1 samples100 (F64.fin 7) (F64.fin 50)
    (by unfold samples100; decide) (by decide) (by decide) (by simp [F64.le]; norm_num)).2.1

/-! ## File names -/

theorem allowedRune_not_space (c : Char) (h : allowedRune c = true) : isSpace c = false := by
  simp only [allowedRune, Bool.or_eq_true, decide_eq_true_eq] at h
  simp only [isSpace, Bool.or_eq_false_iff, decide_eq_false_iff_not]
  omega

theorem allowedRune_not_replaced (c : Char) (h : allowedRune c = true) :
    ∀ old ∈ replaceChars, c ≠ old := by
  intro old hold hc
  subst hc
  have hall : ∀ x ∈ replaceChars, allowedRune x = false := by decide
  rw [hall c hold] at h
  exact Bool.noConfusion h

theorem dropWhile_eq_self_of_all_false {p : Char → Bool} (l : List Char)
    (h : ∀ c ∈ l, p c = false) : l.dropWhile p = l := by
  cases l with
  | nil => rfl
  | cons x xs => simp [List.dropWhile, h x (List.mem_cons_self x xs)]

theorem trimSpaceRunes_of_allowed (l : List Char) (h : ∀ c ∈ l, allowedRune c = true) :
    trimSpaceRunes l = l := by
  unfold trimSpaceRunes
  rw [dropWhile_eq_self_of_all_false l (fun c hc => allowedRune_not_space c (h c hc)),
    dropWhile_eq_self_of_all_false l.reverse
      (fun c hc => allowedRune_not_space c (h c (List.mem_reverse.mp hc))),
    List.reverse_reverse]

theorem replaceAll_of_allowed (l : List Char) (h : ∀ c ∈ l, allowedRune c = true) :
    ∀ olds : List Char, (∀ old ∈ olds, old ∈ replaceChars) →
      olds.foldl replaceAllByUnderscore l = l := by
  intro olds
  induction olds with
  | nil => intro _; rfl
  | cons old rest ih =>
    intro hin
    have hstep : replaceAllByUnderscore l old = l := by
      unfold replaceAllByUnderscore
      conv_rhs => rw [← List.map_id l]
      apply List.map_congr_left
      intro c hc
      rw [if_neg (allowedRune_not_replaced c (h c hc) old (hin old (List.mem_cons_self _ _)))]
      rfl
    rw [List.foldl_cons, hstep]
    exact ih (fun o ho => hin o (List.mem_cons_of_mem _ ho))

theorem String_mk_eq_empty (l : List Char) : String.mk l = "" ↔ l = [] := by
  constructor
  · intro h
    have := congrArg String.data h
    simpa using this
  · rintro rfl; rfl

theorem String_mk_toList (t : String) : String.mk t.toList = t := by
  cases t
  rfl

theorem SanitizeFilename_of_allowed (t : String) (hne : t.toList ≠ [])
    (hall : ∀ c ∈ t.toList, allowedRune c = true) : SanitizeFilename t = t := by
  unfold SanitizeFilename
  simp only [trimSpaceRunes_of_allowed _ hall,
    replaceAll_of_allowed _ hall replaceChars (fun _ h => h), List.filter_eq_self.mpr hall,
    String_mk_toList]
  rw [if_neg]
  intro h
  rw [h] at hne
  exact hne rfl

/-- The result of `SanitizeFilename` as a list of code points. -/
theorem SanitizeFilename_runes (s : String) :
    (SanitizeFilename s).toList ≠ [] ∧
    ∀ c ∈ (SanitizeFilename s).toList, allowedRune c = true := by
  unfold SanitizeFilename
  simp only
  split_ifs with h
  · exact ⟨by decide, by decide⟩
  · refine ⟨?_, ?_⟩
    · intro hnil
      exact h ((String_mk_eq_empty _).mpr hnil)
    · intro c hc
      exact (List.mem_filter.mp hc).2

/-- Claim C29. For every string, `SanitizeFilename` returns a non-empty string
made only of ASCII letters, digits, underscores and hyphens (hence without
slash, backslash or dot), and applying it to its own result changes nothing. -/
theorem C29_sanitize_filename (s : String) :
    SanitizeFilename s ≠ "" ∧
    (∀ c ∈ (SanitizeFilename s).toList,
      (97 ≤ c.toNat ∧ c.toNat ≤ 122) ∨ (65 ≤ c.toNat ∧ c.toNat ≤ 90) ∨
      (48 ≤ c.toNat ∧ c.toNat ≤ 57) ∨ c.toNat = 95 ∨ c.toNat = 45) ∧
    (∀ c ∈ (SanitizeFilename s).toList,
      c.toNat ≠ 47 ∧ c.toNat ≠ 92 ∧ c.toNat ≠ 46) ∧
    SanitizeFilename (SanitizeFilename s) = SanitizeFilename s := by
  obtain ⟨hne, hall⟩ := SanitizeFilename_runes s
  have hchars : ∀ c ∈ (SanitizeFilename s).toList,
      (97 ≤ c.toNat ∧ c.toNat ≤ 122) ∨ (65 ≤ c.toNat ∧ c.toNat ≤ 90) ∨
      (48 ≤ c.toNat ∧ c.toNat ≤ 57) ∨ c.toNat = 95 ∨ c.toNat = 45 := by
    intro c hc
    have := hall c hc
    simp only [allowedRune, Bool.or_eq_true, decide_eq_true_eq] at this
    omega
  refine ⟨?_, hchars, ?_, ?_⟩
  · intro h
    rw [h] at hne
    exact hne rfl
  · intro c hc
    have := hchars c hc
    omega
  · exact SanitizeFilename_of_allowed _ hne hall

/-- Claim C29 on a name with spaces, a slash and a dot. -/
theorem C29_sanitize_filename_witness :
    SanitizeFilename (SanitizeFilename " my test/v1.0 ") = SanitizeFilename " my test/v1.0 " :=
  (C29_sanitize_filename " my test/v1.0 ").2.2.2

theorem SanitizeFilename_sample : SanitizeFilename " my test/v1.0 " = "my_test_v10" := by
  decide

theorem SanitizeFilename_only_symbols : SanitizeFilename "../.." = "_" := by
  decide

theorem SanitizeFilename_dots : SanitizeFilename "..." = "unnamed_test" := by
  decide

/-! ## The histogram -/

theorem SortLatencies_bounds (data : List ℤ) (d : ℤ) (hd : d ∈ data) :
    (SortLatencies data).getD 0 0 ≤ d ∧
    d ≤ (SortLatencies data).getD ((SortLatencies data).length - 1) 0 := by
  have hsorted : (SortLatencies data).Sorted (· ≤ ·) := List.sorted_insertionSort (· ≤ ·) data
  have hmem : d ∈ SortLatencies data := (List.perm_insertionSort (· ≤ ·) data).mem_iff.mpr hd
  obtain ⟨k, hk, hkd⟩ := List.getElem_of_mem hmem
  have hget : (SortLatencies data).getD k 0 = d := by
    rw [List.getD_eq_getElem _ 0 hk, hkd]
  constructor
  · rw [← hget]
    exact sorted_getD_mono _ hsorted 0 k (Nat.zero_le k) hk
  · rw [← hget]
    exact sorted_getD_mono _ hsorted k _ (by omega) (by omega)

theorem histogramRange_contains (data : List ℤ) (buckets : ℤ)
    (hnn : ∀ d ∈ data, 0 ≤ d) (hb : 0 < buckets) :
    ∀ d ∈ data, (histogramRange data buckets).1 ≤ d ∧ d ≤ (histogramRange data buckets).2 := by
  intro d hd
  obtain ⟨h1, h2⟩ := SortLatencies_bounds data d hd
  have h0 := hnn d hd
  have hk : 0 ≤ buckets.tdiv 2 := Int.tdiv_nonneg (le_of_lt hb) (by norm_num)
  unfold histogramRange
  simp only [millisecond]
  generalize (SortLatencies data).getD 0 0 = m at h1 ⊢
  generalize (SortLatencies data).getD ((SortLatencies data).length - 1) 0 = M at h2 ⊢
  generalize buckets.tdiv 2 = k at hk ⊢
  split_ifs <;> simp only [] <;> constructor <;> omega

theorem histogramBucketSize_pos (minLat maxLat buckets : ℤ) :
    0 < histogramBucketSize minLat maxLat buckets := by
  unfold histogramBucketSize millisecond
  split_ifs <;> omega

/-- The first `m` buckets, none of them the last, partition the half-open
range below `minLat + m * bucketSize`. -/
theorem leading_buckets_sum (lo size d : ℤ) (hsize : 0 < size) (hlo : lo ≤ d) (m : ℕ) :
    ((List.range m).map fun i : ℕ =>
      if lo + (i : ℤ) * size ≤ d ∧ d < lo + (i : ℤ) * size + size then (1 : ℤ) else 0).sum =
    if d < lo + (m : ℤ) * size then 1 else 0 := by
  induction m with
  | zero =>
    simp only [List.range_zero, List.map_nil, List.sum_nil, Nat.cast_zero, zero_mul, add_zero]
    rw [if_neg (not_lt.mpr hlo)]
  | succ m ih =>
    rw [List.range_succ, List.map_append, List.sum_append, ih]
    have hm : ((m + 1 : ℕ) : ℤ) * size = (m : ℤ) * size + size := by push_cast; ring
    rw [hm]
    simp only [List.map_cons, List.map_nil, List.sum_cons, List.sum_nil, add_zero]
    split_ifs <;> omega

/-- Each sample between the bounds is counted by exactly one of the
`m + 1` buckets. -/
theorem buckets_indicator_sum (lo hi size d : ℤ) (hsize : 0 < size) (hlo : lo ≤ d)
    (hhi : d ≤ hi) (m : ℕ) :
    ((List.range (m + 1)).map fun i : ℕ =>
      if (bucketBounds lo hi size ((m + 1 : ℕ) : ℤ) i).1 ≤ d ∧
          d < (bucketBounds lo hi size ((m + 1 : ℕ) : ℤ) i).2 then (1 : ℤ) else 0).sum = 1 := by
  rw [List.range_succ, List.map_append, List.sum_append]
  have hfirst : ((List.range m).map fun i : ℕ =>
      if (bucketBounds lo hi size ((m + 1 : ℕ) : ℤ) i).1 ≤ d ∧
          d < (bucketBounds lo hi size ((m + 1 : ℕ) : ℤ) i).2 then (1 : ℤ) else 0) =
      (List.range m).map fun i : ℕ =>
        if lo + (i : ℤ) * size ≤ d ∧ d < lo + (i : ℤ) * size + size then (1 : ℤ) else 0 := by
    apply List.map_congr_left
    intro i hi
    have hi : i < m := List.mem_range.mp hi
    have hne : ¬ ((i : ℤ) = ((m + 1 : ℕ) : ℤ) - 1) := by push_cast; omega
    simp only [bucketBounds, if_neg hne]
  rw [hfirst, leading_buckets_sum lo size d hsize hlo m]
  have hlast : ((m : ℕ) : ℤ) = ((m + 1 : ℕ) : ℤ) - 1 := by push_cast; ring
  simp only [bucketBounds, if_pos hlast, List.map_cons, List.map_nil, List.sum_cons,
    List.sum_nil, add_zero]
  split_ifs <;> omega

theorem bucketCount_sum (lo hi size : ℤ) (hsize : 0 < size) (m : ℕ) (data : List ℤ)
    (hdata : ∀ d ∈ data, lo ≤ d ∧ d ≤ hi) :
    ((List.range (m + 1)).map fun i : ℕ =>
      bucketCount data lo hi size ((m + 1 : ℕ) : ℤ) i).sum = data.length := by
  induction data with
  | nil =>
    simp [bucketCount]
  | cons d ds ih =>
    have hstep : ((List.range (m + 1)).map fun i : ℕ =>
        bucketCount (d :: ds) lo hi size ((m + 1 : ℕ) : ℤ) i) =
        (List.range (m + 1)).map fun i : ℕ =>
          bucketCount ds lo hi size ((m + 1 : ℕ) : ℤ) i +
          (if (bucketBounds lo hi size ((m + 1 : ℕ) : ℤ) i).1 ≤ d ∧
            d < (bucketBounds lo hi size ((m + 1 : ℕ) : ℤ) i).2 then (1 : ℤ) else 0) := by
      apply List.map_congr_left
      intro i _
      simp only [bucketCount, List.countP_cons, decide_eq_true_eq]
      push_cast
      split_ifs <;> rfl
    rw [hstep, List.sum_map_add, ih (fun x hx => hdata x (List.mem_cons_of_mem _ hx)),
      buckets_indicator_sum lo hi size d hsize (hdata d (List.mem_cons_self _ _)).1
        (hdata d (List.mem_cons_self _ _)).2 m]
    simp

/-- Exactly one bucket index holds a sample between the bounds. -/
theorem bucket_unique (lo hi size d : ℤ) (hsize : 0 < size) (hlo : lo ≤ d) (hhi : d ≤ hi)
    (m : ℕ) :
    ∃! i : ℕ, i < m + 1 ∧ (bucketBounds lo hi size ((m + 1 : ℕ) : ℤ) i).1 ≤ d ∧
      d < (bucketBounds lo hi size ((m + 1 : ℕ) : ℤ) i).2 := by
  have hlt : ∀ i j : ℕ, i < j → j < m + 1 →
      ((bucketBounds lo hi size ((m + 1 : ℕ) : ℤ) i).1 ≤ d ∧
        d < (bucketBounds lo hi size ((m + 1 : ℕ) : ℤ) i).2) →
      ((bucketBounds lo hi size ((m + 1 : ℕ) : ℤ) j).1 ≤ d ∧
        d < (bucketBounds lo hi size ((m + 1 : ℕ) : ℤ) j).2) → False := by
    intro i j hij hj hi hj2
    have hne : ¬ ((i : ℤ) = ((m + 1 : ℕ) : ℤ) - 1) := by push_cast; omega
    simp only [bucketBounds, if_neg hne] at hi hj2
    have hmul : ((i : ℤ) + 1) * size ≤ (j : ℤ) * size :=
      mul_le_mul_of_nonneg_right (by exact_mod_cast hij) (le_of_lt hsize)
    have hexp : ((i : ℤ) + 1) * size = (i : ℤ) * size + size := by ring
    omega
  have hex : ∃ i : ℕ, i < m + 1 ∧ (bucketBounds lo hi size ((m + 1 : ℕ) : ℤ) i).1 ≤ d ∧
      d < (bucketBounds lo hi size ((m + 1 : ℕ) : ℤ) i).2 := by
    by_cases hd : d < lo + (m : ℤ) * size
    · have hq0 : 0 ≤ (d - lo) / size := Int.ediv_nonneg (by omega) (le_of_lt hsize)
      have hqm : (d - lo) / size < (m : ℤ) := Int.ediv_lt_of_lt_mul hsize (by omega)
      have hq1 : (d - lo) / size * size ≤ d - lo := Int.ediv_mul_le _ (ne_of_gt hsize)
      have hq2 : d - lo < ((d - lo) / size + 1) * size := Int.lt_ediv_add_one_mul_self _ hsize
      have hexp : ((d - lo) / size + 1) * size = (d - lo) / size * size + size := by ring
      refine ⟨((d - lo) / size).toNat, by omega, ?_⟩
      have hcast : ((((d - lo) / size).toNat : ℕ) : ℤ) = (d - lo) / size := Int.toNat_of_nonneg hq0
      have hne : ¬ ((d - lo) / size = ((m + 1 : ℕ) : ℤ) - 1) := by push_cast; omega
      simp only [bucketBounds, hcast, if_neg hne]
      constructor <;> omega
    · refine ⟨m, by omega, ?_⟩
      have hlast : ((m : ℕ) : ℤ) = ((m + 1 : ℕ) : ℤ) - 1 := by push_cast; ring
      simp only [bucketBounds, if_pos hlast]
      constructor <;> omega
  obtain ⟨i, hi1, hi2⟩ := hex
  refine ⟨i, ⟨hi1, hi2⟩, ?_⟩
  rintro j ⟨hj1, hj2⟩
  rcases Nat.lt_trichotomy i j with h | h | h
  · exact (hlt i j h hj1 hi2 hj2).elim
  · exact h.symm
  · exact (hlt j i h hi1 hj2 hi2).elim

/-- Claim C30. For a non-empty list of non-negative latencies and a positive
number of buckets, `renderHistogram` fills one count per bucket, every sample
lies in exactly one bucket, and the counts add up to the number of samples;
lists of equal samples and ranges narrower than the number of buckets are
included. -/
theorem C30_histogram_counts_sum (data : List ℤ) (buckets : ℤ) (hne : data ≠ [])
    (hnn : ∀ d ∈ data, 0 ≤ d) (hb : 0 < buckets) :
    ∃ counts, histogramCounts data buckets = some counts ∧
      (counts.length : ℤ) = buckets ∧
      counts.sum = data.length ∧
      ∀ d ∈ data, ∃! i : ℕ, (i : ℤ) < buckets ∧
        (bucketBounds (histogramRange data buckets).1 (histogramRange data buckets).2
          (histogramBucketSize (histogramRange data buckets).1 (histogramRange data buckets).2
            buckets) buckets i).1 ≤ d ∧
        d < (bucketBounds (histogramRange data buckets).1 (histogramRange data buckets).2
          (histogramBucketSize (histogramRange data buckets).1 (histogramRange data buckets).2
            buckets) buckets i).2 := by
  obtain ⟨m, hm⟩ : ∃ m : ℕ, buckets = ((m + 1 : ℕ) : ℤ) :=
    ⟨(buckets - 1).toNat, by push_cast; omega⟩
  have hrange := histogramRange_contains data buckets hnn hb
  have hsize := histogramBucketSize_pos (histogramRange data buckets).1
    (histogramRange data buckets).2 buckets
  have hlen : ¬ (data.length = 0 ∨ buckets ≤ 0) := by
    rintro (h | h)
    · exact hne (List.length_eq_zero.mp h)
    · omega
  have htoNat : buckets.toNat = m + 1 := by omega
  refine ⟨_, by unfold histogramCounts; rw [if_neg hlen], ?_, ?_, ?_⟩
  · simp only [List.length_map, List.length_range, htoNat]
    exact hm.symm
  · simp only [htoNat]
    rw [hm] at hsize ⊢
    rw [hm] at hrange
    exact bucketCount_sum _ _ _ hsize m data hrange
  · intro d hd
    rw [hm] at hsize ⊢
    rw [hm] at hrange
    obtain ⟨i, hi, huniq⟩ := bucket_unique _ _ _ d hsize (hrange d hd).1 (hrange d hd).2 m
    refine ⟨i, ⟨by exact_mod_cast hi.1, hi.2⟩, ?_⟩
    rintro j ⟨hj1, hj2⟩
    exact huniq j ⟨by exact_mod_cast hj1, hj2⟩

/-- Claim C30 on three equal samples in four buckets, and on two samples two
nanoseconds apart in five buckets. -/
theorem C30_histogram_counts_sum_witness :
    (∃ counts, histogramCounts [3, 3, 3] 4 = some counts ∧ counts.sum = 3) ∧
    (∃ counts, histogramCounts [12, 10] 5 = some counts ∧ counts.sum = 2) :=
  ⟨(C30_histogram_counts_sum [3, 3, 3] 4 (by decide) (by decide) (by decide)).imp
      fun _ h => ⟨h.1, h.2.2.1⟩,
   (C30_histogram_counts_sum [12, 10] 5 (by decide) (by decide) (by decide)).imp
      fun _ h => ⟨h.1, h.2.2.1⟩⟩

theorem histogramCounts_equal_samples : histogramCounts [3, 3, 3] 4 = some [3, 0, 0, 0] := by
  decide

theorem histogramCounts_narrow_range : histogramCounts [12, 10] 5 = some [2, 0, 0, 0, 0] := by
  decide

theorem histogramCounts_spread :
    histogramCounts [1000000, 9000000, 4000000, 5000000] 4 = some [1, 1, 1, 1] := by
  decide

end GoWrk
